import Mathlib

/-!
# Semi-implicit Euler weak forms and adaptive drivers

Shallow embedding of

* `src/2d-advanced/euler/forms_explicit.cpp` (class `EulerEquationsWeakFormSemiImplicit`
  and its nested forms),
* `src/2d-advanced/euler/forward-step-adapt/main.cpp`,
* `src/2d-advanced/euler/gamm-channel/main.cpp`,
* `src/2d-advanced/richards/capillary-barrier-rk/main.cpp`,
* `src/2d-advanced/maxwell/maxwell-debye-rk/main.cpp`.

Conventions.  A C++ `double` is an element of a linear ordered field `α` (exact arithmetic;
rounding is not modelled), except in `CapillaryBarrierRK.Doubles`, where `time_step`,
`current_time` and the norms are IEEE 754 binary64 values with the rounded operations of
`Binary64`.  A C array `double*` indexed by quadrature point is a map
`Nat → α`; a pointer that the code compares with `NULL` is an `Option`.  Reading through a
`NULL` pointer or outside an allocated cache row makes `value` return `none`.  Library calls
whose code is outside `src/` (numerical flux, `int_u_v`, `calc_energy`, Runge-Kutta step,
error estimators) are parameters of the definitions that use them.
-/

namespace Euler

/-- Array `double w[4]`: a state vector of the four conserved quantities. -/
abbrev Vec4 (α : Type) := Fin 4 → α

/-- Array `double T[4][4]`. -/
abbrev Mat4 (α : Type) := Fin 4 → Fin 4 → α

/-- Hermes `Func<double>`: values and first derivatives at the quadrature points. -/
structure Func (α : Type) where
  val : Nat → α
  dx : Nat → α
  dy : Nat → α

/-- Hermes `DiscontinuousFunc<double>`: traces on the central element and on the neighbour.
The code tests `val` against `NULL`, so both arrays are optional. -/
structure DiscontinuousFunc (α : Type) where
  val : Option (Nat → α)
  val_neighbor : Option (Nat → α)

/-- Hermes `Geom<double>`: the components of the unit outer normal at the quadrature points. -/
structure Geom (α : Type) where
  nx : Nat → α
  ny : Nat → α

/-- Methods of `StegerWarmingNumericalFlux` (declared in `numerical_flux.h`, outside `src/`).
Each method takes the member `kappa` first; the methods that read the member array `q`
take it as their second argument; output arrays are returned. -/
structure StegerWarmingNumericalFlux (α : Type) where
  P_plus : α → Vec4 α → Vec4 α → α → α → Vec4 α
  P_minus : α → Vec4 α → Vec4 α → α → α → Vec4 α
  Q : α → Vec4 α → α → α → Vec4 α
  Q_inv : α → Vec4 α → α → α → Vec4 α
  Lambda : α → Vec4 α → Vec4 α → Vec4 α
  T_1 : α → Vec4 α → Mat4 α → Mat4 α
  T_2 : α → Vec4 α → Mat4 α → Mat4 α
  T_3 : α → Vec4 α → Mat4 α → Mat4 α
  T_4 : α → Vec4 α → Mat4 α → Mat4 α
  T_inv_1 : α → Vec4 α → Mat4 α → Mat4 α
  T_inv_2 : α → Vec4 α → Mat4 α → Mat4 α
  T_inv_3 : α → Vec4 α → Mat4 α → Mat4 α
  T_inv_4 : α → Vec4 α → Mat4 α → Mat4 α

/-- Reading `a[p]` through a pointer that may be `NULL`. -/
def deref {α : Type} (a : Option (Nat → α)) (p : Nat) : Option α :=
  a.map (fun arr => arr p)

/-- One of the caches `P_plus_cache_*` / `P_minus_cache_*` together with its flag:
`new double*[13]`, each row `new double[16]`. -/
structure FluxCache (α : Type) where
  cacheReady : Bool
  P_plus_cache : Fin 13 → Fin 16 → α
  P_minus_cache : Fin 13 → Fin 16 → α

/-- Which cache of the weak form a form was handed in its constructor
(`&cacheReadyDG, P_plus_cache_DG, P_minus_cache_DG` or the `surf` triple). -/
inductive CacheSlot where
  | DG
  | Surf
deriving DecidableEq, Repr

/-- Mutable members of `EulerEquationsWeakFormSemiImplicit` that the forms read and write:
the current time step and the two caches. -/
structure WeakFormState (α : Type) where
  current_time_step : α
  cacheDG : FluxCache α
  cacheSurf : FluxCache α

/-- Dereference the cache pointers of a form. -/
def WeakFormState.cache {α : Type} (st : WeakFormState α) : CacheSlot → FluxCache α
  | CacheSlot.DG => st.cacheDG
  | CacheSlot.Surf => st.cacheSurf

/-- Store through the cache pointers of a form. -/
def WeakFormState.setCache {α : Type} (st : WeakFormState α) (s : CacheSlot)
    (c : FluxCache α) : WeakFormState α :=
  match s with
  | CacheSlot.DG => { st with cacheDG := c }
  | CacheSlot.Surf => { st with cacheSurf := c }

/-- Method `set_current_time_step` of the weak form. -/
def WeakFormState.set_current_time_step {α : Type} (st : WeakFormState α) (dt : α) :
    WeakFormState α :=
  { st with current_time_step := dt }

/-- Method `set_active_edge_state`. -/
def set_active_edge_state {α : Type} (st : WeakFormState α) : WeakFormState α :=
  { st with cacheSurf := { st.cacheSurf with cacheReady := false } }

/-- Method `set_active_DG_state`. -/
def set_active_DG_state {α : Type} (st : WeakFormState α) : WeakFormState α :=
  { st with cacheDG := { st.cacheDG with cacheReady := false } }

/-- Writing the four outputs of a flux call at `row + off`. -/
def writeAt {α : Type} (row : Fin 16 → α) (off : Nat) (r : Vec4 α) : Fin 16 → α :=
  fun idx =>
    if h : off ≤ idx.val ∧ idx.val < off + 4 then r ⟨idx.val - off, by omega⟩ else row idx

/-- Array `{1, 0, 0, 0}`. -/
def e_1 {α : Type} [Zero α] [One α] : Vec4 α := ![1, 0, 0, 0]

/-- Array `{0, 1, 0, 0}`. -/
def e_2 {α : Type} [Zero α] [One α] : Vec4 α := ![0, 1, 0, 0]

/-- Array `{0, 0, 1, 0}`. -/
def e_3 {α : Type} [Zero α] [One α] : Vec4 α := ![0, 0, 1, 0]

/-- Array `{0, 0, 0, 1}`. -/
def e_4 {α : Type} [Zero α] [One α] : Vec4 α := ![0, 0, 0, 1]

/-- Members of `EulerEquationsMatrixFormSurfSemiImplicit` (a `MatrixFormDG<double>`):
block indices, the `kappa` of its numerical flux and the cache it points to. -/
structure EulerEquationsMatrixFormSurfSemiImplicit (α : Type) where
  i : Fin 4
  j : Fin 4
  kappa : α
  cache : CacheSlot

/-- Body of the cache-filling loop of `EulerEquationsMatrixFormSurfSemiImplicit::value`
for one quadrature point. -/
def fillPointDG {α : Type} [LinearOrderedField α] (F : StegerWarmingNumericalFlux α)
    (kappa : α) (e : Geom α) (ext : Fin 4 → DiscontinuousFunc α)
    (c : FluxCache α) (point_i : Nat) : Option (FluxCache α) :=
  if h : point_i < 13 then do
    let w0 ← deref (ext 0).val point_i
    let w1 ← deref (ext 1).val point_i
    let w2 ← deref (ext 2).val point_i
    let w3 ← deref (ext 3).val point_i
    let w : Vec4 α := ![w0, w1, w2, w3]
    let pp := c.P_plus_cache ⟨point_i, h⟩
    let pp := writeAt pp 0 (F.P_plus kappa w e_1 (e.nx point_i) (e.ny point_i))
    let pp := writeAt pp 4 (F.P_plus kappa w e_2 (e.nx point_i) (e.ny point_i))
    let pp := writeAt pp 8 (F.P_plus kappa w e_3 (e.nx point_i) (e.ny point_i))
    let pp := writeAt pp 12 (F.P_plus kappa w e_4 (e.nx point_i) (e.ny point_i))
    let n0 ← deref (ext 0).val_neighbor point_i
    let n1 ← deref (ext 1).val_neighbor point_i
    let n2 ← deref (ext 2).val_neighbor point_i
    let n3 ← deref (ext 3).val_neighbor point_i
    let wn : Vec4 α := ![n0, n1, n2, n3]
    let pm := c.P_minus_cache ⟨point_i, h⟩
    let pm := writeAt pm 0 (F.P_minus kappa wn e_1 (e.nx point_i) (e.ny point_i))
    let pm := writeAt pm 4 (F.P_minus kappa wn e_2 (e.nx point_i) (e.ny point_i))
    let pm := writeAt pm 8 (F.P_minus kappa wn e_3 (e.nx point_i) (e.ny point_i))
    let pm := writeAt pm 12 (F.P_minus kappa wn e_4 (e.nx point_i) (e.ny point_i))
    pure { c with
      P_plus_cache := Function.update c.P_plus_cache ⟨point_i, h⟩ pp
      P_minus_cache := Function.update c.P_minus_cache ⟨point_i, h⟩ pm }
  else none

/-- The two rows that `fillPointDG` stores for one quadrature point: `fillPointDG` writes
the four flux results over the whole row, so the rows do not depend on the old row (see
`fillPointDG_eq`); here the writes start from a row of zeros. -/
def pointRowsDG {α : Type} [LinearOrderedField α] (F : StegerWarmingNumericalFlux α)
    (kappa : α) (e : Geom α) (ext : Fin 4 → DiscontinuousFunc α) (point_i : Nat) :
    Option ((Fin 16 → α) × (Fin 16 → α)) := do
  let w0 ← deref (ext 0).val point_i
  let w1 ← deref (ext 1).val point_i
  let w2 ← deref (ext 2).val point_i
  let w3 ← deref (ext 3).val point_i
  let w : Vec4 α := ![w0, w1, w2, w3]
  let n0 ← deref (ext 0).val_neighbor point_i
  let n1 ← deref (ext 1).val_neighbor point_i
  let n2 ← deref (ext 2).val_neighbor point_i
  let n3 ← deref (ext 3).val_neighbor point_i
  let wn : Vec4 α := ![n0, n1, n2, n3]
  pure
    (writeAt (writeAt (writeAt (writeAt (fun _ => 0)
        0 (F.P_plus kappa w e_1 (e.nx point_i) (e.ny point_i)))
        4 (F.P_plus kappa w e_2 (e.nx point_i) (e.ny point_i)))
        8 (F.P_plus kappa w e_3 (e.nx point_i) (e.ny point_i)))
        12 (F.P_plus kappa w e_4 (e.nx point_i) (e.ny point_i)),
      writeAt (writeAt (writeAt (writeAt (fun _ => 0)
        0 (F.P_minus kappa wn e_1 (e.nx point_i) (e.ny point_i)))
        4 (F.P_minus kappa wn e_2 (e.nx point_i) (e.ny point_i)))
        8 (F.P_minus kappa wn e_3 (e.nx point_i) (e.ny point_i)))
        12 (F.P_minus kappa wn e_4 (e.nx point_i) (e.ny point_i)))

/-- The guarded block `if(!(*this->cacheReady)) { ... *cacheReady = true; }` of the DG form. -/
def ensureCacheDG {α : Type} [LinearOrderedField α] (F : StegerWarmingNumericalFlux α)
    (kappa : α) (n : Nat) (e : Geom α) (ext : Fin 4 → DiscontinuousFunc α)
    (c : FluxCache α) : Option (FluxCache α) :=
  if !c.cacheReady then
    ((List.range n).foldlM (fillPointDG F kappa e ext) c).map
      (fun c1 => { c1 with cacheReady := true })
  else some c

/-- The entry `int index = j * 4 + i` of a cache row that holds block `(i, j)`. -/
def blockIndex (i j : Fin 4) : Fin 16 := ⟨j.val * 4 + i.val, by omega⟩

/-- One accumulation loop of the DG form: `result ±= wt[p] * (cache[p][index] * U[p]) * V[p]`,
where `sub` selects `-=`. -/
def accumulateDG {α : Type} [LinearOrderedField α] (sub : Bool) (n : Nat) (wt : Nat → α)
    (cacheRows : Fin 13 → Fin 16 → α) (index : Fin 16)
    (U V : Option (Nat → α)) : Option α :=
  (List.range n).foldlM
    (fun (result : α) (point_i : Nat) =>
      if h : point_i < 13 then do
        let uv ← deref U point_i
        let vv ← deref V point_i
        let term := wt point_i * (cacheRows ⟨point_i, h⟩ index * uv) * vv
        pure (if sub then result - term else result + term)
      else none)
    0

/-- The four accumulation loops of the DG form, selected by `if(u->val == NULL)` and
`if(v->val == NULL)`. -/
def accumulateBySide {α : Type} [LinearOrderedField α] (n : Nat) (wt : Nat → α)
    (c : FluxCache α) (index : Fin 16) (u v : DiscontinuousFunc α) : Option α :=
  match u.val with
  | none =>
    match v.val with
    | none => accumulateDG true n wt c.P_minus_cache index u.val_neighbor v.val_neighbor
    | some vval => accumulateDG false n wt c.P_minus_cache index u.val_neighbor (some vval)
  | some uval =>
    match v.val with
    | none => accumulateDG true n wt c.P_plus_cache index (some uval) v.val_neighbor
    | some vval => accumulateDG false n wt c.P_plus_cache index (some uval) (some vval)

/-- Method `EulerEquationsMatrixFormSurfSemiImplicit::value`.  Returns the value and the
weak-form state after the call. -/
def EulerEquationsMatrixFormSurfSemiImplicit.value {α : Type} [LinearOrderedField α]
    (F : StegerWarmingNumericalFlux α) (f : EulerEquationsMatrixFormSurfSemiImplicit α)
    (st : WeakFormState α) (n : Nat) (wt : Nat → α) (u v : DiscontinuousFunc α)
    (e : Geom α) (ext : Fin 4 → DiscontinuousFunc α) : Option (α × WeakFormState α) := do
  let c ← ensureCacheDG F f.kappa n e ext (st.cache f.cache)
  let index : Fin 16 := blockIndex f.i f.j
  let result ← accumulateBySide n wt c index u v
  pure (result * st.current_time_step, st.setCache f.cache c)

/-- The value that the specification gives for the DG form of block `(i, j)`:
`time_step * Σ_p s * wt[p] * M[p][i][j] * U[p] * V[p]`, where `M[p][i][j]` is component `i`
of `P_plus` at the central state (if `u` lives on the central element) or of `P_minus` at
the neighbour state (if `u` lives on the neighbour), applied to the unit vector `e_j`, and
`s = +1` if `v` is central, `s = -1` if `v` is on the neighbour. -/
def dgValueSpec {α : Type} [LinearOrderedField α] (F : StegerWarmingNumericalFlux α)
    (kappa : α) (i j : Fin 4) (time_step : α) (n : Nat) (wt : Nat → α) (e : Geom α)
    (central neighbour : Fin 4 → Nat → α)
    (uCentral : Bool) (U : Nat → α) (vCentral : Bool) (V : Nat → α) : α :=
  time_step * ∑ p in Finset.range n,
    (if vCentral then 1 else -1) * wt p
      * (if uCentral then
          F.P_plus kappa (fun k => central k p) (Pi.single j 1) (e.nx p) (e.ny p) i
        else
          F.P_minus kappa (fun k => neighbour k p) (Pi.single j 1) (e.nx p) (e.ny p) i)
      * U p * V p

/-- Methods `A_1_i_j` and `A_2_i_j` of `EulerFluxes` (declared in `euler_util.h`, outside
`src/`), as tables indexed by `(i, j)`; each takes the member `kappa` and then
`(rho, rho_v_x, rho_v_y, energy)`. -/
structure EulerFluxes (α : Type) where
  A_1 : Fin 4 → Fin 4 → α → α → α → α → α → α
  A_2 : Fin 4 → Fin 4 → α → α → α → α → α → α

/-- Members of `EulerEquationsBilinearFormTime` (`MatrixFormVol<double>(i, i)`). -/
structure EulerEquationsBilinearFormTime where
  i : Fin 4
deriving DecidableEq, Repr

/-- Method `EulerEquationsBilinearFormTime::value`; `int_u_v` is the Hermes integral
(outside `src/`). -/
def EulerEquationsBilinearFormTime.value {α : Type}
    (int_u_v : Nat → (Nat → α) → Func α → Func α → α)
    (_f : EulerEquationsBilinearFormTime) (_st : WeakFormState α) (n : Nat) (wt : Nat → α)
    (u v : Func α) (_e : Geom α) (_ext : Fin 4 → Func α) : α :=
  int_u_v n wt u v

/-- Members of `EulerEquationsLinearFormTime` (`VectorFormVol<double>(i)`). -/
structure EulerEquationsLinearFormTime where
  i : Fin 4
deriving DecidableEq, Repr

/-- Method `EulerEquationsLinearFormTime::value`. -/
def EulerEquationsLinearFormTime.value {α : Type}
    (int_u_v : Nat → (Nat → α) → Func α → Func α → α)
    (f : EulerEquationsLinearFormTime) (_st : WeakFormState α) (n : Nat) (wt : Nat → α)
    (v : Func α) (_e : Geom α) (ext : Fin 4 → Func α) : α :=
  int_u_v n wt (ext f.i) v

/-- Members of `EulerEquationsBilinearForm` (`MatrixFormVol<double>(i, j)`); `kappa` is the
argument of the shared `EulerFluxes` object. -/
structure EulerEquationsBilinearForm (α : Type) where
  i : Fin 4
  j : Fin 4
  kappa : α

/-- Method `EulerEquationsBilinearForm::value`.  The outer `switch(i)` is kept (rows 0 to 2
pass energy `0`, row 3 passes `rho_e`); the inner `switch(j)` selects the method
`A_k_i_j`, here the table entry. -/
def EulerEquationsBilinearForm.value {α : Type} [LinearOrderedField α]
    (E : EulerFluxes α) (f : EulerEquationsBilinearForm α) (st : WeakFormState α)
    (n : Nat) (wt : Nat → α) (u v : Func α) (_e : Geom α) (ext : Fin 4 → Func α) : α :=
  let result := (List.range n).foldl
    (fun (result : α) (point_i : Nat) =>
      let rho := (ext 0).val point_i
      let rho_v_x := (ext 1).val point_i
      let rho_v_y := (ext 2).val point_i
      let rho_e := (ext 3).val point_i
      match f.i with
      | 0 => result + wt point_i * u.val point_i *
          (E.A_1 0 f.j f.kappa rho rho_v_x rho_v_y 0 * v.dx point_i
            + E.A_2 0 f.j f.kappa rho rho_v_x rho_v_y 0 * v.dy point_i)
      | 1 => result + wt point_i * u.val point_i *
          (E.A_1 1 f.j f.kappa rho rho_v_x rho_v_y 0 * v.dx point_i
            + E.A_2 1 f.j f.kappa rho rho_v_x rho_v_y 0 * v.dy point_i)
      | 2 => result + wt point_i * u.val point_i *
          (E.A_1 2 f.j f.kappa rho rho_v_x rho_v_y 0 * v.dx point_i
            + E.A_2 2 f.j f.kappa rho rho_v_x rho_v_y 0 * v.dy point_i)
      | 3 => result + wt point_i * u.val point_i *
          (E.A_1 3 f.j f.kappa rho rho_v_x rho_v_y rho_e * v.dx point_i
            + E.A_2 3 f.j f.kappa rho rho_v_x rho_v_y rho_e * v.dy point_i))
    0
  (-result) * st.current_time_step

/-- Members of `EulerEquationsMatrixFormSemiImplicitInletOutlet` (`MatrixFormSurf<double>`). -/
structure EulerEquationsMatrixFormSemiImplicitInletOutlet (α : Type) where
  i : Fin 4
  j : Fin 4
  rho_ext : α
  v1_ext : α
  v2_ext : α
  energy_ext : α
  areas : List String
  kappa : α
  cache : CacheSlot

/-- Members of `EulerEquationsVectorFormSemiImplicitInletOutlet` (`VectorFormSurf<double>`). -/
structure EulerEquationsVectorFormSemiImplicitInletOutlet (α : Type) where
  i : Fin 4
  rho_ext : α
  v1_ext : α
  v2_ext : α
  energy_ext : α
  areas : List String
  kappa : α

/-- The "prescribed" boundary state `w_B` of both inlet/outlet forms. -/
def prescribedState {α : Type} [Mul α] (rho_ext v1_ext v2_ext energy_ext : α) : Vec4 α :=
  ![rho_ext, rho_ext * v1_ext, rho_ext * v2_ext, energy_ext]

/-- Array `w_B` of `EulerEquationsMatrixFormSemiImplicitInletOutlet::value`. -/
def EulerEquationsMatrixFormSemiImplicitInletOutlet.w_B {α : Type} [Mul α]
    (f : EulerEquationsMatrixFormSemiImplicitInletOutlet α) : Vec4 α :=
  prescribedState f.rho_ext f.v1_ext f.v2_ext f.energy_ext

/-- Array `w_B` of `EulerEquationsVectorFormSemiImplicitInletOutlet::value`. -/
def EulerEquationsVectorFormSemiImplicitInletOutlet.w_B {α : Type} [Mul α]
    (f : EulerEquationsVectorFormSemiImplicitInletOutlet α) : Vec4 α :=
  prescribedState f.rho_ext f.v1_ext f.v2_ext f.energy_ext

/-- The statements that both inlet/outlet forms execute at one quadrature point, from
"Inner state" down to `w_temp`: returns `(w_ji, w_temp)`. -/
def boundaryStates {α : Type} [LinearOrderedField α] (F : StegerWarmingNumericalFlux α)
    (kappa : α) (w_B : Vec4 α) (e : Geom α) (ext : Fin 4 → Func α) (point_i : Nat) :
    Vec4 α × Vec4 α :=
  let w_L : Vec4 α :=
    ![(ext 0).val point_i, (ext 1).val point_i, (ext 2).val point_i, (ext 3).val point_i]
  let q := F.Q kappa w_L (e.nx point_i) (e.ny point_i)
  let eigenvalues := F.Lambda kappa q (fun _ => 0)
  let T := F.T_4 kappa q (F.T_3 kappa q (F.T_2 kappa q (F.T_1 kappa q (fun _ _ => 0))))
  let T_inv :=
    F.T_inv_4 kappa q (F.T_inv_3 kappa q (F.T_inv_2 kappa q (F.T_inv_1 kappa q (fun _ _ => 0))))
  let q_ji_star := F.Q kappa w_B (e.nx point_i) (e.ny point_i)
  let alpha : Vec4 α := fun ai =>
    (List.finRange 4).foldl (fun acc aj => acc + T_inv ai aj * q aj) 0
  let beta : Vec4 α := fun bi =>
    (List.finRange 4).foldl (fun acc bj => acc + T_inv bi bj * q_ji_star bj) 0
  let q_ji : Vec4 α := fun si =>
    (List.finRange 4).foldl
      (fun acc sj =>
        if eigenvalues sj < 0 then acc + beta sj * T si sj else acc + alpha sj * T si sj)
      0
  let w_ji := F.Q_inv kappa q_ji (e.nx point_i) (e.ny point_i)
  let w_temp : Vec4 α := fun k => (w_ji k + w_L k) / 2
  (w_ji, w_temp)

/-- Body of the cache-filling loop of
`EulerEquationsMatrixFormSemiImplicitInletOutlet::value` for one quadrature point. -/
def fillPointSurf {α : Type} [LinearOrderedField α] (F : StegerWarmingNumericalFlux α)
    (kappa : α) (w_B : Vec4 α) (e : Geom α) (ext : Fin 4 → Func α)
    (c : FluxCache α) (point_i : Nat) : Option (FluxCache α) :=
  if h : point_i < 13 then
    let w_temp := (boundaryStates F kappa w_B e ext point_i).2
    let pp := c.P_plus_cache ⟨point_i, h⟩
    let pp := writeAt pp 0 (F.P_plus kappa w_temp e_1 (e.nx point_i) (e.ny point_i))
    let pp := writeAt pp 4 (F.P_plus kappa w_temp e_2 (e.nx point_i) (e.ny point_i))
    let pp := writeAt pp 8 (F.P_plus kappa w_temp e_3 (e.nx point_i) (e.ny point_i))
    let pp := writeAt pp 12 (F.P_plus kappa w_temp e_4 (e.nx point_i) (e.ny point_i))
    some { c with P_plus_cache := Function.update c.P_plus_cache ⟨point_i, h⟩ pp }
  else none

/-- The guarded block `if(!(*this->cacheReady)) { ... *cacheReady = true; }` of the
inlet/outlet matrix form. -/
def ensureCacheSurf {α : Type} [LinearOrderedField α] (F : StegerWarmingNumericalFlux α)
    (kappa : α) (w_B : Vec4 α) (n : Nat) (e : Geom α) (ext : Fin 4 → Func α)
    (c : FluxCache α) : Option (FluxCache α) :=
  if !c.cacheReady then
    ((List.range n).foldlM (fillPointSurf F kappa w_B e ext) c).map
      (fun c1 => { c1 with cacheReady := true })
  else some c

/-- The accumulation loop of the inlet/outlet matrix form:
`result += wt[p] * P_plus_cache[p][index] * u->val[p] * v->val[p]`. -/
def accumulateSurf {α : Type} [LinearOrderedField α] (n : Nat) (wt : Nat → α)
    (cacheRows : Fin 13 → Fin 16 → α) (index : Fin 16) (u v : Func α) : Option α :=
  (List.range n).foldlM
    (fun (result : α) (point_i : Nat) =>
      if h : point_i < 13 then
        some (result + wt point_i * cacheRows ⟨point_i, h⟩ index * u.val point_i
          * v.val point_i)
      else none)
    0

/-- Method `EulerEquationsMatrixFormSemiImplicitInletOutlet::value`.  Returns the value and
the weak-form state after the call. -/
def EulerEquationsMatrixFormSemiImplicitInletOutlet.value {α : Type} [LinearOrderedField α]
    (F : StegerWarmingNumericalFlux α)
    (f : EulerEquationsMatrixFormSemiImplicitInletOutlet α)
    (st : WeakFormState α) (n : Nat) (wt : Nat → α) (u v : Func α)
    (e : Geom α) (ext : Fin 4 → Func α) : Option (α × WeakFormState α) := do
  let c ← ensureCacheSurf F f.kappa f.w_B n e ext (st.cache f.cache)
  let index : Fin 16 := blockIndex f.i f.j
  let result ← accumulateSurf n wt c.P_plus_cache index u v
  pure (result * st.current_time_step, st.setCache f.cache c)

/-- Method `EulerEquationsVectorFormSemiImplicitInletOutlet::value`. -/
def EulerEquationsVectorFormSemiImplicitInletOutlet.value {α : Type} [LinearOrderedField α]
    (F : StegerWarmingNumericalFlux α)
    (f : EulerEquationsVectorFormSemiImplicitInletOutlet α)
    (st : WeakFormState α) (n : Nat) (wt : Nat → α) (v : Func α)
    (e : Geom α) (ext : Fin 4 → Func α) : α :=
  let result := (List.range n).foldl
    (fun (result : α) (point_i : Nat) =>
      let ws := boundaryStates F f.kappa f.w_B e ext point_i
      let P_minus := F.P_minus f.kappa ws.2 ws.1 (e.nx point_i) (e.ny point_i)
      result + wt point_i * (P_minus f.i) * v.val point_i)
    0
  (-result) * st.current_time_step

/-- Members of `EulerEquationsMatrixFormSolidWall` (`MatrixFormSurf<double>`). -/
structure EulerEquationsMatrixFormSolidWall (α : Type) where
  i : Fin 4
  j : Fin 4
  areas : List String
  kappa : α

/-- Method `EulerEquationsMatrixFormSolidWall::value`.  The sixteen
`if(i == a && j == b) { result += ... P[a][b] ...; continue; }` statements select the entry
`P[i][j]`. -/
def EulerEquationsMatrixFormSolidWall.value {α : Type} [LinearOrderedField α]
    (f : EulerEquationsMatrixFormSolidWall α) (st : WeakFormState α)
    (n : Nat) (wt : Nat → α) (u v : Func α) (e : Geom α) (ext : Fin 4 → Func α) : α :=
  let kappa := f.kappa
  let result := (List.range n).foldl
    (fun (result : α) (point_i : Nat) =>
      let rho := (ext 0).val point_i
      let v_1 := (ext 1).val point_i / rho
      let v_2 := (ext 2).val point_i / rho
      let P : Mat4 α :=
        ![![0, 0, 0, 0],
          ![(kappa - 1) * (v_1 * v_1 + v_2 * v_2) * e.nx point_i / 2,
            (kappa - 1) * (-v_1) * e.nx point_i,
            (kappa - 1) * (-v_2) * e.nx point_i,
            (kappa - 1) * e.nx point_i],
          ![(kappa - 1) * (v_1 * v_1 + v_2 * v_2) * e.ny point_i / 2,
            (kappa - 1) * (-v_1) * e.ny point_i,
            (kappa - 1) * (-v_2) * e.ny point_i,
            (kappa - 1) * e.ny point_i],
          ![0, 0, 0, 0]]
      result + wt point_i * P f.i f.j * u.val point_i * v.val point_i)
    0
  result * st.current_time_step

/-- A form stored by `add_matrix_form` (pointer to `MatrixFormVol<double>`). -/
inductive MatrixFormVol (α : Type) where
  | time (f : EulerEquationsBilinearFormTime)
  | flux (f : EulerEquationsBilinearForm α)

/-- A form stored by `add_matrix_form_surf` (pointer to `MatrixFormSurf<double>`). -/
inductive MatrixFormSurf (α : Type) where
  | inletOutlet (f : EulerEquationsMatrixFormSemiImplicitInletOutlet α)
  | solidWall (f : EulerEquationsMatrixFormSolidWall α)

/-- Row index `i` of a surface matrix form. -/
def MatrixFormSurf.i {α : Type} : MatrixFormSurf α → Fin 4
  | MatrixFormSurf.inletOutlet f => f.i
  | MatrixFormSurf.solidWall f => f.i

/-- Column index `j` of a surface matrix form. -/
def MatrixFormSurf.j {α : Type} : MatrixFormSurf α → Fin 4
  | MatrixFormSurf.inletOutlet f => f.j
  | MatrixFormSurf.solidWall f => f.j

/-- Members of `EulerEquationsWeakFormSemiImplicit` set by its constructors, with the form
lists of the base class `WeakForm<double>` (`mfvol`, `mfDG`, `mfsurf`, `vfvol`, `vfsurf`).
Solutions have type `σ`. -/
structure EulerEquationsWeakFormSemiImplicit (α σ : Type) where
  neq : Int
  kappa : α
  fvm_only : Bool
  solid_wall_markers : List String
  inlet_markers : List String
  outlet_markers : List String
  prev_density : σ
  prev_density_vel_x : σ
  prev_density_vel_y : σ
  prev_energy : σ
  rho_ext : List α
  v1_ext : List α
  v2_ext : List α
  pressure_ext : List α
  energy_ext : List α
  oneInflow : Bool
  dgForms : List (EulerEquationsMatrixFormSurfSemiImplicit α)
  dgFormsInletOutlet : List (EulerEquationsMatrixFormSemiImplicitInletOutlet α)
  mfvol : List (MatrixFormVol α)
  mfDG : List (EulerEquationsMatrixFormSurfSemiImplicit α)
  mfsurf : List (MatrixFormSurf α)
  vfvol : List EulerEquationsLinearFormTime
  vfsurf : List (EulerEquationsVectorFormSemiImplicitInletOutlet α)
  ext : List σ

/-- Body of the inner loop `for(form_j ...)` of the one-inflow constructor; `energy_ext0`
is `energy_ext[0]`. -/
def oneInflowBlock {α σ : Type} [LinearOrderedField α]
    (kappa rho_ext v1_ext v2_ext energy_ext0 : α)
    (solid_wall_markers inlet_markers outlet_markers : List String) (fvm_only : Bool)
    (form_i : Fin 4) (wf : EulerEquationsWeakFormSemiImplicit α σ) (form_j : Fin 4) :
    EulerEquationsWeakFormSemiImplicit α σ :=
  let wf :=
    if !fvm_only then
      { wf with mfvol := wf.mfvol ++ [MatrixFormVol.flux ⟨form_i, form_j, kappa⟩] }
    else wf
  let formDG : EulerEquationsMatrixFormSurfSemiImplicit α :=
    ⟨form_i, form_j, kappa, CacheSlot.DG⟩
  let wf := { wf with dgForms := wf.dgForms ++ [formDG] }
  let wf := { wf with mfDG := wf.mfDG ++ [formDG] }
  let formSurf : EulerEquationsMatrixFormSemiImplicitInletOutlet α :=
    ⟨form_i, form_j, rho_ext, v1_ext, v2_ext, energy_ext0, inlet_markers, kappa, CacheSlot.Surf⟩
  let wf := { wf with dgFormsInletOutlet := wf.dgFormsInletOutlet ++ [formSurf] }
  let wf := { wf with mfsurf := wf.mfsurf ++ [MatrixFormSurf.inletOutlet formSurf] }
  let wf :=
    if outlet_markers.length > 0 then
      let formSurf : EulerEquationsMatrixFormSemiImplicitInletOutlet α :=
        ⟨form_i, form_j, 0, 0, 0, 0, outlet_markers, kappa, CacheSlot.Surf⟩
      let wf := { wf with dgFormsInletOutlet := wf.dgFormsInletOutlet ++ [formSurf] }
      { wf with mfsurf := wf.mfsurf ++ [MatrixFormSurf.inletOutlet formSurf] }
    else wf
  { wf with mfsurf := wf.mfsurf ++ [MatrixFormSurf.solidWall ⟨form_i, form_j, solid_wall_markers, kappa⟩] }

/-- Body of the outer loop `for(form_i ...)` of the one-inflow constructor. -/
def oneInflowRow {α σ : Type} [LinearOrderedField α]
    (kappa rho_ext v1_ext v2_ext energy_ext0 : α)
    (solid_wall_markers inlet_markers outlet_markers : List String) (fvm_only : Bool)
    (wf : EulerEquationsWeakFormSemiImplicit α σ) (form_i : Fin 4) :
    EulerEquationsWeakFormSemiImplicit α σ :=
  let wf := { wf with mfvol := wf.mfvol ++ [MatrixFormVol.time ⟨form_i⟩] }
  let wf := { wf with vfvol := wf.vfvol ++ [EulerEquationsLinearFormTime.mk form_i] }
  let wf := { wf with vfsurf := wf.vfsurf ++
    [EulerEquationsVectorFormSemiImplicitInletOutlet.mk form_i rho_ext v1_ext v2_ext
      energy_ext0 inlet_markers kappa] }
  let wf :=
    if outlet_markers.length > 0 then
      { wf with vfsurf := wf.vfsurf ++
        [EulerEquationsVectorFormSemiImplicitInletOutlet.mk form_i 0 0 0 0
          outlet_markers kappa] }
    else wf
  (List.finRange 4).foldl
    (oneInflowBlock kappa rho_ext v1_ext v2_ext energy_ext0
      solid_wall_markers inlet_markers outlet_markers fvm_only form_i)
    wf

/-- Constructor of `EulerEquationsWeakFormSemiImplicit` "for one inflow";
`calc_energy` is `QuantityCalculator::calc_energy` (declared in `euler_util.h`, outside
`src/`). -/
def EulerEquationsWeakFormSemiImplicit.oneInflowCtor {α σ : Type} [LinearOrderedField α]
    (calc_energy : α → α → α → α → α → α)
    (kappa rho_ext v1_ext v2_ext pressure_ext : α)
    (solid_wall_markers inlet_markers outlet_markers : List String)
    (prev_density prev_density_vel_x prev_density_vel_y prev_energy : σ)
    (fvm_only : Bool) (num_of_equations : Int) : EulerEquationsWeakFormSemiImplicit α σ :=
  let energy_ext0 := calc_energy rho_ext (rho_ext * v1_ext) (rho_ext * v2_ext) pressure_ext kappa
  let wf : EulerEquationsWeakFormSemiImplicit α σ :=
    { neq := num_of_equations
      kappa := kappa
      fvm_only := fvm_only
      solid_wall_markers := solid_wall_markers
      inlet_markers := inlet_markers
      outlet_markers := outlet_markers
      prev_density := prev_density
      prev_density_vel_x := prev_density_vel_x
      prev_density_vel_y := prev_density_vel_y
      prev_energy := prev_energy
      rho_ext := [rho_ext]
      v1_ext := [v1_ext]
      v2_ext := [v2_ext]
      pressure_ext := [pressure_ext]
      energy_ext := [energy_ext0]
      oneInflow := true
      dgForms := []
      dgFormsInletOutlet := []
      mfvol := []
      mfDG := []
      mfsurf := []
      vfvol := []
      vfsurf := []
      ext := [] }
  let wf := (List.finRange 4).foldl
    (oneInflowRow kappa rho_ext v1_ext v2_ext energy_ext0
      solid_wall_markers inlet_markers outlet_markers fvm_only)
    wf
  { wf with ext := [prev_density, prev_density_vel_x, prev_density_vel_y, prev_energy] }

/-- A numerical flux for evaluating the forms on concrete data: `P_plus` and `P_minus`
return their parameter vector, `Q` and `Q_inv` return the state. -/
def sampleFlux : StegerWarmingNumericalFlux ℚ :=
  { P_plus := fun _ _ param _ _ => param
    P_minus := fun _ _ param _ _ => param
    Q := fun _ w _ _ => w
    Q_inv := fun _ w _ _ => w
    Lambda := fun _ q _ => q
    T_1 := fun _ _ T => T
    T_2 := fun _ _ T => T
    T_3 := fun _ _ T => T
    T_4 := fun _ _ T => T
    T_inv_1 := fun _ _ T => T
    T_inv_2 := fun _ _ T => T
    T_inv_3 := fun _ _ T => T
    T_inv_4 := fun _ _ T => T }

/-- A cache of zeros with the given flag. -/
def zeroCache (ready : Bool) : FluxCache ℚ :=
  { cacheReady := ready, P_plus_cache := fun _ _ => 0, P_minus_cache := fun _ _ => 0 }

/-- A weak-form state with time step `1` whose caches hold zeros and are flagged ready. -/
def staleState : WeakFormState ℚ :=
  { current_time_step := 1, cacheDG := zeroCache true, cacheSurf := zeroCache true }

/-- A weak-form state with time step `1` whose caches are flagged not ready. -/
def freshState : WeakFormState ℚ :=
  { current_time_step := 1, cacheDG := zeroCache false, cacheSurf := zeroCache false }

/-- A function that lives on the central element, with value `1` at every point. -/
def sampleCentral : DiscontinuousFunc ℚ :=
  { val := some (fun _ => 1), val_neighbor := none }

/-- A solution component with value `1` on both sides of the edge. -/
def sampleExt : Fin 4 → DiscontinuousFunc ℚ :=
  fun _ => { val := some (fun _ => 1), val_neighbor := some (fun _ => 1) }

/-- An edge with normal `(1, 0)` at every point. -/
def sampleGeom : Geom ℚ :=
  { nx := fun _ => 1, ny := fun _ => 0 }

/-- The DG form of block `(0, 0)` with `kappa = 1.4`. -/
def sampleFormDG : EulerEquationsMatrixFormSurfSemiImplicit ℚ :=
  ⟨0, 0, 14 / 10, CacheSlot.DG⟩

/-- The DG form of block `(1, 0)` with `kappa = 1.4`. -/
def sampleFormDG10 : EulerEquationsMatrixFormSurfSemiImplicit ℚ :=
  ⟨1, 0, 14 / 10, CacheSlot.DG⟩

/-- A weak form built by the one-inflow constructor with `kappa = 1.4`, external state
`rho = 1`, `v = (1, 0)`, `p = 1`, one marker of each kind, solutions of type `Unit`, and an
energy function that returns the pressure. -/
def sampleWeakForm : EulerEquationsWeakFormSemiImplicit ℚ Unit :=
  EulerEquationsWeakFormSemiImplicit.oneInflowCtor (fun _ _ _ p _ => p)
    (14 / 10) 1 1 0 1 ["wall"] ["in"] ["out"] () () () () false 4

/-- Hermes `ConstantSolution<double>(&mesh, constant)`. -/
structure ConstantSolution (α : Type) where
  constant : α

end Euler

namespace ForwardStepAdapt

open Euler

/-- Constant `P_EXT = 1.0`. -/
def P_EXT : ℚ := 1

/-- Constant `RHO_EXT = 1.4`. -/
def RHO_EXT : ℚ := 14 / 10

/-- Constant `V1_EXT = 3.0`. -/
def V1_EXT : ℚ := 3

/-- Constant `V2_EXT = 0.0`. -/
def V2_EXT : ℚ := 0

/-- Constant `KAPPA = 1.4`. -/
def KAPPA : ℚ := 14 / 10

/-- Boundary marker `BDY_SOLID_WALL_BOTTOM`. -/
def BDY_SOLID_WALL_BOTTOM : String := "1"

/-- Boundary marker `BDY_OUTLET`. -/
def BDY_OUTLET : String := "2"

/-- Boundary marker `BDY_SOLID_WALL_TOP`. -/
def BDY_SOLID_WALL_TOP : String := "3"

/-- Boundary marker `BDY_INLET`. -/
def BDY_INLET : String := "4"

/-- Solution `sln_rho`. -/
def sln_rho : ConstantSolution ℚ := ⟨RHO_EXT⟩

/-- Solution `sln_rho_v_x`. -/
def sln_rho_v_x : ConstantSolution ℚ := ⟨RHO_EXT * V1_EXT⟩

/-- Solution `sln_rho_v_y`. -/
def sln_rho_v_y : ConstantSolution ℚ := ⟨RHO_EXT * V2_EXT⟩

/-- Solution `sln_e`. -/
def sln_e (calc_energy : ℚ → ℚ → ℚ → ℚ → ℚ → ℚ) : ConstantSolution ℚ :=
  ⟨calc_energy RHO_EXT (RHO_EXT * V1_EXT) (RHO_EXT * V2_EXT) P_EXT KAPPA⟩

/-- Solution `prev_rho`. -/
def prev_rho : ConstantSolution ℚ := ⟨RHO_EXT⟩

/-- Solution `prev_rho_v_x`. -/
def prev_rho_v_x : ConstantSolution ℚ := ⟨RHO_EXT * V1_EXT⟩

/-- Solution `prev_rho_v_y`. -/
def prev_rho_v_y : ConstantSolution ℚ := ⟨RHO_EXT * V2_EXT⟩

/-- Solution `prev_e`. -/
def prev_e (calc_energy : ℚ → ℚ → ℚ → ℚ → ℚ → ℚ) : ConstantSolution ℚ :=
  ⟨calc_energy RHO_EXT (RHO_EXT * V1_EXT) (RHO_EXT * V2_EXT) P_EXT KAPPA⟩

/-- Solution `rsln_rho`. -/
def rsln_rho : ConstantSolution ℚ := ⟨RHO_EXT⟩

/-- Solution `rsln_rho_v_x`. -/
def rsln_rho_v_x : ConstantSolution ℚ := ⟨RHO_EXT * V1_EXT⟩

/-- Solution `rsln_rho_v_y`. -/
def rsln_rho_v_y : ConstantSolution ℚ := ⟨RHO_EXT * V2_EXT⟩

/-- Solution `rsln_e`. -/
def rsln_e (calc_energy : ℚ → ℚ → ℚ → ℚ → ℚ → ℚ) : ConstantSolution ℚ :=
  ⟨calc_energy RHO_EXT (RHO_EXT * V1_EXT) (RHO_EXT * V2_EXT) P_EXT KAPPA⟩

/-- Vector `solid_wall_markers` of `main`. -/
def solid_wall_markers : List String := [BDY_SOLID_WALL_BOTTOM, BDY_SOLID_WALL_TOP]

/-- Vector `inlet_markers` of `main`. -/
def inlet_markers : List String := [BDY_INLET]

/-- Vector `outlet_markers` of `main`. -/
def outlet_markers : List String := [BDY_OUTLET]

/-- Weak form `wf` of `main` (defaults `fvm_only = false`, `num_of_equations = 4`). -/
def wf (calc_energy : ℚ → ℚ → ℚ → ℚ → ℚ → ℚ) :
    EulerEquationsWeakFormSemiImplicit ℚ (ConstantSolution ℚ) :=
  EulerEquationsWeakFormSemiImplicit.oneInflowCtor calc_energy
    KAPPA RHO_EXT V1_EXT V2_EXT P_EXT solid_wall_markers inlet_markers outlet_markers
    prev_rho prev_rho_v_x prev_rho_v_y (prev_e calc_energy) false 4

end ForwardStepAdapt

namespace GammChannel

open Euler

/-- Constant `P_EXT = 2.5`. -/
def P_EXT : ℚ := 25 / 10

/-- Constant `RHO_EXT = 1.0`. -/
def RHO_EXT : ℚ := 1

/-- Constant `V1_EXT = 1.25`. -/
def V1_EXT : ℚ := 125 / 100

/-- Constant `V2_EXT = 0.0`. -/
def V2_EXT : ℚ := 0

/-- Constant `KAPPA = 1.4`. -/
def KAPPA : ℚ := 14 / 10

/-- Constant `P_INIT = 1`. -/
def P_INIT : Int := 1

/-- Solution `prev_rho`. -/
def prev_rho : ConstantSolution ℚ := ⟨RHO_EXT⟩

/-- Solution `prev_rho_v_x`. -/
def prev_rho_v_x : ConstantSolution ℚ := ⟨RHO_EXT * V1_EXT⟩

/-- Solution `prev_rho_v_y`. -/
def prev_rho_v_y : ConstantSolution ℚ := ⟨RHO_EXT * V2_EXT⟩

/-- Solution `prev_e`. -/
def prev_e (calc_energy : ℚ → ℚ → ℚ → ℚ → ℚ → ℚ) : ConstantSolution ℚ :=
  ⟨calc_energy RHO_EXT (RHO_EXT * V1_EXT) (RHO_EXT * V2_EXT) P_EXT KAPPA⟩

/-- Weak form `wf` of `main`.  The call passes the four boundary markers one by one, which
does not match the marker vectors of the constructor in `forms_explicit.cpp`; the marker
vectors are therefore arguments here, the remaining arguments are those of the call. -/
def wf (calc_energy : ℚ → ℚ → ℚ → ℚ → ℚ → ℚ)
    (solid_wall_markers inlet_markers outlet_markers : List String) :
    EulerEquationsWeakFormSemiImplicit ℚ (ConstantSolution ℚ) :=
  EulerEquationsWeakFormSemiImplicit.oneInflowCtor calc_energy
    KAPPA RHO_EXT V1_EXT V2_EXT P_EXT solid_wall_markers inlet_markers outlet_markers
    prev_rho prev_rho_v_x prev_rho_v_y (prev_e calc_energy) (P_INIT == 0) 4

end GammChannel

namespace CapillaryBarrierRK

/-- Initial value of the global `time_step = 0.3`. -/
def time_step_init : ℚ := 3 / 10

/-- Constant `time_tol_upper = 1.0`. -/
def time_tol_upper : ℚ := 1

/-- Constant `time_tol_lower = 0.5`. -/
def time_tol_lower : ℚ := 5 / 10

/-- Global `time_step_dec = 0.8`. -/
def time_step_dec : ℚ := 8 / 10

/-- Global `time_step_inc = 1.1`. -/
def time_step_inc : ℚ := 11 / 10

/-- Global `time_step_min = 1e-8`. -/
def time_step_min : ℚ := 1 / 100000000

/-- Constant `T_FINAL = 1000.0`. -/
def T_FINAL : ℚ := 1000

/-- Variables of `main` that live across iterations of the time loop; solutions have
type `σ`.  (`h_time_new` and `time_error_fn` are overwritten by every successful
Runge-Kutta step before they are read.) -/
structure LoopState (σ : Type) where
  time_step : ℚ
  current_time : ℚ
  ts : Int
  h_time_prev : σ

/-- Hermes calls of the time loop (outside `src/`).  `rk_time_step_newton current_time
time_step h_time_prev` is `none` when the call throws and `some (h_time_new, time_error_fn)`
otherwise; `calc_norm` is `Global<double>::calc_norm(·, HERMES_H1_NORM)`. -/
structure Library (σ : Type) where
  rk_time_step_newton : ℚ → ℚ → σ → Option (σ × σ)
  calc_norm : σ → ℚ

/-- How one pass through the body of the `do ... while` loop ends. -/
inductive Outcome (σ : Type) where
  | thrown (what : String) (s : LoopState σ)
  | nextIteration (s : LoopState σ)
  | loopExit (s : LoopState σ)

/-- The test `while (current_time < T_FINAL)`, reached at the end of the body and by
`continue`. -/
def loopCondition {σ : Type} (s : LoopState σ) : Outcome σ :=
  if s.current_time < T_FINAL then Outcome.nextIteration s else Outcome.loopExit s

/-- One pass through the body of the time-stepping loop of `main`, with the arithmetic on
`time_step` and `current_time` exact; this is the model for the branch structure of the catch
and rejection branches.  `CapillaryBarrierRK.Doubles.iteration` is the same pass with every
operation on a `double` rounded. -/
def iteration {σ : Type} (L : Library σ) (s : LoopState σ) : Outcome σ :=
  match L.rk_time_step_newton s.current_time s.time_step s.h_time_prev with
  | none =>
    let s := { s with time_step := s.time_step * time_step_dec }
    if s.time_step < time_step_min then
      Outcome.thrown "Time step became too small." s
    else loopCondition s
  | some (h_time_new, time_error_fn) =>
    let s := { s with h_time_prev := h_time_new }
    let rel_err_time := L.calc_norm time_error_fn / L.calc_norm h_time_new * 100
    if rel_err_time > time_tol_upper then
      let s := { s with time_step := s.time_step * time_step_dec }
      loopCondition s
    else
      let s :=
        if rel_err_time < time_tol_lower then
          { s with time_step := s.time_step * time_step_inc }
        else s
      let s := { s with current_time := s.current_time + s.time_step }
      let s := { s with h_time_prev := h_time_new }
      let s := { s with ts := s.ts + 1 }
      loopCondition s

/-- The variables of `main` when the pass ends. -/
def Outcome.state {σ : Type} : Outcome σ → LoopState σ
  | Outcome.thrown _ s => s
  | Outcome.nextIteration s => s
  | Outcome.loopExit s => s

/-- Whether the pass ended by throwing out of the loop, and with which message. -/
def Outcome.what {σ : Type} : Outcome σ → Option String
  | Outcome.thrown w _ => some w
  | Outcome.nextIteration _ => none
  | Outcome.loopExit _ => none

/-- Whether the pass ends with the loop going on: the next pass calls
`rk_time_step_newton` again. -/
def Outcome.attemptsAnotherStep {σ : Type} : Outcome σ → Bool
  | Outcome.nextIteration _ => true
  | _ => false

/-- State at the first entry of the loop; `zero` is `ZeroSolution<double> h_time_prev`. -/
def initialState {σ : Type} (zero : σ) : LoopState σ :=
  { time_step := time_step_init, current_time := 0, ts := 1, h_time_prev := zero }

/-- At most `k` passes through the loop body, starting in `s`. -/
def run {σ : Type} (L : Library σ) : Nat → LoopState σ → Outcome σ
  | 0, s => Outcome.nextIteration s
  | k + 1, s =>
    match iteration L s with
    | Outcome.nextIteration s1 => run L k s1
    | o => o

/-- A library whose Runge-Kutta step always succeeds with new solution `100` and error
function `2` (solutions are labelled by their norm), so that `rel_err_time = 2`. -/
def rejectingLibrary : Library ℚ :=
  { rk_time_step_newton := fun _ _ _ => some (100, 2), calc_norm := fun x => x }

/-- A library whose Runge-Kutta step always throws. -/
def failingLibrary : Library ℚ :=
  { rk_time_step_newton := fun _ _ _ => none, calc_norm := fun x => x }

end CapillaryBarrierRK

namespace Binary64

/-- Values of the C++ type `double` in the IEEE 754 binary64 format: `finite neg m e` is the
number `(-1)^neg * m * 2^e` (both zeros included), `inf neg` is `+∞` or `-∞`, and `nan` is
"not a number".  The operations below only build finite values with `m < 2^53` and
`-1074 ≤ e`, but read any `m` and `e` as the number they denote. -/
inductive Double where
  | finite (neg : Bool) (m : Nat) (e : Int)
  | inf (neg : Bool)
  | nan
deriving DecidableEq

/-- Number of binary digits of `n`, counted by halving at most `fuel` times. -/
def bitLengthAux : Nat → Nat → Nat
  | 0, _ => 0
  | fuel + 1, n => if n = 0 then 0 else bitLengthAux fuel (n / 2) + 1

/-- Number of binary digits of `n`. -/
def bitLength (n : Nat) : Nat :=
  bitLengthAux n n

/-- The integer nearest to `M / 2^k`, the even one of the two when `M / 2^k` lies half-way:
the quotient is rounded up when the `k` dropped bits are more than half a unit, or exactly
half a unit and the quotient is odd. -/
def shiftRound (M k : Nat) : Nat :=
  if 2 ^ (k - 1) < M % 2 ^ k ∨ (M % 2 ^ k = 2 ^ (k - 1) ∧ M / 2 ^ k % 2 = 1) then
    M / 2 ^ k + 1
  else M / 2 ^ k

/-- Rounding to nearest, ties to even, the default rounding of IEEE 754: the `double`
nearest to `(-1)^neg * M * 2^E`.  The `s` lowest bits of `M` are dropped, so that 53 bits
are left or the exponent is the smallest one, `-1074` (subnormal results); a result of
`2^1024` or more overflows to infinity. -/
def roundNearestEven (neg : Bool) (M : Nat) (E : Int) : Double :=
  let s : Int := max ((bitLength M : Int) - 53) (-1074 - E)
  if s ≤ 0 then
    if E + (bitLength M : Int) > 1024 then Double.inf neg else Double.finite neg M E
  else if E + s + (bitLength (shiftRound M s.toNat) : Int) > 1024 then Double.inf neg
  else Double.finite neg (shiftRound M s.toNat) (E + s)

/-- The `double` nearest to `(-1)^neg * (a / b) * 2^E`, for `b ≠ 0`: the quotient is taken to
more than 64 bits and given one more bit, which tells whether the division left a
remainder, before it is rounded. -/
def roundQuotient (neg : Bool) (a b : Nat) (E : Int) : Double :=
  let k := 64 + bitLength b
  let q := a * 2 ^ k / b
  let r := a * 2 ^ k % b
  roundNearestEven neg (2 * q + (if r = 0 then 0 else 1)) (E - (k : Int) - 1)

/-- The integer `(-1)^neg * m * 2^(e - e0)`, for `e0 ≤ e`. -/
def scaled (neg : Bool) (m : Nat) (e e0 : Int) : Int :=
  (if neg then -1 else 1) * ((m * 2 ^ (e - e0).toNat : Nat) : Int)

/-- The value of an integer constant converted to `double` (exact up to `2^53`). -/
def ofNat (n : Nat) : Double :=
  roundNearestEven false n 0

/-- The value of a decimal constant `a / b` of the program text. -/
def ofDecimal (a b : Nat) : Double :=
  roundQuotient false a b 0

/-- The operator `*` on `double`. -/
def mul : Double → Double → Double
  | Double.finite n1 m1 e1, Double.finite n2 m2 e2 =>
    roundNearestEven (n1 != n2) (m1 * m2) (e1 + e2)
  | Double.finite n1 m1 _, Double.inf n2 => if m1 = 0 then Double.nan else Double.inf (n1 != n2)
  | Double.inf n1, Double.finite n2 m2 _ => if m2 = 0 then Double.nan else Double.inf (n1 != n2)
  | Double.inf n1, Double.inf n2 => Double.inf (n1 != n2)
  | Double.nan, _ => Double.nan
  | _, Double.nan => Double.nan

/-- The operator `/` on `double`. -/
def div : Double → Double → Double
  | Double.finite n1 m1 e1, Double.finite n2 m2 e2 =>
    if m2 = 0 then
      if m1 = 0 then Double.nan else Double.inf (n1 != n2)
    else roundQuotient (n1 != n2) m1 m2 (e1 - e2)
  | Double.finite n1 _ _, Double.inf n2 => Double.finite (n1 != n2) 0 0
  | Double.inf n1, Double.finite n2 _ _ => Double.inf (n1 != n2)
  | Double.inf _, Double.inf _ => Double.nan
  | Double.nan, _ => Double.nan
  | _, Double.nan => Double.nan

/-- The operator `+` on `double`.  A sum that is exactly zero is `-0` only when both terms
are negative (zeros). -/
def add : Double → Double → Double
  | Double.finite n1 m1 e1, Double.finite n2 m2 e2 =>
    let c := scaled n1 m1 e1 (min e1 e2) + scaled n2 m2 e2 (min e1 e2)
    if c = 0 then Double.finite (n1 && n2) 0 (min e1 e2)
    else roundNearestEven (decide (c < 0)) c.natAbs (min e1 e2)
  | Double.finite _ _ _, Double.inf n2 => Double.inf n2
  | Double.inf n1, Double.finite _ _ _ => Double.inf n1
  | Double.inf n1, Double.inf n2 => if n1 = n2 then Double.inf n1 else Double.nan
  | Double.nan, _ => Double.nan
  | _, Double.nan => Double.nan

/-- The operator `<` on `double`; false when an operand is `nan`. -/
def lt : Double → Double → Bool
  | Double.finite n1 m1 e1, Double.finite n2 m2 e2 =>
    decide (scaled n1 m1 e1 (min e1 e2) < scaled n2 m2 e2 (min e1 e2))
  | Double.finite _ _ _, Double.inf n2 => !n2
  | Double.inf n1, Double.finite _ _ _ => n1
  | Double.inf n1, Double.inf n2 => n1 && !n2
  | Double.nan, _ => false
  | _, Double.nan => false

/-- The operator `<=` on `double`; false when an operand is `nan`. -/
def le : Double → Double → Bool
  | Double.finite n1 m1 e1, Double.finite n2 m2 e2 =>
    decide (scaled n1 m1 e1 (min e1 e2) ≤ scaled n2 m2 e2 (min e1 e2))
  | Double.finite _ _ _, Double.inf n2 => !n2
  | Double.inf n1, Double.finite _ _ _ => n1
  | Double.inf n1, Double.inf n2 => n1 || !n2
  | Double.nan, _ => false
  | _, Double.nan => false

/-- Whether a `double` is `+∞` or a finite value with the sign bit clear. -/
def isNonneg : Double → Bool
  | Double.finite false _ _ => true
  | Double.inf false => true
  | _ => false

/-- The rational number that a finite `double` denotes (`0` for the other values). -/
def toRat : Double → ℚ
  | Double.finite neg m e => (if neg then -1 else 1) * (m : ℚ) * (2 : ℚ) ^ e
  | _ => 0

end Binary64

namespace CapillaryBarrierRK.Doubles

/-- Initial value of the global `time_step = 0.3`. -/
def time_step_init : Binary64.Double := Binary64.ofDecimal 3 10

/-- Constant `time_tol_upper = 1.0`. -/
def time_tol_upper : Binary64.Double := Binary64.ofNat 1

/-- Constant `time_tol_lower = 0.5`. -/
def time_tol_lower : Binary64.Double := Binary64.ofDecimal 5 10

/-- Global `time_step_dec = 0.8`. -/
def time_step_dec : Binary64.Double := Binary64.ofDecimal 8 10

/-- Global `time_step_inc = 1.1`. -/
def time_step_inc : Binary64.Double := Binary64.ofDecimal 11 10

/-- Global `time_step_min = 1e-8`. -/
def time_step_min : Binary64.Double := Binary64.ofDecimal 1 100000000

/-- Constant `T_FINAL = 1000.0`. -/
def T_FINAL : Binary64.Double := Binary64.ofNat 1000

/-- Variables of `main` that live across iterations of the time loop, the `double`
variables with their binary64 values; solutions have type `σ`. -/
structure LoopState (σ : Type) where
  time_step : Binary64.Double
  current_time : Binary64.Double
  ts : Int
  h_time_prev : σ
deriving DecidableEq

/-- Hermes calls of the time loop (outside `src/`).  `rk_time_step_newton current_time
time_step h_time_prev` is `none` when the call throws and `some (h_time_new, time_error_fn)`
otherwise; `calc_norm` is `Global<double>::calc_norm(·, HERMES_H1_NORM)`, which returns a
`double`. -/
structure Library (σ : Type) where
  rk_time_step_newton : Binary64.Double → Binary64.Double → σ → Option (σ × σ)
  calc_norm : σ → Binary64.Double

/-- How one pass through the body of the `do ... while` loop ends. -/
inductive Outcome (σ : Type) where
  | thrown (what : String) (s : LoopState σ)
  | nextIteration (s : LoopState σ)
  | loopExit (s : LoopState σ)
deriving DecidableEq

/-- The test `while (current_time < T_FINAL)`, reached at the end of the body and by
`continue`. -/
def loopCondition {σ : Type} (s : LoopState σ) : Outcome σ :=
  if Binary64.lt s.current_time T_FINAL then Outcome.nextIteration s else Outcome.loopExit s

/-- The value `rel_err_time` of line 293: the quotient of the two norms, times `100`. -/
def rel_err_time {σ : Type} (L : Library σ) (h_time_new time_error_fn : σ) : Binary64.Double :=
  Binary64.mul (Binary64.div (L.calc_norm time_error_fn) (L.calc_norm h_time_new))
    (Binary64.ofNat 100)

/-- One pass through the body of the time-stepping loop of `main`, every operation on a
`double` rounded as the binary64 format prescribes. -/
def iteration {σ : Type} (L : Library σ) (s : LoopState σ) : Outcome σ :=
  match L.rk_time_step_newton s.current_time s.time_step s.h_time_prev with
  | none =>
    let s := { s with time_step := Binary64.mul s.time_step time_step_dec }
    if Binary64.lt s.time_step time_step_min then
      Outcome.thrown "Time step became too small." s
    else loopCondition s
  | some (h_time_new, time_error_fn) =>
    let s := { s with h_time_prev := h_time_new }
    if Binary64.lt time_tol_upper (rel_err_time L h_time_new time_error_fn) then
      let s := { s with time_step := Binary64.mul s.time_step time_step_dec }
      loopCondition s
    else
      let s :=
        if Binary64.lt (rel_err_time L h_time_new time_error_fn) time_tol_lower then
          { s with time_step := Binary64.mul s.time_step time_step_inc }
        else s
      let s := { s with current_time := Binary64.add s.current_time s.time_step }
      let s := { s with h_time_prev := h_time_new }
      let s := { s with ts := s.ts + 1 }
      loopCondition s

/-- The variables of `main` when the pass ends. -/
def Outcome.state {σ : Type} : Outcome σ → LoopState σ
  | Outcome.thrown _ s => s
  | Outcome.nextIteration s => s
  | Outcome.loopExit s => s

/-- Whether the pass ended by throwing out of the loop, and with which message. -/
def Outcome.what {σ : Type} : Outcome σ → Option String
  | Outcome.thrown w _ => some w
  | Outcome.nextIteration _ => none
  | Outcome.loopExit _ => none

/-- State at the first entry of the loop; `zero` is `ZeroSolution<double> h_time_prev`. -/
def initialState {σ : Type} (zero : σ) : LoopState σ :=
  { time_step := time_step_init, current_time := Binary64.ofNat 0, ts := 1,
    h_time_prev := zero }

/-- At most `k` passes through the loop body, starting in `s`. -/
def run {σ : Type} (L : Library σ) : Nat → LoopState σ → Outcome σ
  | 0, s => Outcome.nextIteration s
  | k + 1, s =>
    match iteration L s with
    | Outcome.nextIteration s1 => run L k s1
    | o => o

/-- States at which the loop body can be entered in some run of `main`. -/
inductive Reachable {σ : Type} (L : Library σ) (zero : σ) : LoopState σ → Prop where
  | init : Reachable L zero (initialState zero)
  | step (s s1 : LoopState σ) : Reachable L zero s →
      iteration L s = Outcome.nextIteration s1 → Reachable L zero s1

/-- A library whose solutions are labelled by their norm.  The Runge-Kutta step always
succeeds with a new solution of norm `100`; its temporal error is zero in the first step
(`current_time` is `0`) and once the time step is below `2^(-56)`, and has norm `100`
(`rel_err_time = 100`) otherwise. -/
def settlingLibrary : Library Binary64.Double :=
  { rk_time_step_newton := fun current_time time_step _ =>
      some (Binary64.ofNat 100,
        if Binary64.le current_time (Binary64.ofNat 0)
            || Binary64.lt time_step (Binary64.Double.finite false 1 (-56)) then
          Binary64.ofNat 0
        else Binary64.ofNat 100),
    calc_norm := fun x => x }

end CapillaryBarrierRK.Doubles

namespace ForwardStepAdapt

/-- Constant `UNREF_FREQ = 5`. -/
def UNREF_FREQ : Int := 5

/-- Constant `NDOF_STOP = 16000`. -/
def NDOF_STOP : Int := 16000

/-- Initial value of the global `ERR_STOP = 5.0`. -/
def ERR_STOP_init : ℚ := 5

/-- Initial value of the global `time_step = 1E-6`. -/
def time_step_init : ℚ := 1 / 1000000

/-- Calls of the run that the claims speak about, in the order they happen. -/
inductive Event where
  | derefinement
  | adapt
deriving DecidableEq, Repr

/-- Results of the Hermes calls of one pass through the adaptivity loop (outside `src/`):
`calc_err_est(...) * 100`, `get_num_dofs` of the coarse spaces, the value returned by
`adaptivity->adapt(...)` if it is called, and the time step left in `time_step` by
`CFL.calculate_semi_implicit`. -/
structure PassInput where
  err_est_rel_total : ℚ
  ndof_coarse : Int
  adapt_result : Bool
  cfl_time_step : ℚ

/-- Variables of `main` that steer the loops, with the list of events so far. -/
structure LoopState where
  t : ℚ
  time_step : ℚ
  iteration : Int
  REFINEMENT_COUNT : Int
  ERR_STOP : ℚ
  as : Int
  done : Bool
  events : List Event

/-- One pass through the body of the adaptivity loop `do { ... } while (done == false)`. -/
def adaptivityPass (s : LoopState) (o : PassInput) : LoopState :=
  let s :=
    if s.as == 1 && (s.iteration > 1 && s.iteration % UNREF_FREQ == 0
        && s.REFINEMENT_COUNT > 0) then
      { s with REFINEMENT_COUNT := 0, events := s.events ++ [Event.derefinement] }
    else s
  let s := { s with time_step := o.cfl_time_step }
  if o.err_est_rel_total < s.ERR_STOP then
    { s with done := true }
  else
    let s :=
      if o.ndof_coarse ≥ NDOF_STOP then
        let s := { s with REFINEMENT_COUNT := s.REFINEMENT_COUNT + 1 }
        { s with done := true }
      else
        let s := { s with REFINEMENT_COUNT := s.REFINEMENT_COUNT + 1 }
        { s with done := o.adapt_result, events := s.events ++ [Event.adapt] }
    if !s.done then { s with as := s.as + 1 } else s

/-- Top of the body of the time loop: `if(t > 0.3) ERR_STOP = 2.5;`, `as = 1`,
`done = false`. -/
def beginTimeStep (s : LoopState) : LoopState :=
  let s := if s.t > 3 / 10 then { s with ERR_STOP := 25 / 10 } else s
  { s with as := 1, done := false }

/-- After the adaptivity loop: `iteration++` and the increment `t += time_step` of the
`for` statement. -/
def endTimeStep (s : LoopState) : LoopState :=
  let s := { s with iteration := s.iteration + 1 }
  { s with t := s.t + s.time_step }

/-- The time loop `for(; t < 14.5; t += time_step)` driven by the list of pass inputs;
`s` is the state at the start of a pass.  The run stops when the inputs are used up or the
loop condition fails. -/
def run : LoopState → List PassInput → LoopState
  | s, [] => s
  | s, o :: os =>
    let s1 := adaptivityPass s o
    if s1.done then
      let s2 := endTimeStep s1
      if s2.t < 29 / 2 then run (beginTimeStep s2) os else s2
    else run s1 os

/-- State when the time loop is first entered (`REUSE_SOLUTION = false`). -/
def initialState : LoopState :=
  beginTimeStep
    { t := 0, time_step := time_step_init, iteration := 0, REFINEMENT_COUNT := 0,
      ERR_STOP := ERR_STOP_init, as := 1, done := false, events := [] }

/-- A pass with error estimate `10%` on a coarse space of `17000 ≥ NDOF_STOP` dofs. -/
def passNdofStop : PassInput :=
  { err_est_rel_total := 10, ndof_coarse := 17000, adapt_result := false,
    cfl_time_step := 1 / 1000000 }

end ForwardStepAdapt

namespace MaxwellDebyeRK

/-- Constant `time_step = 0.00001`. -/
def time_step : ℚ := 1 / 100000

/-- Constant `T_FINAL = 35.0`. -/
def T_FINAL : ℚ := 35

/-- Constant `UNREF_FREQ = 5`. -/
def UNREF_FREQ : Int := 5

/-- Constant `ERR_STOP = 0.5`. -/
def ERR_STOP : ℚ := 5 / 10

/-- Constant `ADAPTIVITY_STEPS = 5`. -/
def ADAPTIVITY_STEPS : Int := 5

/-- Constant `NDOF_STOP = 6200`.  No statement of `main` reads it. -/
def NDOF_STOP : Int := 6200

/-- Calls of the run that the claims speak about, in the order they happen. -/
inductive Event where
  | derefinement
  | adapt
deriving DecidableEq, Repr

/-- Results of the Hermes calls of one pass through the adaptivity loop (outside `src/`):
`get_num_dofs` of the reference spaces (stored in `ndof`), whether `rk_time_step_newton`
throws, `calc_err_est(...) * 100`, and the value returned by `adaptivity->adapt(...)` if it
is called. -/
structure PassInput where
  ndof : Int
  rk_throws : Bool
  err_est_rel_total : ℚ
  adapt_result : Bool

/-- Variables of `main` that steer the loops, with the list of events so far. -/
structure LoopState where
  current_time : ℚ
  ts : Int
  REFINEMENT_COUNT : Int
  as : Int
  done : Bool
  events : List Event

/-- Top of the body of the time loop: the block "Periodic global derefinements", then
`int as = 1; bool done = false;`.  The test `ts > 1` comes first, so `%` is applied to a
positive `ts`, where the remainders of C++ and of `Int` agree. -/
def beginTimeStep (s : LoopState) : LoopState :=
  let s :=
    if s.ts > 1 && s.ts % UNREF_FREQ == 0 && s.REFINEMENT_COUNT > 0 then
      { s with REFINEMENT_COUNT := 0, events := s.events ++ [Event.derefinement] }
    else s
  { s with as := 1, done := false }

/-- One pass through the body of the adaptivity loop `do { ... } while(!done)`; `none` when
the exception "Runge-Kutta time step failed" leaves the loops. -/
def adaptivityPass (s : LoopState) (o : PassInput) : Option LoopState :=
  if o.rk_throws then none
  else if o.err_est_rel_total < ERR_STOP || s.as > ADAPTIVITY_STEPS - 1 then
    some { s with done := true }
  else
    let s := { s with REFINEMENT_COUNT := s.REFINEMENT_COUNT + 1 }
    let s := { s with done := o.adapt_result, events := s.events ++ [Event.adapt] }
    some (if !s.done then { s with as := s.as + 1 } else s)

/-- After the adaptivity loop: `current_time += time_step; ts++;`. -/
def endTimeStep (s : LoopState) : LoopState :=
  let s := { s with current_time := s.current_time + time_step }
  { s with ts := s.ts + 1 }

/-- The time loop `do { ... } while (current_time < T_FINAL)` driven by the list of pass
inputs; `s` is the state at the start of a pass.  The run stops when the inputs are used up,
when the Runge-Kutta step throws, or when the loop condition fails. -/
def run : LoopState → List PassInput → LoopState
  | s, [] => s
  | s, o :: os =>
    match adaptivityPass s o with
    | none => s
    | some s1 =>
      if s1.done then
        let s2 := endTimeStep s1
        if s2.current_time < T_FINAL then run (beginTimeStep s2) os else s2
      else run s1 os

/-- State at the first pass of the first time step (`int ts = 1`, `current_time = 0`,
`REFINEMENT_COUNT = 0`). -/
def initialState : LoopState :=
  beginTimeStep
    { current_time := 0, ts := 1, REFINEMENT_COUNT := 0, as := 1, done := false, events := [] }

/-- Number of `adapt` events after the last `derefinement` event of a run (after program
start if there is none). -/
def adaptsSinceLastDerefinement (events : List Event) : Int :=
  events.foldl
    (fun count ev =>
      match ev with
      | Event.adapt => count + 1
      | Event.derefinement => 0)
    0

/-- A pass on `7000 > NDOF_STOP` dofs with error estimate `10%`, in which `adapt` is called
and returns `false`. -/
def passOverNdofStop : PassInput :=
  { ndof := 7000, rk_throws := false, err_est_rel_total := 10, adapt_result := false }

/-- States in which a pass of the adaptivity loop starts in some run of `main`: the first
pass of the program; the pass after one that left `done == false`; and the first pass of the
next time step, after a pass that set `done` while `current_time < T_FINAL` still holds. -/
inductive Reachable : LoopState → Prop where
  | init : Reachable initialState
  | nextPass (s s1 : LoopState) (o : PassInput) : Reachable s →
      adaptivityPass s o = some s1 → s1.done = false → Reachable s1
  | nextTimeStep (s s1 : LoopState) (o : PassInput) : Reachable s →
      adaptivityPass s o = some s1 → s1.done = true →
      (endTimeStep s1).current_time < T_FINAL → Reachable (beginTimeStep (endTimeStep s1))

/-- A pass with error estimate `10%`, in which `adapt` is called and returns `true`. -/
def passAdaptDone : PassInput :=
  { ndof := 500, rk_throws := false, err_est_rel_total := 10, adapt_result := true }

/-- A pass with error estimate `0.1%`, below `ERR_STOP`. -/
def passConverged : PassInput :=
  { ndof := 500, rk_throws := false, err_est_rel_total := 1 / 10, adapt_result := false }

end MaxwellDebyeRK

namespace GammChannel

/-- Hermes `Element`, of which the block reads `e->id`. -/
structure Element where
  id : Nat
deriving DecidableEq, Repr

/-- What the indicator block of a time step reads from Hermes (outside `src/`):
`get_max_element_id()`, what the memory returned by `new bool[...]` holds before it is
initialised, the elements visited by `for_all_active_elements`, `al.get_dof()[0]` after
`get_element_assembly_list(e, &al)`, and `rhs_stabilization->get`. -/
structure IndicatorInput where
  max_element_id : Nat
  uninitialised : Nat → Bool
  active_elements : List Element
  first_dof : Element → Int
  rhs_get : Int → ℚ

/-- The array `new bool[max_element_id + 1]`. -/
def allocate (inp : IndicatorInput) : List Bool :=
  (List.range (inp.max_element_id + 1)).map inp.uninitialised

/-- The loop `for(i = 0; i < max_element_id + 1; i++) discreteIndicator[i] = false;`. -/
def clearIndicator (inp : IndicatorInput) : List Bool :=
  (List.range (inp.max_element_id + 1)).foldl (fun arr i => arr.set i false) (allocate inp)

/-- Body of the loop `for_all_active_elements`: `none` when `discreteIndicator[e->id]` is
outside the array. -/
def markElement (inp : IndicatorInput) (discreteIndicator : List Bool) (e : Element) :
    Option (List Bool) :=
  if inp.rhs_get (inp.first_dof e) ≥ 1 then
    if e.id < discreteIndicator.length then some (discreteIndicator.set e.id true)
    else none
  else some discreteIndicator

/-- The indicator block of the time loop (Feistauer shock capturing): returns the array
handed to `wf.set_discreteIndicator`. -/
def indicatorBlock (inp : IndicatorInput) : Option (List Bool) :=
  inp.active_elements.foldlM (markElement inp) (clearIndicator inp)

/-- A mesh with `max_element_id = 3` and active elements `1` and `3`, whose first dofs are
`10` and `30`; the right-hand side is `2` at dof `10` and `0` elsewhere; the allocated array
holds `true` everywhere. -/
def sampleIndicatorInput : IndicatorInput :=
  { max_element_id := 3
    uninitialised := fun _ => true
    active_elements := [⟨1⟩, ⟨3⟩]
    first_dof := fun e => 10 * e.id
    rhs_get := fun d => if d = 10 then 2 else 0 }

end GammChannel

namespace Euler

/-- A numerical flux for evaluating the inlet/outlet forms on concrete data: all
eigenvalues are `-1`, `T` and `T_inv` are the identity, `Q` and `Q_inv` return the state,
and component `k` of `P_plus` and `P_minus` is `w[k] * param[k]`. -/
def upwindFlux : StegerWarmingNumericalFlux ℚ :=
  { P_plus := fun _ w param _ _ => fun k => w k * param k
    P_minus := fun _ w param _ _ => fun k => w k * param k
    Q := fun _ w _ _ => w
    Q_inv := fun _ w _ _ => w
    Lambda := fun _ _ _ => fun _ => -1
    T_1 := fun _ _ T => T
    T_2 := fun _ _ T => T
    T_3 := fun _ _ T => T
    T_4 := fun _ _ _ => fun a b => if a = b then 1 else 0
    T_inv_1 := fun _ _ T => T
    T_inv_2 := fun _ _ T => T
    T_inv_3 := fun _ _ T => T
    T_inv_4 := fun _ _ _ => fun a b => if a = b then 1 else 0 }

/-- A function with value `1` and zero derivatives at every point. -/
def sampleFunc : Func ℚ :=
  { val := fun _ => 1, dx := fun _ => 0, dy := fun _ => 0 }

/-- A weak form built by the one-inflow constructor in which marker `"1"` is both an inlet
and an outlet marker (`kappa = 1.4`, external state `rho = 1`, `v = (1, 0)`, `p = 1`,
energy function returning the pressure). -/
def overlapWeakForm : EulerEquationsWeakFormSemiImplicit ℚ Unit :=
  EulerEquationsWeakFormSemiImplicit.oneInflowCtor (fun _ _ _ p _ => p)
    (14 / 10) 1 1 0 1 ["wall"] ["1"] ["1"] () () () () false 4

/-- The inlet form of block `(0, 0)` of `overlapWeakForm`. -/
def overlapInletForm : EulerEquationsMatrixFormSemiImplicitInletOutlet ℚ :=
  ⟨0, 0, 1, 1, 0, 1, ["1"], 14 / 10, CacheSlot.Surf⟩

/-- The outlet form of block `(0, 0)` of `overlapWeakForm`. -/
def overlapOutletForm : EulerEquationsMatrixFormSemiImplicitInletOutlet ℚ :=
  ⟨0, 0, 0, 0, 0, 0, ["1"], 14 / 10, CacheSlot.Surf⟩

end Euler

/-! ## Theorems -/

namespace Euler

/-- The index list of both constructor loops. -/
theorem finRange_four : List.finRange 4 = [0, 1, 2, 3] := by decide

/-- All surface matrix forms registered by the one-inflow constructor, in order. -/
theorem oneInflowCtor_mfsurf {α σ : Type} [LinearOrderedField α]
    (calc_energy : α → α → α → α → α → α)
    (kappa rho_ext v1_ext v2_ext pressure_ext : α)
    (solid_wall_markers inlet_markers outlet_markers : List String)
    (pd pdx pdy pe : σ) (fvm_only : Bool) (num_of_equations : Int) :
    (EulerEquationsWeakFormSemiImplicit.oneInflowCtor calc_energy kappa rho_ext v1_ext v2_ext
      pressure_ext solid_wall_markers inlet_markers outlet_markers pd pdx pdy pe fvm_only
      num_of_equations).mfsurf
      = (List.finRange 4).flatMap (fun a => (List.finRange 4).flatMap (fun b =>
          [MatrixFormSurf.inletOutlet ⟨a, b, rho_ext, v1_ext, v2_ext,
              calc_energy rho_ext (rho_ext * v1_ext) (rho_ext * v2_ext) pressure_ext kappa,
              inlet_markers, kappa, CacheSlot.Surf⟩]
          ++ (if outlet_markers ≠ [] then
                [MatrixFormSurf.inletOutlet ⟨a, b, 0, 0, 0, 0, outlet_markers, kappa,
                  CacheSlot.Surf⟩]
              else [])
          ++ [MatrixFormSurf.solidWall ⟨a, b, solid_wall_markers, kappa⟩])) := by
  cases outlet_markers <;> cases fvm_only <;>
    simp [EulerEquationsWeakFormSemiImplicit.oneInflowCtor, oneInflowRow, oneInflowBlock,
      finRange_four]

/-- All inlet/outlet matrix forms kept in `dgFormsInletOutlet`, in order. -/
theorem oneInflowCtor_dgFormsInletOutlet {α σ : Type} [LinearOrderedField α]
    (calc_energy : α → α → α → α → α → α)
    (kappa rho_ext v1_ext v2_ext pressure_ext : α)
    (solid_wall_markers inlet_markers outlet_markers : List String)
    (pd pdx pdy pe : σ) (fvm_only : Bool) (num_of_equations : Int) :
    (EulerEquationsWeakFormSemiImplicit.oneInflowCtor calc_energy kappa rho_ext v1_ext v2_ext
      pressure_ext solid_wall_markers inlet_markers outlet_markers pd pdx pdy pe fvm_only
      num_of_equations).dgFormsInletOutlet
      = (List.finRange 4).flatMap (fun a => (List.finRange 4).flatMap (fun b =>
          [(⟨a, b, rho_ext, v1_ext, v2_ext,
              calc_energy rho_ext (rho_ext * v1_ext) (rho_ext * v2_ext) pressure_ext kappa,
              inlet_markers, kappa, CacheSlot.Surf⟩ :
              EulerEquationsMatrixFormSemiImplicitInletOutlet α)]
          ++ (if outlet_markers ≠ [] then
                [⟨a, b, 0, 0, 0, 0, outlet_markers, kappa, CacheSlot.Surf⟩]
              else []))) := by
  cases outlet_markers <;> cases fvm_only <;>
    simp [EulerEquationsWeakFormSemiImplicit.oneInflowCtor, oneInflowRow, oneInflowBlock,
      finRange_four]

/-- All DG matrix forms registered by the one-inflow constructor, in order. -/
theorem oneInflowCtor_mfDG {α σ : Type} [LinearOrderedField α]
    (calc_energy : α → α → α → α → α → α)
    (kappa rho_ext v1_ext v2_ext pressure_ext : α)
    (solid_wall_markers inlet_markers outlet_markers : List String)
    (pd pdx pdy pe : σ) (fvm_only : Bool) (num_of_equations : Int) :
    (EulerEquationsWeakFormSemiImplicit.oneInflowCtor calc_energy kappa rho_ext v1_ext v2_ext
      pressure_ext solid_wall_markers inlet_markers outlet_markers pd pdx pdy pe fvm_only
      num_of_equations).mfDG
      = (List.finRange 4).flatMap (fun a => (List.finRange 4).map (fun b =>
          (⟨a, b, kappa, CacheSlot.DG⟩ : EulerEquationsMatrixFormSurfSemiImplicit α))) := by
  cases outlet_markers <;> cases fvm_only <;>
    simp [EulerEquationsWeakFormSemiImplicit.oneInflowCtor, oneInflowRow, oneInflowBlock,
      finRange_four]

/-- The vector `dgForms` holds the registered DG forms. -/
theorem oneInflowCtor_dgForms {α σ : Type} [LinearOrderedField α]
    (calc_energy : α → α → α → α → α → α)
    (kappa rho_ext v1_ext v2_ext pressure_ext : α)
    (solid_wall_markers inlet_markers outlet_markers : List String)
    (pd pdx pdy pe : σ) (fvm_only : Bool) (num_of_equations : Int) :
    (EulerEquationsWeakFormSemiImplicit.oneInflowCtor calc_energy kappa rho_ext v1_ext v2_ext
      pressure_ext solid_wall_markers inlet_markers outlet_markers pd pdx pdy pe fvm_only
      num_of_equations).dgForms
      = (EulerEquationsWeakFormSemiImplicit.oneInflowCtor calc_energy kappa rho_ext v1_ext v2_ext
      pressure_ext solid_wall_markers inlet_markers outlet_markers pd pdx pdy pe fvm_only
      num_of_equations).mfDG := by
  cases outlet_markers <;> cases fvm_only <;>
    simp [EulerEquationsWeakFormSemiImplicit.oneInflowCtor, oneInflowRow, oneInflowBlock,
      finRange_four]

/-- All volume matrix forms registered by the one-inflow constructor, in order. -/
theorem oneInflowCtor_mfvol {α σ : Type} [LinearOrderedField α]
    (calc_energy : α → α → α → α → α → α)
    (kappa rho_ext v1_ext v2_ext pressure_ext : α)
    (solid_wall_markers inlet_markers outlet_markers : List String)
    (pd pdx pdy pe : σ) (fvm_only : Bool) (num_of_equations : Int) :
    (EulerEquationsWeakFormSemiImplicit.oneInflowCtor calc_energy kappa rho_ext v1_ext v2_ext
      pressure_ext solid_wall_markers inlet_markers outlet_markers pd pdx pdy pe fvm_only
      num_of_equations).mfvol
      = (List.finRange 4).flatMap (fun a =>
          MatrixFormVol.time ⟨a⟩ ::
            (if fvm_only then []
             else (List.finRange 4).map (fun b => MatrixFormVol.flux ⟨a, b, kappa⟩))) := by
  cases outlet_markers <;> cases fvm_only <;>
    simp [EulerEquationsWeakFormSemiImplicit.oneInflowCtor, oneInflowRow, oneInflowBlock,
      finRange_four]

/-- All volume vector forms registered by the one-inflow constructor, in order. -/
theorem oneInflowCtor_vfvol {α σ : Type} [LinearOrderedField α]
    (calc_energy : α → α → α → α → α → α)
    (kappa rho_ext v1_ext v2_ext pressure_ext : α)
    (solid_wall_markers inlet_markers outlet_markers : List String)
    (pd pdx pdy pe : σ) (fvm_only : Bool) (num_of_equations : Int) :
    (EulerEquationsWeakFormSemiImplicit.oneInflowCtor calc_energy kappa rho_ext v1_ext v2_ext
      pressure_ext solid_wall_markers inlet_markers outlet_markers pd pdx pdy pe fvm_only
      num_of_equations).vfvol
      = (List.finRange 4).map (fun a => (⟨a⟩ : EulerEquationsLinearFormTime)) := by
  cases outlet_markers <;> cases fvm_only <;>
    simp [EulerEquationsWeakFormSemiImplicit.oneInflowCtor, oneInflowRow, oneInflowBlock,
      finRange_four]

/-- All surface vector forms registered by the one-inflow constructor, in order. -/
theorem oneInflowCtor_vfsurf {α σ : Type} [LinearOrderedField α]
    (calc_energy : α → α → α → α → α → α)
    (kappa rho_ext v1_ext v2_ext pressure_ext : α)
    (solid_wall_markers inlet_markers outlet_markers : List String)
    (pd pdx pdy pe : σ) (fvm_only : Bool) (num_of_equations : Int) :
    (EulerEquationsWeakFormSemiImplicit.oneInflowCtor calc_energy kappa rho_ext v1_ext v2_ext
      pressure_ext solid_wall_markers inlet_markers outlet_markers pd pdx pdy pe fvm_only
      num_of_equations).vfsurf
      = (List.finRange 4).flatMap (fun a =>
          [(⟨a, rho_ext, v1_ext, v2_ext,
              calc_energy rho_ext (rho_ext * v1_ext) (rho_ext * v2_ext) pressure_ext kappa,
              inlet_markers, kappa⟩ : EulerEquationsVectorFormSemiImplicitInletOutlet α)]
          ++ (if outlet_markers ≠ [] then [⟨a, 0, 0, 0, 0, outlet_markers, kappa⟩]
              else [])) := by
  cases outlet_markers <;> cases fvm_only <;>
    simp [EulerEquationsWeakFormSemiImplicit.oneInflowCtor, oneInflowRow, oneInflowBlock,
      finRange_four]

/-- Setting the time step does not touch the caches. -/
theorem cache_set_current_time_step {α : Type} (st : WeakFormState α) (dt : α)
    (slot : CacheSlot) : (st.set_current_time_step dt).cache slot = st.cache slot := by
  cases slot <;> rfl

/-- C3: every flux form of the weak form returns, with current time step `dt`, `dt` times
what it returns with time step `1` (for the two cached forms: both calls start from the same
caches, and both fail or both return); the mass forms `EulerEquationsBilinearFormTime` and
`EulerEquationsLinearFormTime` do not depend on the time step, and
`EulerEquationsLinearFormTime(i)` applied to `v` is `EulerEquationsBilinearFormTime` applied
to `u := ext[i]` and `v`. -/
theorem time_step_coupling {α : Type} [LinearOrderedField α]
    (F : StegerWarmingNumericalFlux α) (E : EulerFluxes α)
    (int_u_v : Nat → (Nat → α) → Func α → Func α → α)
    (st : WeakFormState α) (dt : α) (n : Nat) (wt : Nat → α) (e : Geom α) :
    (∀ (f : EulerEquationsBilinearForm α) (u v : Func α) (ext : Fin 4 → Func α),
        f.value E (st.set_current_time_step dt) n wt u v e ext
          = dt * f.value E (st.set_current_time_step 1) n wt u v e ext)
      ∧ (∀ (f : EulerEquationsMatrixFormSurfSemiImplicit α) (u v : DiscontinuousFunc α)
          (ext : Fin 4 → DiscontinuousFunc α),
        (f.value F (st.set_current_time_step dt) n wt u v e ext).map Prod.fst
          = (f.value F (st.set_current_time_step 1) n wt u v e ext).map
              (fun r => dt * r.1))
      ∧ (∀ (f : EulerEquationsMatrixFormSemiImplicitInletOutlet α) (u v : Func α)
          (ext : Fin 4 → Func α),
        (f.value F (st.set_current_time_step dt) n wt u v e ext).map Prod.fst
          = (f.value F (st.set_current_time_step 1) n wt u v e ext).map
              (fun r => dt * r.1))
      ∧ (∀ (f : EulerEquationsVectorFormSemiImplicitInletOutlet α) (v : Func α)
          (ext : Fin 4 → Func α),
        f.value F (st.set_current_time_step dt) n wt v e ext
          = dt * f.value F (st.set_current_time_step 1) n wt v e ext)
      ∧ (∀ (f : EulerEquationsMatrixFormSolidWall α) (u v : Func α) (ext : Fin 4 → Func α),
        f.value (st.set_current_time_step dt) n wt u v e ext
          = dt * f.value (st.set_current_time_step 1) n wt u v e ext)
      ∧ (∀ (f : EulerEquationsBilinearFormTime) (u v : Func α) (ext : Fin 4 → Func α),
        f.value int_u_v (st.set_current_time_step dt) n wt u v e ext
          = f.value int_u_v st n wt u v e ext)
      ∧ (∀ (f : EulerEquationsLinearFormTime) (v : Func α) (ext : Fin 4 → Func α),
        f.value int_u_v (st.set_current_time_step dt) n wt v e ext
          = f.value int_u_v st n wt v e ext)
      ∧ (∀ (i : Fin 4) (v : Func α) (ext : Fin 4 → Func α),
        EulerEquationsLinearFormTime.value int_u_v ⟨i⟩ st n wt v e ext
          = EulerEquationsBilinearFormTime.value int_u_v ⟨i⟩ st n wt (ext i) v e ext) := by
  refine ⟨?_, ?_, ?_, ?_, ?_, ?_, ?_, ?_⟩
  · intro f u v ext
    simp only [EulerEquationsBilinearForm.value, WeakFormState.set_current_time_step]
    ring
  · intro f u v ext
    simp only [EulerEquationsMatrixFormSurfSemiImplicit.value, cache_set_current_time_step,
      Option.bind_eq_bind]
    cases ensureCacheDG F f.kappa n e ext (st.cache f.cache) with
    | none => rfl
    | some c =>
      simp only [Option.some_bind]
      generalize accumulateBySide n wt c (blockIndex f.i f.j) u v = r
      cases r with
      | none => rfl
      | some result =>
        simp only [Option.some_bind, Option.map, WeakFormState.set_current_time_step, pure]
        congr 1
        ring
  · intro f u v ext
    simp only [EulerEquationsMatrixFormSemiImplicitInletOutlet.value,
      cache_set_current_time_step, Option.bind_eq_bind]
    cases ensureCacheSurf F f.kappa f.w_B n e ext (st.cache f.cache) with
    | none => rfl
    | some c =>
      simp only [Option.some_bind]
      generalize accumulateSurf n wt c.P_plus_cache (blockIndex f.i f.j) u v = r
      cases r with
      | none => rfl
      | some result =>
        simp only [Option.some_bind, Option.map, WeakFormState.set_current_time_step, pure]
        congr 1
        ring
  · intro f v ext
    simp only [EulerEquationsVectorFormSemiImplicitInletOutlet.value,
      WeakFormState.set_current_time_step]
    ring
  · intro f u v ext
    simp only [EulerEquationsMatrixFormSolidWall.value, WeakFormState.set_current_time_step]
    ring
  · intro f u v ext
    rfl
  · intro f v ext
    rfl
  · intro i v ext
    rfl

/-- Unfolding a monadic loop over `0 .. n` at its last pass. -/
theorem foldlM_range_succ {β : Type} (g : β → Nat → Option β) (init : β) (n : Nat) :
    (List.range (n + 1)).foldlM g init
      = ((List.range n).foldlM g init).bind (fun acc => g acc n) := by
  rw [List.range_succ, List.foldlM_append]
  cases (List.range n).foldlM g init with
  | none => rfl
  | some acc => simp

/-- A monadic loop depends on its body only at the elements of the list. -/
theorem foldlM_congr_mem {β γ : Type} (g g1 : β → γ → Option β) (l : List γ)
    (h : ∀ a ∈ l, ∀ acc, g acc a = g1 acc a) (init : β) :
    l.foldlM g init = l.foldlM g1 init := by
  induction l generalizing init with
  | nil => rfl
  | cons a l ih =>
    simp only [List.foldlM_cons]
    rw [h a (List.mem_cons_self a l) init]
    cases g1 init a with
    | none => rfl
    | some b =>
      simp only [Option.bind_eq_bind, Option.some_bind]
      exact ih (fun x hx acc => h x (List.mem_cons_of_mem a hx) acc) b

/-- The four writes of a flux call fill the whole row: the result does not depend on what
the row held before. -/
theorem writeAt_four {α : Type} (r r1 : Fin 16 → α) (a b c d : Vec4 α) :
    writeAt (writeAt (writeAt (writeAt r 0 a) 4 b) 8 c) 12 d
      = writeAt (writeAt (writeAt (writeAt r1 0 a) 4 b) 8 c) 12 d := by
  funext idx
  have h := idx.isLt
  simp only [writeAt]
  split
  · rfl
  · split
    · rfl
    · split
      · rfl
      · split
        · rfl
        · exfalso; omega

/-- After the four writes, entry `j * 4 + i` of the row is component `i` of the flux at the
unit vector `e_j`. -/
theorem writeAt_four_apply {α : Type} [Zero α] [One α] (r : Fin 16 → α)
    (P : Vec4 α → Vec4 α) (i j : Fin 4) :
    writeAt (writeAt (writeAt (writeAt r 0 (P e_1)) 4 (P e_2)) 8 (P e_3)) 12 (P e_4)
        (blockIndex i j)
      = P (Pi.single j 1) i := by
  have h1 : (e_1 : Vec4 α) = Pi.single 0 1 := by
    funext k; fin_cases k <;> simp [e_1]
  have h2 : (e_2 : Vec4 α) = Pi.single 1 1 := by
    funext k; fin_cases k <;> simp [e_2]
  have h3 : (e_3 : Vec4 α) = Pi.single 2 1 := by
    funext k; fin_cases k <;> simp [e_3]
  have h4 : (e_4 : Vec4 α) = Pi.single 3 1 := by
    funext k; fin_cases k <;> simp [e_4]
  rw [h1, h2, h3, h4]
  fin_cases i <;> fin_cases j <;> rfl

/-- The fill step stores the rows `pointRowsDG` whatever the cache held. -/
theorem fillPointDG_eq {α : Type} [LinearOrderedField α] (F : StegerWarmingNumericalFlux α)
    (kappa : α) (e : Geom α) (ext : Fin 4 → DiscontinuousFunc α)
    (c : FluxCache α) (p : Nat) (hp : p < 13) :
    fillPointDG F kappa e ext c p
      = (pointRowsDG F kappa e ext p).map (fun r =>
          { c with
            P_plus_cache := Function.update c.P_plus_cache ⟨p, hp⟩ r.1
            P_minus_cache := Function.update c.P_minus_cache ⟨p, hp⟩ r.2 }) := by
  simp only [fillPointDG, pointRowsDG, dif_pos hp, deref, Option.bind_eq_bind, Option.pure_def]
  cases (ext 0).val <;> cases (ext 1).val <;> cases (ext 2).val <;> cases (ext 3).val <;>
    cases (ext 0).val_neighbor <;> cases (ext 1).val_neighbor <;>
    cases (ext 2).val_neighbor <;> cases (ext 3).val_neighbor <;>
    simp only [Option.map_none', Option.map_some', Option.none_bind, Option.some_bind]
  rw [writeAt_four (c.P_plus_cache ⟨p, hp⟩) (fun _ => 0),
    writeAt_four (c.P_minus_cache ⟨p, hp⟩) (fun _ => 0)]

/-- The fill step fails beyond the thirteen rows of the cache. -/
theorem fillPointDG_none {α : Type} [LinearOrderedField α] (F : StegerWarmingNumericalFlux α)
    (kappa : α) (e : Geom α) (ext : Fin 4 → DiscontinuousFunc α)
    (c : FluxCache α) (p : Nat) (hp : ¬ p < 13) :
    fillPointDG F kappa e ext c p = none := by
  simp only [fillPointDG, dif_neg hp]

/-- When the arrays of `ext` are not `NULL`, the rows of a point hold the fluxes of the
central and of the neighbour state. -/
theorem pointRowsDG_of_ext {α : Type} [LinearOrderedField α]
    (F : StegerWarmingNumericalFlux α) (kappa : α) (e : Geom α)
    (ext : Fin 4 → DiscontinuousFunc α) (central neighbour : Fin 4 → Nat → α)
    (hext : ∀ k, (ext k).val = some (central k) ∧ (ext k).val_neighbor = some (neighbour k))
    (p : Nat) :
    ∃ r, pointRowsDG F kappa e ext p = some r
      ∧ ∀ i j : Fin 4,
        r.1 (blockIndex i j)
            = F.P_plus kappa (fun k => central k p) (Pi.single j 1) (e.nx p) (e.ny p) i
          ∧ r.2 (blockIndex i j)
            = F.P_minus kappa (fun k => neighbour k p) (Pi.single j 1) (e.nx p) (e.ny p) i := by
  have hc : (![central 0 p, central 1 p, central 2 p, central 3 p] : Vec4 α)
      = fun k => central k p := by
    funext k; fin_cases k <;> rfl
  have hn : (![neighbour 0 p, neighbour 1 p, neighbour 2 p, neighbour 3 p] : Vec4 α)
      = fun k => neighbour k p := by
    funext k; fin_cases k <;> rfl
  refine ⟨(writeAt (writeAt (writeAt (writeAt (fun _ => 0)
        0 (F.P_plus kappa (fun k => central k p) e_1 (e.nx p) (e.ny p)))
        4 (F.P_plus kappa (fun k => central k p) e_2 (e.nx p) (e.ny p)))
        8 (F.P_plus kappa (fun k => central k p) e_3 (e.nx p) (e.ny p)))
        12 (F.P_plus kappa (fun k => central k p) e_4 (e.nx p) (e.ny p)),
      writeAt (writeAt (writeAt (writeAt (fun _ => 0)
        0 (F.P_minus kappa (fun k => neighbour k p) e_1 (e.nx p) (e.ny p)))
        4 (F.P_minus kappa (fun k => neighbour k p) e_2 (e.nx p) (e.ny p)))
        8 (F.P_minus kappa (fun k => neighbour k p) e_3 (e.nx p) (e.ny p)))
        12 (F.P_minus kappa (fun k => neighbour k p) e_4 (e.nx p) (e.ny p))), ?_, ?_⟩
  · simp only [pointRowsDG, deref, (hext 0).1, (hext 1).1, (hext 2).1, (hext 3).1,
      (hext 0).2, (hext 1).2, (hext 2).2, (hext 3).2, Option.map_some', Option.bind_eq_bind,
      Option.some_bind, Option.pure_def, hc, hn]
  · intro i j
    exact ⟨writeAt_four_apply _
        (fun x => F.P_plus kappa (fun k => central k p) x (e.nx p) (e.ny p)) i j,
      writeAt_four_apply _
        (fun x => F.P_minus kappa (fun k => neighbour k p) x (e.nx p) (e.ny p)) i j⟩

/-- The fill loop, when it succeeds from one cache, succeeds from any other cache and
leaves the same rows `p < n`; it succeeds only for `n ≤ 13`. -/
theorem fillDG_agree {α : Type} [LinearOrderedField α] (F : StegerWarmingNumericalFlux α)
    (kappa : α) (e : Geom α) (ext : Fin 4 → DiscontinuousFunc α) (n : Nat)
    (c c1 : FluxCache α)
    (h : (List.range n).foldlM (fillPointDG F kappa e ext) c = some c1)
    (c' : FluxCache α) :
    ∃ c1', (List.range n).foldlM (fillPointDG F kappa e ext) c' = some c1'
      ∧ c1'.cacheReady = c'.cacheReady ∧ c1.cacheReady = c.cacheReady ∧ n ≤ 13
      ∧ ∀ (p : Nat) (hp : p < 13), p < n →
          c1'.P_plus_cache ⟨p, hp⟩ = c1.P_plus_cache ⟨p, hp⟩
            ∧ c1'.P_minus_cache ⟨p, hp⟩ = c1.P_minus_cache ⟨p, hp⟩ := by
  induction n generalizing c1 with
  | zero =>
    simp only [List.range_zero, List.foldlM_nil, Option.pure_def, Option.some.injEq] at h
    subst h
    refine ⟨c', rfl, rfl, rfl, by omega, ?_⟩
    intro p hp hlt
    omega
  | succ n ih =>
    rw [foldlM_range_succ] at h
    cases hm : (List.range n).foldlM (fillPointDG F kappa e ext) c with
    | none => rw [hm] at h; cases h
    | some cm =>
      rw [hm, Option.some_bind] at h
      by_cases hn : n < 13
      · rw [fillPointDG_eq F kappa e ext cm n hn] at h
        cases hr : pointRowsDG F kappa e ext n with
        | none => rw [hr] at h; cases h
        | some r =>
          rw [hr, Option.map_some', Option.some.injEq] at h
          obtain ⟨cm', hm', hready', hready, -, hrows⟩ := ih cm hm
          refine ⟨{ cm' with
              P_plus_cache := Function.update cm'.P_plus_cache ⟨n, hn⟩ r.1
              P_minus_cache := Function.update cm'.P_minus_cache ⟨n, hn⟩ r.2 }, ?_, hready', ?_,
            by omega, ?_⟩
          · rw [foldlM_range_succ, hm', Option.some_bind, fillPointDG_eq F kappa e ext cm' n hn,
              hr, Option.map_some']
          · rw [← h]; exact hready
          · intro p hp hlt
            rw [← h]
            by_cases hpn : p = n
            · subst hpn
              simp only [Function.update_same, and_self]
            · have hne : (⟨p, hp⟩ : Fin 13) ≠ ⟨n, hn⟩ := by
                intro heq; exact hpn (Fin.mk.inj heq)
              simp only [Function.update_noteq hne]
              exact hrows p hp (by omega)
      · rw [fillPointDG_none F kappa e ext cm n hn] at h
        cases h

/-- The fill loop succeeds when `n ≤ 13` and the arrays of `ext` are not `NULL`; afterwards
entry `j * 4 + i` of row `p < n` of the caches is component `i` of `P_plus` (central state)
and of `P_minus` (neighbour state) at the unit vector `e_j`. -/
theorem fillDG_entries {α : Type} [LinearOrderedField α] (F : StegerWarmingNumericalFlux α)
    (kappa : α) (e : Geom α) (ext : Fin 4 → DiscontinuousFunc α)
    (central neighbour : Fin 4 → Nat → α)
    (hext : ∀ k, (ext k).val = some (central k) ∧ (ext k).val_neighbor = some (neighbour k))
    (n : Nat) (hn : n ≤ 13) (c : FluxCache α) :
    ∃ c1, (List.range n).foldlM (fillPointDG F kappa e ext) c = some c1
      ∧ c1.cacheReady = c.cacheReady
      ∧ ∀ (p : Nat) (hp : p < 13), p < n → ∀ i j : Fin 4,
          c1.P_plus_cache ⟨p, hp⟩ (blockIndex i j)
              = F.P_plus kappa (fun k => central k p) (Pi.single j 1) (e.nx p) (e.ny p) i
            ∧ c1.P_minus_cache ⟨p, hp⟩ (blockIndex i j)
              = F.P_minus kappa (fun k => neighbour k p) (Pi.single j 1) (e.nx p) (e.ny p) i := by
  induction n with
  | zero =>
    refine ⟨c, rfl, rfl, ?_⟩
    intro p hp hlt
    omega
  | succ n ih =>
    obtain ⟨cm, hm, hready, hrows⟩ := ih (by omega)
    have hn13 : n < 13 := by omega
    obtain ⟨r, hr, hentries⟩ := pointRowsDG_of_ext F kappa e ext central neighbour hext n
    refine ⟨{ cm with
        P_plus_cache := Function.update cm.P_plus_cache ⟨n, hn13⟩ r.1
        P_minus_cache := Function.update cm.P_minus_cache ⟨n, hn13⟩ r.2 }, ?_, hready, ?_⟩
    · rw [foldlM_range_succ, hm, Option.some_bind, fillPointDG_eq F kappa e ext cm n hn13,
        hr, Option.map_some']
    · intro p hp hlt i j
      by_cases hpn : p = n
      · subst hpn
        simp only [Function.update_same]
        exact hentries i j
      · have hne : (⟨p, hp⟩ : Fin 13) ≠ ⟨n, hn13⟩ := by
          intro heq; exact hpn (Fin.mk.inj heq)
        simp only [Function.update_noteq hne]
        exact hrows p hp (by omega) i j

/-- The accumulation loop reads the cache only at entry `index` of the rows `p < n`. -/
theorem accumulateDG_congr {α : Type} [LinearOrderedField α] (sub : Bool) (n : Nat)
    (wt : Nat → α) (rows rows1 : Fin 13 → Fin 16 → α) (index : Fin 16)
    (U V : Option (Nat → α))
    (h : ∀ (p : Nat) (hp : p < 13), p < n → rows ⟨p, hp⟩ index = rows1 ⟨p, hp⟩ index) :
    accumulateDG sub n wt rows index U V = accumulateDG sub n wt rows1 index U V := by
  unfold accumulateDG
  apply foldlM_congr_mem
  intro p hmem acc
  have hlt : p < n := List.mem_range.mp hmem
  by_cases hp : p < 13
  · simp only [dif_pos hp, h p hp hlt]
  · simp only [dif_neg hp]

/-- The accumulation loop over non-`NULL` arrays returns the signed sum. -/
theorem accumulateDG_some {α : Type} [LinearOrderedField α] (sub : Bool) (n : Nat)
    (hn : n ≤ 13) (wt : Nat → α) (rows : Fin 13 → Fin 16 → α) (index : Fin 16)
    (U V : Nat → α) :
    accumulateDG sub n wt rows index (some U) (some V)
      = some ((if sub then -1 else 1) * ∑ p in Finset.range n,
          wt p * ((if hp : p < 13 then rows ⟨p, hp⟩ index else 0) * U p) * V p) := by
  unfold accumulateDG
  induction n with
  | zero => simp
  | succ n ih =>
    have hn13 : n < 13 := by omega
    rw [foldlM_range_succ, ih (by omega), Option.some_bind, Finset.sum_range_succ]
    simp only [dif_pos hn13, deref, Option.map_some', Option.bind_eq_bind, Option.some_bind,
      Option.pure_def, Option.some.injEq]
    cases sub
    · simp only [Bool.false_eq_true, if_false]; ring
    · simp only [if_true]; ring

/-- Reading back the cache that a form points to after storing it. -/
theorem cache_setCache {α : Type} (st : WeakFormState α) (slot : CacheSlot) (c : FluxCache α) :
    (st.setCache slot c).cache slot = c := by
  cases slot <;> rfl

/-- Storing a cache does not change the time step. -/
theorem current_time_step_setCache {α : Type} (st : WeakFormState α) (slot : CacheSlot)
    (c : FluxCache α) : (st.setCache slot c).current_time_step = st.current_time_step := by
  cases slot <;> rfl

/-- What a returning call of the DG form has computed. -/
theorem dg_value_eq_some {α : Type} [LinearOrderedField α] (F : StegerWarmingNumericalFlux α)
    (f : EulerEquationsMatrixFormSurfSemiImplicit α) (st : WeakFormState α) (n : Nat)
    (wt : Nat → α) (u v : DiscontinuousFunc α) (e : Geom α)
    (ext : Fin 4 → DiscontinuousFunc α) (r : α) (st1 : WeakFormState α) :
    f.value F st n wt u v e ext = some (r, st1)
      ↔ ∃ c result, ensureCacheDG F f.kappa n e ext (st.cache f.cache) = some c
          ∧ accumulateBySide n wt c (blockIndex f.i f.j) u v = some result
          ∧ r = result * st.current_time_step ∧ st1 = st.setCache f.cache c := by
  simp only [EulerEquationsMatrixFormSurfSemiImplicit.value, Option.bind_eq_bind,
    Option.bind_eq_some, Option.pure_def, Option.some.injEq, Prod.mk.injEq]
  constructor
  · rintro ⟨c, hc, result, hres, h1, h2⟩
    exact ⟨c, result, hc, hres, h1.symm, h2.symm⟩
  · rintro ⟨c, result, hc, hres, h1, h2⟩
    exact ⟨c, hc, result, hres, h1.symm, h2.symm⟩

/-- The guarded block leaves the flag set. -/
theorem ensureCacheDG_ready {α : Type} [LinearOrderedField α]
    (F : StegerWarmingNumericalFlux α) (kappa : α) (n : Nat) (e : Geom α)
    (ext : Fin 4 → DiscontinuousFunc α) (c c1 : FluxCache α)
    (h : ensureCacheDG F kappa n e ext c = some c1) : c1.cacheReady = true := by
  unfold ensureCacheDG at h
  cases hr : c.cacheReady with
  | true =>
    rw [hr] at h
    simp only [Bool.not_true, Bool.false_eq_true, if_false, Option.some.injEq] at h
    rw [← h, hr]
  | false =>
    rw [hr] at h
    simp only [Bool.not_false, if_true, Option.map_eq_some'] at h
    obtain ⟨c2, -, h2⟩ := h
    rw [← h2]

/-- The sum that the selected accumulation loop returns, for a cache whose entries of
block `(i, j)` in the rows `p < n` are the flux components. -/
theorem accumulateBySide_formula {α : Type} [LinearOrderedField α]
    (F : StegerWarmingNumericalFlux α) (kappa : α) (i j : Fin 4) (n : Nat) (hn : n ≤ 13)
    (wt : Nat → α) (e : Geom α) (central neighbour : Fin 4 → Nat → α)
    (c : FluxCache α) (u v : DiscontinuousFunc α)
    (uCentral vCentral : Bool) (U V : Nat → α)
    (hu : (uCentral = true ∧ u.val = some U)
      ∨ (uCentral = false ∧ u.val = none ∧ u.val_neighbor = some U))
    (hv : (vCentral = true ∧ v.val = some V)
      ∨ (vCentral = false ∧ v.val = none ∧ v.val_neighbor = some V))
    (hrows : ∀ (p : Nat) (hp : p < 13), p < n →
      c.P_plus_cache ⟨p, hp⟩ (blockIndex i j)
          = F.P_plus kappa (fun k => central k p) (Pi.single j 1) (e.nx p) (e.ny p) i
        ∧ c.P_minus_cache ⟨p, hp⟩ (blockIndex i j)
          = F.P_minus kappa (fun k => neighbour k p) (Pi.single j 1) (e.nx p) (e.ny p) i)
    (time_step : α) :
    (accumulateBySide n wt c (blockIndex i j) u v).map (fun result => result * time_step)
      = some (dgValueSpec F kappa i j time_step n wt e central neighbour
          uCentral U vCentral V) := by
  have hplus : ∀ p ∈ Finset.range n,
      (if hp : p < 13 then c.P_plus_cache ⟨p, hp⟩ (blockIndex i j) else 0)
        = F.P_plus kappa (fun k => central k p) (Pi.single j 1) (e.nx p) (e.ny p) i := by
    intro p hmem
    have hlt : p < n := Finset.mem_range.mp hmem
    have hp : p < 13 := by omega
    rw [dif_pos hp]
    exact (hrows p hp hlt).1
  have hminus : ∀ p ∈ Finset.range n,
      (if hp : p < 13 then c.P_minus_cache ⟨p, hp⟩ (blockIndex i j) else 0)
        = F.P_minus kappa (fun k => neighbour k p) (Pi.single j 1) (e.nx p) (e.ny p) i := by
    intro p hmem
    have hlt : p < n := Finset.mem_range.mp hmem
    have hp : p < 13 := by omega
    rw [dif_pos hp]
    exact (hrows p hp hlt).2
  unfold accumulateBySide dgValueSpec
  rcases hu with ⟨huc, huv⟩ | ⟨huc, huv, hun⟩ <;> rcases hv with ⟨hvc, hvv⟩ | ⟨hvc, hvv, hvn⟩
  · simp only [huc, hvc, huv, hvv, accumulateDG_some _ n hn, Option.map_some',
      Option.some.injEq, if_true, Bool.false_eq_true, if_false, Finset.mul_sum, Finset.sum_mul]
    apply Finset.sum_congr rfl
    intro p hmem
    rw [hplus p hmem]
    ring
  · simp only [huc, hvc, huv, hvv, hvn, accumulateDG_some _ n hn, Option.map_some',
      Option.some.injEq, if_true, Bool.false_eq_true, if_false, Finset.mul_sum, Finset.sum_mul]
    apply Finset.sum_congr rfl
    intro p hmem
    rw [hplus p hmem]
    ring
  · simp only [huc, hvc, huv, hvv, hun, accumulateDG_some _ n hn, Option.map_some',
      Option.some.injEq, if_true, Bool.false_eq_true, if_false, Finset.mul_sum, Finset.sum_mul]
    apply Finset.sum_congr rfl
    intro p hmem
    rw [hminus p hmem]
    ring
  · simp only [huc, hvc, huv, hvv, hun, hvn, accumulateDG_some _ n hn, Option.map_some',
      Option.some.injEq, if_true, Bool.false_eq_true, if_false, Finset.mul_sum, Finset.sum_mul]
    apply Finset.sum_congr rfl
    intro p hmem
    rw [hminus p hmem]
    ring

/-- The value of the DG form in terms of the cache that its guarded block returns. -/
theorem dg_value_of_cache {α : Type} [LinearOrderedField α] (F : StegerWarmingNumericalFlux α)
    (f : EulerEquationsMatrixFormSurfSemiImplicit α) (st : WeakFormState α) (n : Nat)
    (wt : Nat → α) (u v : DiscontinuousFunc α) (e : Geom α)
    (ext : Fin 4 → DiscontinuousFunc α) (c : FluxCache α)
    (hc : ensureCacheDG F f.kappa n e ext (st.cache f.cache) = some c) :
    (f.value F st n wt u v e ext).map Prod.fst
      = (accumulateBySide n wt c (blockIndex f.i f.j) u v).map
          (fun result => result * st.current_time_step) := by
  simp only [EulerEquationsMatrixFormSurfSemiImplicit.value, hc, Option.bind_eq_bind,
    Option.some_bind]
  cases accumulateBySide n wt c (blockIndex f.i f.j) u v with
  | none => rfl
  | some result => rfl

/-- C1 (amended): for `n ≤ 13` and non-`NULL` arrays, when the call starts with
`*cacheReady == false`, or with the cache left by a call (on the same `n`, `ext` and
geometry, starting from `*cacheReady == false`) of a DG form with the same `kappa` and the
same cache, `value` of block `(i, j)` returns
`time_step * Σ_p s * wt[p] * M[p][i][j] * U[p] * V[p]` with `U`, `M`, `s`, `V` selected by
the sides on which `u` and `v` live as in `dgValueSpec`. -/
theorem dg_value_formula {α : Type} [LinearOrderedField α] (F : StegerWarmingNumericalFlux α)
    (f : EulerEquationsMatrixFormSurfSemiImplicit α) (st : WeakFormState α) (n : Nat)
    (wt : Nat → α) (u v : DiscontinuousFunc α) (e : Geom α)
    (ext : Fin 4 → DiscontinuousFunc α) (central neighbour : Fin 4 → Nat → α)
    (uCentral vCentral : Bool) (U V : Nat → α)
    (hn : n ≤ 13)
    (hext : ∀ k, (ext k).val = some (central k) ∧ (ext k).val_neighbor = some (neighbour k))
    (hu : (uCentral = true ∧ u.val = some U)
      ∨ (uCentral = false ∧ u.val = none ∧ u.val_neighbor = some U))
    (hv : (vCentral = true ∧ v.val = some V)
      ∨ (vCentral = false ∧ v.val = none ∧ v.val_neighbor = some V))
    (hcache : (st.cache f.cache).cacheReady = false
      ∨ ∃ (A : EulerEquationsMatrixFormSurfSemiImplicit α) (st0 : WeakFormState α)
          (wtA : Nat → α) (uA vA : DiscontinuousFunc α) (rA : α),
          A.kappa = f.kappa ∧ A.cache = f.cache ∧ (st0.cache A.cache).cacheReady = false
            ∧ A.value F st0 n wtA uA vA e ext = some (rA, st)) :
    (f.value F st n wt u v e ext).map Prod.fst
      = some (dgValueSpec F f.kappa f.i f.j st.current_time_step n wt e central neighbour
          uCentral U vCentral V) := by
  have key : ∀ c0 : FluxCache α, c0.cacheReady = false →
      ∃ c, ensureCacheDG F f.kappa n e ext c0 = some c ∧ c.cacheReady = true
        ∧ ∀ (p : Nat) (hp : p < 13), p < n →
          c.P_plus_cache ⟨p, hp⟩ (blockIndex f.i f.j)
              = F.P_plus f.kappa (fun k => central k p) (Pi.single f.j 1) (e.nx p) (e.ny p) f.i
            ∧ c.P_minus_cache ⟨p, hp⟩ (blockIndex f.i f.j)
              = F.P_minus f.kappa (fun k => neighbour k p) (Pi.single f.j 1) (e.nx p) (e.ny p)
                  f.i := by
    intro c0 hc0
    obtain ⟨c1, hfold, -, hrows⟩ :=
      fillDG_entries F f.kappa e ext central neighbour hext n hn c0
    refine ⟨{ c1 with cacheReady := true }, ?_, rfl, ?_⟩
    · simp only [ensureCacheDG, hc0, Bool.not_false, if_true, hfold, Option.map_some']
    · intro p hp hlt
      exact hrows p hp hlt f.i f.j
  rcases hcache with hfresh | ⟨A, st0, wtA, uA, vA, rA, hk, hslot, hfresh0, hcall⟩
  · obtain ⟨c, hc, -, hrows⟩ := key _ hfresh
    rw [dg_value_of_cache F f st n wt u v e ext c hc]
    exact accumulateBySide_formula F f.kappa f.i f.j n hn wt e central neighbour c u v
      uCentral vCentral U V hu hv hrows st.current_time_step
  · obtain ⟨cA, resA, hcA, -, -, hst⟩ :=
      (dg_value_eq_some F A st0 n wtA uA vA e ext rA st).mp hcall
    rw [hk] at hcA
    obtain ⟨c, hc, hready, hrows⟩ := key _ hfresh0
    rw [hcA, Option.some.injEq] at hc
    subst hc
    have hcur : st.cache f.cache = cA := by
      rw [hst, ← hslot, cache_setCache]
    have hens : ensureCacheDG F f.kappa n e ext (st.cache f.cache) = some cA := by
      simp only [ensureCacheDG, hcur, hready, Bool.not_true, Bool.false_eq_true, if_false]
    rw [dg_value_of_cache F f st n wt u v e ext cA hens]
    exact accumulateBySide_formula F f.kappa f.i f.j n hn wt e central neighbour cA u v
      uCentral vCentral U V hu hv hrows st.current_time_step

/-- Witness of C1 (amended): one quadrature point, both functions central, cache not
ready. -/
theorem dg_value_formula_witness :
    (1 ≤ 13) ∧ (freshState.cache sampleFormDG.cache).cacheReady = false
      ∧ (sampleFormDG.value sampleFlux freshState 1 (fun _ => 1) sampleCentral sampleCentral
          sampleGeom sampleExt).map Prod.fst
        = some (dgValueSpec sampleFlux sampleFormDG.kappa sampleFormDG.i sampleFormDG.j
            freshState.current_time_step 1 (fun _ => 1) sampleGeom (fun _ _ => 1)
            (fun _ _ => 1) true (fun _ => 1) true (fun _ => 1)) :=
  ⟨by decide, rfl,
    dg_value_formula sampleFlux sampleFormDG freshState 1 (fun _ => 1) sampleCentral
      sampleCentral sampleGeom sampleExt (fun _ _ => 1) (fun _ _ => 1) true true
      (fun _ => 1) (fun _ => 1) (by decide) (fun _ => ⟨rfl, rfl⟩) (Or.inl ⟨rfl, rfl⟩)
      (Or.inl ⟨rfl, rfl⟩) (Or.inl rfl)⟩

/-- A call of the DG form that starts with the cache not ready returns only if `n ≤ 13`. -/
theorem dg_value_fresh_some_le {α : Type} [LinearOrderedField α]
    (F : StegerWarmingNumericalFlux α) (f : EulerEquationsMatrixFormSurfSemiImplicit α)
    (st : WeakFormState α) (n : Nat) (wt : Nat → α) (u v : DiscontinuousFunc α) (e : Geom α)
    (ext : Fin 4 → DiscontinuousFunc α) (r : α) (st1 : WeakFormState α)
    (hfresh : (st.cache f.cache).cacheReady = false)
    (h : f.value F st n wt u v e ext = some (r, st1)) : n ≤ 13 := by
  obtain ⟨c, result, hc, -, -, -⟩ := (dg_value_eq_some F f st n wt u v e ext r st1).mp h
  simp only [ensureCacheDG, hfresh, Bool.not_false, if_true, Option.map_eq_some'] at hc
  obtain ⟨c1, hfold, -⟩ := hc
  obtain ⟨-, -, -, -, hle, -⟩ := fillDG_agree F f.kappa e ext n _ c1 hfold c1
  exact hle

/-- C1 (counterexample): with one quadrature point, weight `1`, `u = v = 1` on the central
element, and a cache flagged ready that holds zeros, `value` of block `(0, 0)` returns `0`
while the formula gives `1`; and with 14 quadrature points and the cache not ready the call
does not return a value (it runs past the 13 rows of the cache). -/
theorem dg_value_stale_cache :
    (sampleFormDG.value sampleFlux staleState 1 (fun _ => 1) sampleCentral sampleCentral
        sampleGeom sampleExt).map Prod.fst = some 0
      ∧ dgValueSpec sampleFlux sampleFormDG.kappa sampleFormDG.i sampleFormDG.j
          staleState.current_time_step 1 (fun _ => 1) sampleGeom (fun _ _ => 1)
          (fun _ _ => 1) true (fun _ => 1) true (fun _ => 1) = 1
      ∧ (sampleFormDG.value sampleFlux staleState 1 (fun _ => 1) sampleCentral sampleCentral
          sampleGeom sampleExt).map Prod.fst
        ≠ some (dgValueSpec sampleFlux sampleFormDG.kappa sampleFormDG.i sampleFormDG.j
            staleState.current_time_step 1 (fun _ => 1) sampleGeom (fun _ _ => 1)
            (fun _ _ => 1) true (fun _ => 1) true (fun _ => 1))
      ∧ sampleFormDG.value sampleFlux freshState 14 (fun _ => 1) sampleCentral sampleCentral
          sampleGeom sampleExt = none := by
  have hA : (sampleFormDG.value sampleFlux staleState 1 (fun _ => 1) sampleCentral
      sampleCentral sampleGeom sampleExt).map Prod.fst = some 0 := by
    have hens : ensureCacheDG sampleFlux sampleFormDG.kappa 1 sampleGeom sampleExt
        (staleState.cache sampleFormDG.cache) = some (zeroCache true) := rfl
    rw [dg_value_of_cache sampleFlux sampleFormDG staleState 1 _ _ _ _ _ _ hens]
    simp [accumulateBySide, sampleCentral, accumulateDG_some, zeroCache]
  have hB : dgValueSpec sampleFlux sampleFormDG.kappa sampleFormDG.i sampleFormDG.j
      staleState.current_time_step 1 (fun _ => 1) sampleGeom (fun _ _ => 1)
      (fun _ _ => 1) true (fun _ => 1) true (fun _ => 1) = 1 := by
    simp [dgValueSpec, sampleFlux, sampleFormDG, staleState]
  refine ⟨hA, hB, ?_, ?_⟩
  · rw [hA, hB]
    norm_num
  · cases h : sampleFormDG.value sampleFlux freshState 14 (fun _ => 1) sampleCentral
        sampleCentral sampleGeom sampleExt with
    | none => rfl
    | some r =>
      have hle := dg_value_fresh_some_le sampleFlux sampleFormDG freshState 14 _ _ _ _ _
        r.1 r.2 rfl h
      omega

/-- The value of the DG form read from a ready cache is the value computed with the cache
not ready, when the ready cache was left by a call of a form with the same `kappa` on the
same `n`, `ext` and geometry. -/
theorem dg_value_ready_eq_fresh {α : Type} [LinearOrderedField α]
    (F : StegerWarmingNumericalFlux α) (A B : EulerEquationsMatrixFormSurfSemiImplicit α)
    (hk : A.kappa = B.kappa) (hslot : A.cache = B.cache)
    (st0 st0' st1 : WeakFormState α)
    (h0 : (st0.cache A.cache).cacheReady = false)
    (h0' : (st0'.cache B.cache).cacheReady = false)
    (hts : st0'.current_time_step = st0.current_time_step)
    (n : Nat) (wtA wt : Nat → α) (uA vA u v : DiscontinuousFunc α) (e : Geom α)
    (ext : Fin 4 → DiscontinuousFunc α) (rA : α)
    (hcall : A.value F st0 n wtA uA vA e ext = some (rA, st1)) :
    (st1.cache A.cache).cacheReady = true
      ∧ (B.value F st1 n wt u v e ext).map Prod.fst
        = (B.value F st0' n wt u v e ext).map Prod.fst := by
  obtain ⟨cA, resA, hcA, -, -, hst⟩ :=
    (dg_value_eq_some F A st0 n wtA uA vA e ext rA st1).mp hcall
  have hready : cA.cacheReady = true := ensureCacheDG_ready F A.kappa n e ext _ cA hcA
  have hcur : st1.cache A.cache = cA := by rw [hst, cache_setCache]
  have hts1 : st1.current_time_step = st0.current_time_step := by
    rw [hst, current_time_step_setCache]
  refine ⟨by rw [hcur, hready], ?_⟩
  have hens1 : ensureCacheDG F B.kappa n e ext (st1.cache B.cache) = some cA := by
    simp only [ensureCacheDG, ← hslot, hcur, hready, Bool.not_true, Bool.false_eq_true,
      if_false]
  simp only [ensureCacheDG, h0, Bool.not_false, if_true, Option.map_eq_some'] at hcA
  obtain ⟨c1, hfold, hc1⟩ := hcA
  rw [hk] at hfold
  obtain ⟨c1', hfold', -, -, -, hrows⟩ :=
    fillDG_agree F B.kappa e ext n _ c1 hfold (st0'.cache B.cache)
  have hens0 : ensureCacheDG F B.kappa n e ext (st0'.cache B.cache)
      = some { c1' with cacheReady := true } := by
    simp only [ensureCacheDG, h0', Bool.not_false, if_true, hfold', Option.map_some']
  rw [dg_value_of_cache F B st1 n wt u v e ext cA hens1,
    dg_value_of_cache F B st0' n wt u v e ext _ hens0, hts1, hts]
  congr 1
  have hp : ∀ (p : Nat) (hp : p < 13), p < n →
      cA.P_plus_cache ⟨p, hp⟩ (blockIndex B.i B.j)
        = c1'.P_plus_cache ⟨p, hp⟩ (blockIndex B.i B.j) := by
    intro p hp hlt
    rw [← hc1, (hrows p hp hlt).1]
  have hm : ∀ (p : Nat) (hp : p < 13), p < n →
      cA.P_minus_cache ⟨p, hp⟩ (blockIndex B.i B.j)
        = c1'.P_minus_cache ⟨p, hp⟩ (blockIndex B.i B.j) := by
    intro p hp hlt
    rw [← hc1, (hrows p hp hlt).2]
  unfold accumulateBySide
  cases u.val <;> cases v.val <;> dsimp only
  · exact accumulateDG_congr _ n wt _ _ _ _ _ hm
  · exact accumulateDG_congr _ n wt _ _ _ _ _ hm
  · exact accumulateDG_congr _ n wt _ _ _ _ _ hp
  · exact accumulateDG_congr _ n wt _ _ _ _ _ hp

/-- An inlet/outlet matrix form registered by the one-inflow constructor carries either
the inlet state on `inlet_markers` or the state `0, 0, 0, 0` on `outlet_markers`. -/
theorem mem_oneInflowCtor_mfsurf {α σ : Type} [LinearOrderedField α]
    (calc_energy : α → α → α → α → α → α)
    (kappa rho_ext v1_ext v2_ext pressure_ext : α)
    (solid_wall_markers inlet_markers outlet_markers : List String)
    (pd pdx pdy pe : σ) (fvm_only : Bool) (num_of_equations : Int)
    (f : EulerEquationsMatrixFormSemiImplicitInletOutlet α)
    (hf : MatrixFormSurf.inletOutlet f ∈ (EulerEquationsWeakFormSemiImplicit.oneInflowCtor calc_energy kappa rho_ext v1_ext
        v2_ext pressure_ext solid_wall_markers inlet_markers outlet_markers pd pdx pdy pe
        fvm_only num_of_equations).mfsurf) :
    f = ⟨f.i, f.j, rho_ext, v1_ext, v2_ext, calc_energy rho_ext (rho_ext * v1_ext) (rho_ext * v2_ext) pressure_ext kappa,
          inlet_markers, kappa, CacheSlot.Surf⟩
      ∨ (outlet_markers ≠ [] ∧
          f = ⟨f.i, f.j, 0, 0, 0, 0, outlet_markers, kappa, CacheSlot.Surf⟩) := by
  rw [oneInflowCtor_mfsurf] at hf
  simp only [List.mem_flatMap, List.mem_append, List.mem_singleton] at hf
  obtain ⟨a, -, b, -, h⟩ := hf
  rcases h with (h | h) | h
  · left
    injection h with h
    rw [h]
  · right
    by_cases ho : outlet_markers ≠ []
    · rw [if_pos ho] at h
      simp only [List.mem_singleton] at h
      injection h with h
      exact ⟨ho, by rw [h]⟩
    · rw [if_neg ho] at h
      simp at h
  · cases h

/-- A surface vector form registered by the one-inflow constructor carries either the
inlet state on `inlet_markers` or the state `0, 0, 0, 0` on `outlet_markers`. -/
theorem mem_oneInflowCtor_vfsurf {α σ : Type} [LinearOrderedField α]
    (calc_energy : α → α → α → α → α → α)
    (kappa rho_ext v1_ext v2_ext pressure_ext : α)
    (solid_wall_markers inlet_markers outlet_markers : List String)
    (pd pdx pdy pe : σ) (fvm_only : Bool) (num_of_equations : Int)
    (f : EulerEquationsVectorFormSemiImplicitInletOutlet α)
    (hf : f ∈ (EulerEquationsWeakFormSemiImplicit.oneInflowCtor calc_energy kappa rho_ext v1_ext
        v2_ext pressure_ext solid_wall_markers inlet_markers outlet_markers pd pdx pdy pe
        fvm_only num_of_equations).vfsurf) :
    f = ⟨f.i, rho_ext, v1_ext, v2_ext, calc_energy rho_ext (rho_ext * v1_ext) (rho_ext * v2_ext) pressure_ext kappa,
          inlet_markers, kappa⟩
      ∨ (outlet_markers ≠ [] ∧ f = ⟨f.i, 0, 0, 0, 0, outlet_markers, kappa⟩) := by
  rw [oneInflowCtor_vfsurf] at hf
  simp only [List.mem_flatMap, List.mem_append, List.mem_singleton] at hf
  obtain ⟨a, -, h⟩ := hf
  rcases h with h | h
  · left
    rw [h]
  · right
    by_cases ho : outlet_markers ≠ []
    · rw [if_pos ho] at h
      simp only [List.mem_singleton] at h
      exact ⟨ho, by rw [h]⟩
    · rw [if_neg ho] at h
      simp at h

/-- A DG form registered by the one-inflow constructor has the `kappa` of the weak form and
points to the DG cache. -/
theorem mem_oneInflowCtor_mfDG {α σ : Type} [LinearOrderedField α]
    (calc_energy : α → α → α → α → α → α)
    (kappa rho_ext v1_ext v2_ext pressure_ext : α)
    (solid_wall_markers inlet_markers outlet_markers : List String)
    (pd pdx pdy pe : σ) (fvm_only : Bool) (num_of_equations : Int)
    (f : EulerEquationsMatrixFormSurfSemiImplicit α)
    (hf : f ∈ (EulerEquationsWeakFormSemiImplicit.oneInflowCtor calc_energy kappa rho_ext v1_ext
        v2_ext pressure_ext solid_wall_markers inlet_markers outlet_markers pd pdx pdy pe
        fvm_only num_of_equations).mfDG) :
    f = ⟨f.i, f.j, kappa, CacheSlot.DG⟩ := by
  rw [oneInflowCtor_mfDG] at hf
  simp only [List.mem_flatMap, List.mem_map] at hf
  obtain ⟨a, -, b, -, h⟩ := hf
  rw [← h]

/-- C2: for two DG forms `A` and `B` registered by the one-inflow constructor and every
`n ≤ 13`, `B.value` called with the cache left ready by a call of `A.value` (which started
with `cacheReadyDG == false`) on the same `n`, `ext` and geometry returns the same number
as `B.value` called with `cacheReadyDG == false`; every returning call leaves
`cacheReadyDG == true`, and `set_active_DG_state` resets it to `false`. -/
theorem dg_cache_transparent {α σ : Type} [LinearOrderedField α]
    (F : StegerWarmingNumericalFlux α) (calc_energy : α → α → α → α → α → α)
    (kappa rho_ext v1_ext v2_ext pressure_ext : α)
    (solid_wall_markers inlet_markers outlet_markers : List String)
    (pd pdx pdy pe : σ) (fvm_only : Bool) (num_of_equations : Int)
    (A B : EulerEquationsMatrixFormSurfSemiImplicit α)
    (hA : A ∈ (EulerEquationsWeakFormSemiImplicit.oneInflowCtor calc_energy kappa rho_ext v1_ext
        v2_ext pressure_ext solid_wall_markers inlet_markers outlet_markers pd pdx pdy pe
        fvm_only num_of_equations).mfDG)
    (hB : B ∈ (EulerEquationsWeakFormSemiImplicit.oneInflowCtor calc_energy kappa rho_ext v1_ext
        v2_ext pressure_ext solid_wall_markers inlet_markers outlet_markers pd pdx pdy pe
        fvm_only num_of_equations).mfDG)
    (st0 st0' st1 : WeakFormState α)
    (h0 : st0.cacheDG.cacheReady = false) (h0' : st0'.cacheDG.cacheReady = false)
    (hts : st0'.current_time_step = st0.current_time_step)
    (n : Nat) (_hn : n ≤ 13) (wtA wt : Nat → α) (uA vA u v : DiscontinuousFunc α)
    (e : Geom α) (ext : Fin 4 → DiscontinuousFunc α) (rA : α)
    (hcall : A.value F st0 n wtA uA vA e ext = some (rA, st1)) :
    st1.cacheDG.cacheReady = true
      ∧ (B.value F st1 n wt u v e ext).map Prod.fst
        = (B.value F st0' n wt u v e ext).map Prod.fst
      ∧ (∀ (s s1 : WeakFormState α) (r : α),
          B.value F s n wt u v e ext = some (r, s1) → s1.cacheDG.cacheReady = true)
      ∧ (∀ s : WeakFormState α, (set_active_DG_state s).cacheDG.cacheReady = false) := by
  have hAeq := mem_oneInflowCtor_mfDG calc_energy kappa rho_ext v1_ext v2_ext pressure_ext
    solid_wall_markers inlet_markers outlet_markers pd pdx pdy pe fvm_only num_of_equations
    A hA
  have hBeq := mem_oneInflowCtor_mfDG calc_energy kappa rho_ext v1_ext v2_ext pressure_ext
    solid_wall_markers inlet_markers outlet_markers pd pdx pdy pe fvm_only num_of_equations
    B hB
  have hAk : A.kappa = kappa := by rw [hAeq]
  have hBk : B.kappa = kappa := by rw [hBeq]
  have hAc : A.cache = CacheSlot.DG := by rw [hAeq]
  have hBc : B.cache = CacheSlot.DG := by rw [hBeq]
  have h := dg_value_ready_eq_fresh F A B (by rw [hAk, hBk]) (by rw [hAc, hBc]) st0 st0' st1
    (by rw [hAc]; exact h0) (by rw [hBc]; exact h0') hts n wtA wt uA vA u v e ext rA hcall
  rw [hAc] at h
  refine ⟨h.1, h.2, ?_, ?_⟩
  · intro s s1 r hs
    obtain ⟨c, result, hc, -, -, hst⟩ := (dg_value_eq_some F B s n wt u v e ext r s1).mp hs
    have hready := ensureCacheDG_ready F B.kappa n e ext _ c hc
    have hcur : s1.cache B.cache = c := by rw [hst, cache_setCache]
    rw [hBc] at hcur
    change s1.cacheDG = c at hcur
    rw [hcur, hready]
  · intro s
    rfl

/-- Witness of C2: the forms of blocks `(0, 0)` and `(1, 0)` of `sampleWeakForm`, one
quadrature point; the call of the first form from the state `freshState` returns. -/
theorem dg_cache_transparent_witness :
    ∃ (rA : ℚ) (st1 : WeakFormState ℚ),
      sampleFormDG.value sampleFlux freshState 1 (fun _ => 1) sampleCentral sampleCentral
          sampleGeom sampleExt = some (rA, st1)
        ∧ st1.cacheDG.cacheReady = true
        ∧ (sampleFormDG10.value sampleFlux st1 1 (fun _ => 1) sampleCentral sampleCentral
            sampleGeom sampleExt).map Prod.fst
          = (sampleFormDG10.value sampleFlux freshState 1 (fun _ => 1) sampleCentral
              sampleCentral sampleGeom sampleExt).map Prod.fst := by
  have hA : sampleFormDG ∈ sampleWeakForm.mfDG := by
    unfold sampleWeakForm
    rw [oneInflowCtor_mfDG, finRange_four]
    simp [sampleFormDG]
  have hB : sampleFormDG10 ∈ sampleWeakForm.mfDG := by
    unfold sampleWeakForm
    rw [oneInflowCtor_mfDG, finRange_four]
    simp [sampleFormDG10]
  have hsome : (sampleFormDG.value sampleFlux freshState 1 (fun _ => 1) sampleCentral
      sampleCentral sampleGeom sampleExt).isSome = true := rfl
  obtain ⟨x, hx⟩ := Option.isSome_iff_exists.mp hsome
  have h := dg_cache_transparent sampleFlux (fun _ _ _ p _ => p) (14 / 10) 1 1 0 1
    ["wall"] ["in"] ["out"] () () () () false 4 sampleFormDG sampleFormDG10 hA hB
    freshState freshState x.2 rfl rfl rfl 1 (by decide) (fun _ => 1) (fun _ => 1) sampleCentral
    sampleCentral sampleCentral sampleCentral sampleGeom sampleExt x.1 hx
  exact ⟨x.1, x.2, hx, h.1, h.2.1⟩

set_option maxHeartbeats 1000000 in
/-- C4: the one-inflow constructor registers, for each block `(i, j)`, exactly the inlet
surface matrix form (on `inlet_markers`, prescribed state `rho_ext, v1_ext, v2_ext,
energy_ext[0]`), the outlet surface matrix form (state `0, 0, 0, 0`) iff `outlet_markers`
is non-empty, the solid-wall surface matrix form on `solid_wall_markers`, and one DG matrix
form; the sizes of the form lists follow. -/
theorem oneInflowCtor_registers {α σ : Type} [LinearOrderedField α]
    (calc_energy : α → α → α → α → α → α)
    (kappa rho_ext v1_ext v2_ext pressure_ext : α)
    (solid_wall_markers inlet_markers outlet_markers : List String)
    (pd pdx pdy pe : σ) (fvm_only : Bool) (num_of_equations : Int) :
    (∀ i j : Fin 4,
      (EulerEquationsWeakFormSemiImplicit.oneInflowCtor calc_energy kappa rho_ext v1_ext
        v2_ext pressure_ext solid_wall_markers inlet_markers outlet_markers pd pdx pdy pe
        fvm_only num_of_equations).mfsurf.filter
          (fun f => decide (f.i = i ∧ f.j = j))
        = [MatrixFormSurf.inletOutlet ⟨i, j, rho_ext, v1_ext, v2_ext,
              calc_energy rho_ext (rho_ext * v1_ext) (rho_ext * v2_ext) pressure_ext kappa,
              inlet_markers, kappa, CacheSlot.Surf⟩]
          ++ (if outlet_markers ≠ [] then
                [MatrixFormSurf.inletOutlet ⟨i, j, 0, 0, 0, 0, outlet_markers, kappa,
                  CacheSlot.Surf⟩]
              else [])
          ++ [MatrixFormSurf.solidWall ⟨i, j, solid_wall_markers, kappa⟩])
      ∧ (∀ i j : Fin 4,
        (EulerEquationsWeakFormSemiImplicit.oneInflowCtor calc_energy kappa rho_ext v1_ext
        v2_ext pressure_ext solid_wall_markers inlet_markers outlet_markers pd pdx pdy pe
        fvm_only num_of_equations).mfDG.filter
            (fun f => decide (f.i = i ∧ f.j = j))
          = [⟨i, j, kappa, CacheSlot.DG⟩])
      ∧ (EulerEquationsWeakFormSemiImplicit.oneInflowCtor calc_energy kappa rho_ext v1_ext
        v2_ext pressure_ext solid_wall_markers inlet_markers outlet_markers pd pdx pdy pe
        fvm_only num_of_equations).mfvol.length
          = 4 + (if fvm_only then 0 else 16)
      ∧ (EulerEquationsWeakFormSemiImplicit.oneInflowCtor calc_energy kappa rho_ext v1_ext
        v2_ext pressure_ext solid_wall_markers inlet_markers outlet_markers pd pdx pdy pe
        fvm_only num_of_equations).mfDG.length = 16
      ∧ (EulerEquationsWeakFormSemiImplicit.oneInflowCtor calc_energy kappa rho_ext v1_ext
        v2_ext pressure_ext solid_wall_markers inlet_markers outlet_markers pd pdx pdy pe
        fvm_only num_of_equations).mfsurf.length
          = 32 + (if outlet_markers ≠ [] then 16 else 0)
      ∧ (EulerEquationsWeakFormSemiImplicit.oneInflowCtor calc_energy kappa rho_ext v1_ext
        v2_ext pressure_ext solid_wall_markers inlet_markers outlet_markers pd pdx pdy pe
        fvm_only num_of_equations).vfvol.length = 4
      ∧ (EulerEquationsWeakFormSemiImplicit.oneInflowCtor calc_energy kappa rho_ext v1_ext
        v2_ext pressure_ext solid_wall_markers inlet_markers outlet_markers pd pdx pdy pe
        fvm_only num_of_equations).vfsurf.length
          = 4 + (if outlet_markers ≠ [] then 4 else 0)
      ∧ (EulerEquationsWeakFormSemiImplicit.oneInflowCtor calc_energy kappa rho_ext v1_ext
        v2_ext pressure_ext solid_wall_markers inlet_markers outlet_markers pd pdx pdy pe
        fvm_only num_of_equations).dgForms.length = 16
      ∧ (EulerEquationsWeakFormSemiImplicit.oneInflowCtor calc_energy kappa rho_ext v1_ext
        v2_ext pressure_ext solid_wall_markers inlet_markers outlet_markers pd pdx pdy pe
        fvm_only num_of_equations).dgFormsInletOutlet.length
          = 16 + (if outlet_markers ≠ [] then 16 else 0) := by
  refine ⟨?_, ?_, ?_, ?_, ?_, ?_, ?_, ?_, ?_⟩
  · intro i j
    rw [oneInflowCtor_mfsurf, finRange_four]
    cases outlet_markers <;> fin_cases i <;> fin_cases j <;>
      simp [MatrixFormSurf.i, MatrixFormSurf.j]
  · intro i j
    rw [oneInflowCtor_mfDG, finRange_four]
    fin_cases i <;> fin_cases j <;> simp
  · rw [oneInflowCtor_mfvol, finRange_four]
    cases fvm_only <;> simp
  · rw [oneInflowCtor_mfDG, finRange_four]
    simp
  · rw [oneInflowCtor_mfsurf, finRange_four]
    cases outlet_markers <;> simp
  · rw [oneInflowCtor_vfvol, finRange_four]
    simp
  · rw [oneInflowCtor_vfsurf, finRange_four]
    cases outlet_markers <;> simp
  · rw [oneInflowCtor_dgForms, oneInflowCtor_mfDG, finRange_four]
    simp
  · rw [oneInflowCtor_dgFormsInletOutlet, finRange_four]
    cases outlet_markers <;> simp

/-- Inlet forms of a weak form built by the one-inflow constructor: a surface form on
`inlet_markers` has the prescribed state of the constructor arguments, provided the outlet
markers are not the same list. -/
theorem inlet_w_B_of_mem {α σ : Type} [LinearOrderedField α]
    (calc_energy : α → α → α → α → α → α)
    (kappa rho_ext v1_ext v2_ext pressure_ext : α)
    (solid_wall_markers inlet_markers outlet_markers : List String)
    (pd pdx pdy pe : σ) (fvm_only : Bool) (num_of_equations : Int)
    (hne : inlet_markers ≠ outlet_markers) :
    (∀ f : EulerEquationsMatrixFormSemiImplicitInletOutlet α,
        MatrixFormSurf.inletOutlet f ∈
          (EulerEquationsWeakFormSemiImplicit.oneInflowCtor calc_energy kappa rho_ext v1_ext
            v2_ext pressure_ext solid_wall_markers inlet_markers outlet_markers pd pdx pdy pe
            fvm_only num_of_equations).mfsurf →
        f.areas = inlet_markers →
        f.w_B = ![rho_ext, rho_ext * v1_ext, rho_ext * v2_ext,
          calc_energy rho_ext (rho_ext * v1_ext) (rho_ext * v2_ext) pressure_ext kappa])
      ∧ (∀ f : EulerEquationsVectorFormSemiImplicitInletOutlet α,
        f ∈ (EulerEquationsWeakFormSemiImplicit.oneInflowCtor calc_energy kappa rho_ext v1_ext
            v2_ext pressure_ext solid_wall_markers inlet_markers outlet_markers pd pdx pdy pe
            fvm_only num_of_equations).vfsurf →
        f.areas = inlet_markers →
        f.w_B = ![rho_ext, rho_ext * v1_ext, rho_ext * v2_ext,
          calc_energy rho_ext (rho_ext * v1_ext) (rho_ext * v2_ext) pressure_ext kappa]) := by
  constructor
  · intro f hf ha
    rcases mem_oneInflowCtor_mfsurf _ _ _ _ _ _ _ _ _ _ _ _ _ _ _ f hf with h | ⟨-, h⟩
    · rw [h]; rfl
    · exfalso
      apply hne
      rw [← ha, h]
  · intro f hf ha
    rcases mem_oneInflowCtor_vfsurf _ _ _ _ _ _ _ _ _ _ _ _ _ _ _ f hf with h | ⟨-, h⟩
    · rw [h]; rfl
    · exfalso
      apply hne
      rw [← ha, h]

/-- The one-inflow constructor registers, for every block and on every row, a form on
`inlet_markers`. -/
theorem inlet_forms_mem {α σ : Type} [LinearOrderedField α]
    (calc_energy : α → α → α → α → α → α)
    (kappa rho_ext v1_ext v2_ext pressure_ext : α)
    (solid_wall_markers inlet_markers outlet_markers : List String)
    (pd pdx pdy pe : σ) (fvm_only : Bool) (num_of_equations : Int) :
    (∀ i j : Fin 4, ∃ f : EulerEquationsMatrixFormSemiImplicitInletOutlet α,
        MatrixFormSurf.inletOutlet f ∈
          (EulerEquationsWeakFormSemiImplicit.oneInflowCtor calc_energy kappa rho_ext v1_ext
            v2_ext pressure_ext solid_wall_markers inlet_markers outlet_markers pd pdx pdy pe
            fvm_only num_of_equations).mfsurf
          ∧ f.areas = inlet_markers ∧ f.i = i ∧ f.j = j)
      ∧ (∀ i : Fin 4, ∃ f : EulerEquationsVectorFormSemiImplicitInletOutlet α,
        f ∈ (EulerEquationsWeakFormSemiImplicit.oneInflowCtor calc_energy kappa rho_ext v1_ext
            v2_ext pressure_ext solid_wall_markers inlet_markers outlet_markers pd pdx pdy pe
            fvm_only num_of_equations).vfsurf
          ∧ f.areas = inlet_markers ∧ f.i = i) := by
  constructor
  · intro i j
    refine ⟨⟨i, j, rho_ext, v1_ext, v2_ext,
      calc_energy rho_ext (rho_ext * v1_ext) (rho_ext * v2_ext) pressure_ext kappa,
      inlet_markers, kappa, CacheSlot.Surf⟩, ?_, rfl, rfl, rfl⟩
    rw [oneInflowCtor_mfsurf]
    simp only [List.mem_flatMap, List.mem_append, List.mem_singleton]
    exact ⟨i, List.mem_finRange i, j, List.mem_finRange j, Or.inl (Or.inl rfl)⟩
  · intro i
    refine ⟨⟨i, rho_ext, v1_ext, v2_ext,
      calc_energy rho_ext (rho_ext * v1_ext) (rho_ext * v2_ext) pressure_ext kappa,
      inlet_markers, kappa⟩, ?_, rfl, rfl⟩
    rw [oneInflowCtor_vfsurf]
    simp only [List.mem_flatMap, List.mem_append, List.mem_singleton]
    exact ⟨i, List.mem_finRange i, Or.inl rfl⟩

/-- C5: in forward-step-adapt the constants of the initial solutions (`sln_*`, `prev_*`,
`rsln_*`) are, component by component, the prescribed state `w_B` of every inlet form
(matrix and vector forms on `inlet_markers`) of the weak form that `main` builds, and such
forms are registered for every block; in gamm-channel the constants of `prev_*` are the
`w_B` of every inlet form of the weak form built from `(KAPPA, RHO_EXT, V1_EXT, V2_EXT,
P_EXT)`, whatever the marker vectors (inlet and outlet markers being different).
`calc_energy` is the same function in both places. -/
theorem initial_condition_is_inlet_state (calc_energy : ℚ → ℚ → ℚ → ℚ → ℚ → ℚ) :
    ((∀ f : EulerEquationsMatrixFormSemiImplicitInletOutlet ℚ,
        MatrixFormSurf.inletOutlet f ∈ (ForwardStepAdapt.wf calc_energy).mfsurf →
        f.areas = ForwardStepAdapt.inlet_markers →
        f.w_B = ![ForwardStepAdapt.prev_rho.constant, ForwardStepAdapt.prev_rho_v_x.constant,
          ForwardStepAdapt.prev_rho_v_y.constant,
          (ForwardStepAdapt.prev_e calc_energy).constant])
      ∧ (∀ f : EulerEquationsVectorFormSemiImplicitInletOutlet ℚ,
        f ∈ (ForwardStepAdapt.wf calc_energy).vfsurf →
        f.areas = ForwardStepAdapt.inlet_markers →
        f.w_B = ![ForwardStepAdapt.prev_rho.constant, ForwardStepAdapt.prev_rho_v_x.constant,
          ForwardStepAdapt.prev_rho_v_y.constant,
          (ForwardStepAdapt.prev_e calc_energy).constant])
      ∧ (∀ i j : Fin 4, ∃ f : EulerEquationsMatrixFormSemiImplicitInletOutlet ℚ,
          MatrixFormSurf.inletOutlet f ∈ (ForwardStepAdapt.wf calc_energy).mfsurf
            ∧ f.areas = ForwardStepAdapt.inlet_markers ∧ f.i = i ∧ f.j = j)
      ∧ (∀ i : Fin 4, ∃ f : EulerEquationsVectorFormSemiImplicitInletOutlet ℚ,
          f ∈ (ForwardStepAdapt.wf calc_energy).vfsurf
            ∧ f.areas = ForwardStepAdapt.inlet_markers ∧ f.i = i)
      ∧ ![ForwardStepAdapt.sln_rho.constant, ForwardStepAdapt.sln_rho_v_x.constant,
            ForwardStepAdapt.sln_rho_v_y.constant,
            (ForwardStepAdapt.sln_e calc_energy).constant]
          = ![ForwardStepAdapt.prev_rho.constant, ForwardStepAdapt.prev_rho_v_x.constant,
            ForwardStepAdapt.prev_rho_v_y.constant,
            (ForwardStepAdapt.prev_e calc_energy).constant]
      ∧ ![ForwardStepAdapt.rsln_rho.constant, ForwardStepAdapt.rsln_rho_v_x.constant,
            ForwardStepAdapt.rsln_rho_v_y.constant,
            (ForwardStepAdapt.rsln_e calc_energy).constant]
          = ![ForwardStepAdapt.prev_rho.constant, ForwardStepAdapt.prev_rho_v_x.constant,
            ForwardStepAdapt.prev_rho_v_y.constant,
            (ForwardStepAdapt.prev_e calc_energy).constant])
    ∧ (∀ solid_wall_markers inlet_markers outlet_markers : List String,
        inlet_markers ≠ outlet_markers →
        (∀ f : EulerEquationsMatrixFormSemiImplicitInletOutlet ℚ,
          MatrixFormSurf.inletOutlet f ∈
            (GammChannel.wf calc_energy solid_wall_markers inlet_markers
              outlet_markers).mfsurf →
          f.areas = inlet_markers →
          f.w_B = ![GammChannel.prev_rho.constant, GammChannel.prev_rho_v_x.constant,
            GammChannel.prev_rho_v_y.constant, (GammChannel.prev_e calc_energy).constant])
        ∧ (∀ f : EulerEquationsVectorFormSemiImplicitInletOutlet ℚ,
          f ∈ (GammChannel.wf calc_energy solid_wall_markers inlet_markers
              outlet_markers).vfsurf →
          f.areas = inlet_markers →
          f.w_B = ![GammChannel.prev_rho.constant, GammChannel.prev_rho_v_x.constant,
            GammChannel.prev_rho_v_y.constant, (GammChannel.prev_e calc_energy).constant])
        ∧ (∀ i j : Fin 4, ∃ f : EulerEquationsMatrixFormSemiImplicitInletOutlet ℚ,
          MatrixFormSurf.inletOutlet f ∈
              (GammChannel.wf calc_energy solid_wall_markers inlet_markers
                outlet_markers).mfsurf
            ∧ f.areas = inlet_markers ∧ f.i = i ∧ f.j = j)
        ∧ (∀ i : Fin 4, ∃ f : EulerEquationsVectorFormSemiImplicitInletOutlet ℚ,
          f ∈ (GammChannel.wf calc_energy solid_wall_markers inlet_markers
                outlet_markers).vfsurf
            ∧ f.areas = inlet_markers ∧ f.i = i)) := by
  have hne : ForwardStepAdapt.inlet_markers ≠ ForwardStepAdapt.outlet_markers := by decide
  have hfs := inlet_w_B_of_mem calc_energy ForwardStepAdapt.KAPPA ForwardStepAdapt.RHO_EXT
    ForwardStepAdapt.V1_EXT ForwardStepAdapt.V2_EXT ForwardStepAdapt.P_EXT
    ForwardStepAdapt.solid_wall_markers ForwardStepAdapt.inlet_markers
    ForwardStepAdapt.outlet_markers ForwardStepAdapt.prev_rho ForwardStepAdapt.prev_rho_v_x
    ForwardStepAdapt.prev_rho_v_y (ForwardStepAdapt.prev_e calc_energy) false 4 hne
  have hmem := inlet_forms_mem calc_energy ForwardStepAdapt.KAPPA ForwardStepAdapt.RHO_EXT
    ForwardStepAdapt.V1_EXT ForwardStepAdapt.V2_EXT ForwardStepAdapt.P_EXT
    ForwardStepAdapt.solid_wall_markers ForwardStepAdapt.inlet_markers
    ForwardStepAdapt.outlet_markers ForwardStepAdapt.prev_rho ForwardStepAdapt.prev_rho_v_x
    ForwardStepAdapt.prev_rho_v_y (ForwardStepAdapt.prev_e calc_energy) false 4
  refine ⟨⟨hfs.1, hfs.2, hmem.1, hmem.2, rfl, rfl⟩, ?_⟩
  intro solid_wall_markers inlet_markers outlet_markers hne2
  have hg := inlet_w_B_of_mem calc_energy GammChannel.KAPPA GammChannel.RHO_EXT
    GammChannel.V1_EXT GammChannel.V2_EXT GammChannel.P_EXT
    solid_wall_markers inlet_markers outlet_markers GammChannel.prev_rho
    GammChannel.prev_rho_v_x GammChannel.prev_rho_v_y (GammChannel.prev_e calc_energy)
    (GammChannel.P_INIT == 0) 4 hne2
  have hgm := inlet_forms_mem calc_energy GammChannel.KAPPA GammChannel.RHO_EXT
    GammChannel.V1_EXT GammChannel.V2_EXT GammChannel.P_EXT
    solid_wall_markers inlet_markers outlet_markers GammChannel.prev_rho
    GammChannel.prev_rho_v_x GammChannel.prev_rho_v_y (GammChannel.prev_e calc_energy)
    (GammChannel.P_INIT == 0) 4
  exact ⟨hg.1, hg.2, hgm.1, hgm.2⟩

end Euler

namespace CapillaryBarrierRK

/-- The loop test does not change the variables. -/
theorem loopCondition_state {σ : Type} (s : LoopState σ) : (loopCondition s).state = s := by
  unfold loopCondition
  split <;> rfl

/-- The loop test does not throw. -/
theorem loopCondition_what {σ : Type} (s : LoopState σ) : (loopCondition s).what = none := by
  unfold loopCondition
  split <;> rfl

/-- After `k` rejected steps of the rejecting library the loop is still running, the time
is still `0` and the step is `t * 0.8 ^ k`. -/
theorem run_rejectingLibrary (k : Nat) (t h0 : ℚ) :
    run rejectingLibrary k ⟨t, 0, 1, h0⟩
      = Outcome.nextIteration ⟨t * time_step_dec ^ k, 0, 1, if k = 0 then h0 else 100⟩ := by
  induction k generalizing t h0 with
  | zero => simp [run]
  | succ k ih =>
    have hstep : iteration rejectingLibrary ⟨t, 0, 1, h0⟩
        = Outcome.nextIteration ⟨t * time_step_dec, 0, 1, 100⟩ := by
      simp only [iteration, rejectingLibrary, time_tol_upper]
      norm_num [loopCondition, T_FINAL]
    rw [run, hstep]
    simp only [ih]
    rw [pow_succ]
    have e : t * time_step_dec * time_step_dec ^ k = t * (time_step_dec ^ k * time_step_dec) := by
      ring
    rw [e]
    by_cases hk : k = 0 <;> simp [hk]

/-- C6 (evaluation at the failing input): in the first pass of the loop the Runge-Kutta step
succeeds with a new solution `100` and `rel_err_time = 2 > time_tol_upper`; the step is
rejected (time step `0.3 * 0.8`, time `0` and counter `1` as before), but `h_time_prev`, which
was the zero solution, has been overwritten with the new solution. -/
theorem rejected_step_overwrites_h_time_prev :
    iteration rejectingLibrary (initialState (0 : ℚ))
        = Outcome.nextIteration ⟨time_step_init * time_step_dec, 0, 1, 100⟩
      ∧ (initialState (0 : ℚ)).h_time_prev = 0
      ∧ (iteration rejectingLibrary (initialState (0 : ℚ))).state.h_time_prev
          ≠ (initialState (0 : ℚ)).h_time_prev := by
  have hstep : iteration rejectingLibrary (initialState (0 : ℚ))
      = Outcome.nextIteration ⟨time_step_init * time_step_dec, 0, 1, 100⟩ := by
    simp only [iteration, rejectingLibrary, time_tol_upper, initialState]
    norm_num [loopCondition, T_FINAL]
  refine ⟨hstep, rfl, ?_⟩
  rw [hstep]
  norm_num [Outcome.state, initialState]

/-- C7 (evaluation at the failing input): from the initial state, 78 passes in which the
Runge-Kutta step succeeds with `rel_err_time = 2 > time_tol_upper` leave
`time_step = 0.3 * 0.8 ^ 78 < time_step_min`; nothing is thrown and the loop goes on to
another Runge-Kutta step. -/
theorem rejections_pass_below_time_step_min :
    run rejectingLibrary 78 (initialState (0 : ℚ))
        = Outcome.nextIteration ⟨time_step_init * time_step_dec ^ 78, 0, 1, 100⟩
      ∧ time_step_init * time_step_dec ^ 78 < time_step_min
      ∧ (run rejectingLibrary 78 (initialState (0 : ℚ))).what = none
      ∧ (run rejectingLibrary 78 (initialState (0 : ℚ))).attemptsAnotherStep = true := by
  have hrun : run rejectingLibrary 78 (initialState (0 : ℚ))
      = Outcome.nextIteration ⟨time_step_init * time_step_dec ^ 78, 0, 1, 100⟩ := by
    have h := run_rejectingLibrary 78 time_step_init 0
    simpa [initialState] using h
  refine ⟨hrun, ?_, ?_, ?_⟩
  · norm_num [time_step_init, time_step_dec, time_step_min]
  · rw [hrun]; rfl
  · rw [hrun]; rfl

/-- C8: when `rk_time_step_newton` throws, the pass multiplies `time_step` by
`time_step_dec` and leaves `current_time`, `ts` and `h_time_prev` as they were; it throws
(with the message "Time step became too small.") exactly when the new time step is
strictly below `time_step_min`. -/
theorem failed_solve_only_shrinks_time_step {σ : Type} (L : Library σ) (s : LoopState σ)
    (hthrow : L.rk_time_step_newton s.current_time s.time_step s.h_time_prev = none) :
    (iteration L s).state
        = { time_step := s.time_step * time_step_dec, current_time := s.current_time,
            ts := s.ts, h_time_prev := s.h_time_prev }
      ∧ ((iteration L s).what = some "Time step became too small."
          ↔ s.time_step * time_step_dec < time_step_min)
      ∧ ((iteration L s).what = none
          ↔ ¬ s.time_step * time_step_dec < time_step_min) := by
  unfold iteration
  rw [hthrow]
  dsimp only
  by_cases h : s.time_step * time_step_dec < time_step_min
  · rw [if_pos h]
    simp [Outcome.state, Outcome.what, h]
  · rw [if_neg h]
    simp [loopCondition_state, loopCondition_what, h]

/-- Witness of C8 at the initial state with a library whose Runge-Kutta step throws. -/
theorem failed_solve_only_shrinks_time_step_witness :
    failingLibrary.rk_time_step_newton (initialState (0 : ℚ)).current_time
        (initialState (0 : ℚ)).time_step (initialState (0 : ℚ)).h_time_prev = none
      ∧ (iteration failingLibrary (initialState (0 : ℚ))).state
        = { time_step := (initialState (0 : ℚ)).time_step * time_step_dec,
            current_time := (initialState (0 : ℚ)).current_time,
            ts := (initialState (0 : ℚ)).ts,
            h_time_prev := (initialState (0 : ℚ)).h_time_prev } :=
  ⟨rfl, (failed_solve_only_shrinks_time_step failingLibrary (initialState 0) rfl).1⟩

end CapillaryBarrierRK

namespace Binary64

/-- No digits are counted for `0`. -/
theorem bitLengthAux_zero (fuel : Nat) : bitLengthAux fuel 0 = 0 := by
  cases fuel <;> simp [bitLengthAux]

/-- With enough fuel, `n` has exactly the counted number of binary digits. -/
theorem bitLengthAux_spec (fuel n : Nat) (h : n ≤ fuel) :
    n < 2 ^ bitLengthAux fuel n ∧ (0 < n → 2 ^ (bitLengthAux fuel n - 1) ≤ n) := by
  induction fuel generalizing n with
  | zero =>
    have h0 : n = 0 := by omega
    subst h0
    simp [bitLengthAux]
  | succ fuel ih =>
    by_cases h0 : n = 0
    · subst h0
      simp [bitLengthAux]
    · have hle : n / 2 ≤ fuel := by omega
      obtain ⟨hlt, hge⟩ := ih (n / 2) hle
      simp only [bitLengthAux, if_neg h0, Nat.add_sub_cancel]
      constructor
      · rw [pow_succ]
        omega
      · intro _
        by_cases h1 : n / 2 = 0
        · rw [h1, bitLengthAux_zero]
          simp
          omega
        · have hpos : 0 < n / 2 := Nat.pos_of_ne_zero h1
          have hge1 := hge hpos
          have hb : 0 < bitLengthAux fuel (n / 2) := by
            by_contra hb
            have hb0 : bitLengthAux fuel (n / 2) = 0 := by omega
            rw [hb0] at hlt
            simp at hlt
            omega
          have hsplit : bitLengthAux fuel (n / 2) = (bitLengthAux fuel (n / 2) - 1) + 1 := by
            omega
          rw [hsplit, pow_succ]
          omega

/-- A positive `n` lies between the powers of two that its number of digits gives. -/
theorem bitLength_spec (n : Nat) :
    n < 2 ^ bitLength n ∧ (0 < n → 2 ^ (bitLength n - 1) ≤ n) :=
  bitLengthAux_spec n n (le_refl n)

/-- The aligned integer of a finite value is the value times a power of two. -/
theorem scaled_cast (neg : Bool) (m : Nat) (e e0 : Int) (h : e0 ≤ e) :
    ((scaled neg m e e0 : Int) : ℚ) = toRat (Double.finite neg m e) * (2 : ℚ) ^ (-e0) := by
  have hpow : ((2 : ℚ) ^ (e - e0).toNat) = (2 : ℚ) ^ e * (2 : ℚ) ^ (-e0) := by
    rw [← zpow_natCast, Int.toNat_of_nonneg (sub_nonneg.2 h), sub_eq_add_neg,
      zpow_add₀ (two_ne_zero)]
  unfold scaled toRat
  push_cast
  rw [hpow]
  cases neg <;> simp <;> ring

/-- The operator `<` on finite values compares the numbers they denote. -/
theorem lt_finite_iff (n1 : Bool) (m1 : Nat) (e1 : Int) (n2 : Bool) (m2 : Nat) (e2 : Int) :
    lt (Double.finite n1 m1 e1) (Double.finite n2 m2 e2) = true
      ↔ toRat (Double.finite n1 m1 e1) < toRat (Double.finite n2 m2 e2) := by
  have hpos : (0 : ℚ) < (2 : ℚ) ^ (-(min e1 e2)) := zpow_pos (by norm_num) _
  unfold lt
  rw [decide_eq_true_eq, ← Int.cast_lt (R := ℚ), scaled_cast _ _ _ _ (min_le_left e1 e2),
    scaled_cast _ _ _ _ (min_le_right e1 e2)]
  exact mul_lt_mul_right hpos

/-- The operator `<=` on finite values compares the numbers they denote. -/
theorem le_finite_iff (n1 : Bool) (m1 : Nat) (e1 : Int) (n2 : Bool) (m2 : Nat) (e2 : Int) :
    le (Double.finite n1 m1 e1) (Double.finite n2 m2 e2) = true
      ↔ toRat (Double.finite n1 m1 e1) ≤ toRat (Double.finite n2 m2 e2) := by
  have hpos : (0 : ℚ) < (2 : ℚ) ^ (-(min e1 e2)) := zpow_pos (by norm_num) _
  unfold le
  rw [decide_eq_true_eq, ← Int.cast_le (R := ℚ), scaled_cast _ _ _ _ (min_le_left e1 e2),
    scaled_cast _ _ _ _ (min_le_right e1 e2)]
  exact mul_le_mul_right hpos

/-- When `a <= b` holds on `double`, `b < a` does not. -/
theorem lt_eq_false_of_le (a b : Double) (h : le a b = true) : lt b a = false := by
  cases a with
  | finite n1 m1 e1 =>
    cases b with
    | finite n2 m2 e2 =>
      rw [le_finite_iff] at h
      rw [← Bool.not_eq_true, lt_finite_iff]
      exact not_lt.mpr h
    | inf n2 => cases n2 <;> simp_all [le, lt]
    | nan => simp [le] at h
  | inf n1 =>
    cases b with
    | finite n2 m2 e2 => cases n1 <;> simp_all [le, lt]
    | inf n2 => cases n1 <;> cases n2 <;> simp_all [le, lt]
    | nan => simp [le] at h
  | nan => simp [le] at h

/-- Rounding a positive number of the normal range loses less than the fraction `2^(-52)`:
the result is `+∞` or a finite value `v` with `M * 2^E < v * (1 + 2^(-52))`. -/
theorem roundNearestEven_lower (M : Nat) (E : Int) (hM : 0 < M)
    (hnorm : (2 : ℚ) ^ (-1022 : Int) ≤ (M : ℚ) * (2 : ℚ) ^ E) :
    roundNearestEven false M E = Double.inf false
      ∨ ∃ q e, roundNearestEven false M E = Double.finite false q e
          ∧ (M : ℚ) * (2 : ℚ) ^ E < (q : ℚ) * (2 : ℚ) ^ e * (1 + (2 : ℚ) ^ (-52 : Int)) := by
  have hE : (0 : ℚ) < (2 : ℚ) ^ E := zpow_pos (by norm_num) _
  have heps : (0 : ℚ) < (2 : ℚ) ^ (-52 : Int) := zpow_pos (by norm_num) _
  have hMq : (0 : ℚ) < (M : ℚ) := by exact_mod_cast hM
  obtain ⟨hlt, hge⟩ := bitLength_spec M
  have hge := hge hM
  unfold roundNearestEven
  dsimp only
  by_cases hs : max ((bitLength M : Int) - 53) (-1074 - E) ≤ 0
  · rw [if_pos hs]
    split
    · exact Or.inl rfl
    · refine Or.inr ⟨M, E, rfl, ?_⟩
      have hpos : 0 < (M : ℚ) * (2 : ℚ) ^ E := mul_pos hMq hE
      nlinarith
  · rw [if_neg hs]
    have hspos : 0 < max ((bitLength M : Int) - 53) (-1074 - E) := not_le.mp hs
    split
    · exact Or.inl rfl
    · refine Or.inr ⟨_, _, rfl, ?_⟩
      by_cases hcase : -1074 - E ≤ (bitLength M : Int) - 53
      · -- normal range: 53 bits are kept
        rw [max_eq_left hcase] at hspos ⊢
        obtain ⟨k, hk⟩ : ∃ k : Nat, bitLength M = k + 53 := ⟨bitLength M - 53, by omega⟩
        have hsk : ((bitLength M : Int) - 53) = (k : Int) := by omega
        rw [hsk, Int.toNat_natCast]
        rw [hk] at hge
        have hkpos : 0 < 2 ^ k := Nat.pow_pos (by norm_num)
        have hq52 : 2 ^ 52 ≤ M / 2 ^ k := by
          rw [Nat.le_div_iff_mul_le hkpos, ← pow_add]
          have : 52 + k = k + 53 - 1 := by omega
          rw [this]
          exact hge
        have hMlt : M < 2 ^ k * (M / 2 ^ k + 1) := Nat.lt_mul_div_succ M hkpos
        have hq1 : M / 2 ^ k ≤ shiftRound M k := by
          unfold shiftRound
          split <;> omega
        generalize shiftRound M k = q1 at hq1 ⊢
        generalize M / 2 ^ k = q0 at hq52 hMlt hq1
        have hq52q : ((2 : ℚ) ^ 52) ≤ (q0 : ℚ) := by exact_mod_cast hq52
        have hMltq : (M : ℚ) < (2 : ℚ) ^ k * ((q0 : ℚ) + 1) := by exact_mod_cast hMlt
        have hq1q : (q0 : ℚ) ≤ (q1 : ℚ) := by exact_mod_cast hq1
        have hkq : (0 : ℚ) < (2 : ℚ) ^ k := by positivity
        have hpow : (2 : ℚ) ^ (E + (k : Int)) = (2 : ℚ) ^ E * (2 : ℚ) ^ k := by
          rw [zpow_add₀ (two_ne_zero), zpow_natCast]
        have heps52 : (2 : ℚ) ^ (-52 : Int) * (2 : ℚ) ^ 52 = 1 := by norm_num
        have hone : (1 : ℚ) ≤ (q0 : ℚ) * (2 : ℚ) ^ (-52 : Int) := by
          calc (1 : ℚ) = (2 : ℚ) ^ (52 : ℕ) * (2 : ℚ) ^ (-52 : Int) := by norm_num
            _ ≤ (q0 : ℚ) * (2 : ℚ) ^ (-52 : Int) :=
              mul_le_mul_of_nonneg_right hq52q (le_of_lt heps)
        rw [hpow]
        calc (M : ℚ) * (2 : ℚ) ^ E
            < (2 : ℚ) ^ k * ((q0 : ℚ) + 1) * (2 : ℚ) ^ E := mul_lt_mul_of_pos_right hMltq hE
          _ ≤ (2 : ℚ) ^ k * ((q0 : ℚ) * (1 + (2 : ℚ) ^ (-52 : Int))) * (2 : ℚ) ^ E := by
              apply mul_le_mul_of_nonneg_right _ (le_of_lt hE)
              apply mul_le_mul_of_nonneg_left _ (le_of_lt hkq)
              linarith
          _ ≤ (2 : ℚ) ^ k * ((q1 : ℚ) * (1 + (2 : ℚ) ^ (-52 : Int))) * (2 : ℚ) ^ E := by
              apply mul_le_mul_of_nonneg_right _ (le_of_lt hE)
              apply mul_le_mul_of_nonneg_left _ (le_of_lt hkq)
              apply mul_le_mul_of_nonneg_right hq1q
              linarith
          _ = (q1 : ℚ) * ((2 : ℚ) ^ E * (2 : ℚ) ^ k) * (1 + (2 : ℚ) ^ (-52 : Int)) := by ring
      · -- below the normal range: excluded by `hnorm`
        exfalso
        have hlt2 : (bitLength M : Int) + E ≤ -1022 := by omega
        have hMq2 : (M : ℚ) < (2 : ℚ) ^ (bitLength M) := by exact_mod_cast hlt
        have h1 : (M : ℚ) * (2 : ℚ) ^ E < (2 : ℚ) ^ (bitLength M) * (2 : ℚ) ^ E :=
          mul_lt_mul_of_pos_right hMq2 hE
        have h2 : (2 : ℚ) ^ (bitLength M) * (2 : ℚ) ^ E = (2 : ℚ) ^ ((bitLength M : Int) + E) := by
          rw [zpow_add₀ (two_ne_zero), zpow_natCast]
        have h3 : (2 : ℚ) ^ ((bitLength M : Int) + E) ≤ (2 : ℚ) ^ (-1022 : Int) :=
          zpow_le_zpow_right₀ (by norm_num) hlt2
        linarith

/-- Adding a finite positive `y` of the normal range to a finite `x ≥ 0` that is smaller
than `2^52 * y` gives a `double` that compares greater than `x`. -/
theorem add_finite_gt (m1 : Nat) (e1 : Int) (n2 : Bool) (m2 : Nat) (e2 : Int)
    (hsmall : toRat (Double.finite false m1 e1) * (2 : ℚ) ^ (-52 : Int)
      < toRat (Double.finite n2 m2 e2))
    (hnorm : (2 : ℚ) ^ (-1022 : Int) ≤ toRat (Double.finite n2 m2 e2)) :
    lt (Double.finite false m1 e1) (add (Double.finite false m1 e1) (Double.finite n2 m2 e2))
      = true := by
  have heps : (0 : ℚ) < (2 : ℚ) ^ (-52 : Int) := zpow_pos (by norm_num) _
  have hX : 0 ≤ toRat (Double.finite false m1 e1) := by
    unfold toRat
    have : (0 : ℚ) < (2 : ℚ) ^ e1 := zpow_pos (by norm_num) _
    simp only [Bool.false_eq_true, if_false, one_mul]
    positivity
  have hY : 0 < toRat (Double.finite n2 m2 e2) :=
    lt_of_lt_of_le (zpow_pos (by norm_num) _) hnorm
  have hpe : (0 : ℚ) < (2 : ℚ) ^ (-(min e1 e2)) := zpow_pos (by norm_num) _
  have hcq : ((scaled false m1 e1 (min e1 e2) + scaled n2 m2 e2 (min e1 e2) : Int) : ℚ)
      = (toRat (Double.finite false m1 e1) + toRat (Double.finite n2 m2 e2))
        * (2 : ℚ) ^ (-(min e1 e2)) := by
    rw [Int.cast_add, scaled_cast _ _ _ _ (min_le_left e1 e2),
      scaled_cast _ _ _ _ (min_le_right e1 e2)]
    ring
  have hcpos : 0 < scaled false m1 e1 (min e1 e2) + scaled n2 m2 e2 (min e1 e2) := by
    have : (0 : ℚ)
        < ((scaled false m1 e1 (min e1 e2) + scaled n2 m2 e2 (min e1 e2) : Int) : ℚ) := by
      rw [hcq]
      exact mul_pos (by linarith) hpe
    exact_mod_cast this
  unfold add
  dsimp only
  generalize scaled false m1 e1 (min e1 e2) + scaled n2 m2 e2 (min e1 e2) = c at hcq hcpos
  rw [if_neg (ne_of_gt hcpos)]
  have hneg : decide (c < 0) = false := by
    rw [decide_eq_false_iff_not]
    exact not_lt.mpr (le_of_lt hcpos)
  rw [hneg]
  have hval : ((c.natAbs : Nat) : ℚ) * (2 : ℚ) ^ (min e1 e2)
      = toRat (Double.finite false m1 e1) + toRat (Double.finite n2 m2 e2) := by
    have h1 : ((c.natAbs : Nat) : ℚ) = (c : ℚ) := by
      rw [Nat.cast_natAbs, abs_of_pos hcpos]
    rw [h1, hcq, mul_assoc, ← zpow_add₀ (two_ne_zero), neg_add_cancel, zpow_zero, mul_one]
  have hM : 0 < c.natAbs := Int.natAbs_pos.mpr (ne_of_gt hcpos)
  rcases roundNearestEven_lower c.natAbs (min e1 e2) hM (by rw [hval]; linarith) with
    hinf | ⟨q, e, hfin, hbound⟩
  · rw [hinf]
    rfl
  · rw [hfin, lt_finite_iff]
    rw [hval] at hbound
    have hv : toRat (Double.finite false q e) = (q : ℚ) * (2 : ℚ) ^ e := by
      simp [toRat]
    rw [hv]
    by_contra hcon
    have hcon := not_lt.mp hcon
    have h1 : (q : ℚ) * (2 : ℚ) ^ e * (1 + (2 : ℚ) ^ (-52 : Int))
        ≤ toRat (Double.finite false m1 e1) * (1 + (2 : ℚ) ^ (-52 : Int)) :=
      mul_le_mul_of_nonneg_right hcon (by linarith)
    linarith

/-- Rounding with the sign bit clear gives a value with the sign bit clear. -/
theorem isNonneg_roundNearestEven (M : Nat) (E : Int) :
    isNonneg (roundNearestEven false M E) = true := by
  unfold roundNearestEven
  dsimp only
  split
  · split <;> rfl
  · split <;> rfl

/-- The product of a non-negative `double` and a positive finite one is non-negative. -/
theorem isNonneg_mul (a : Double) (m : Nat) (e : Int) (ha : isNonneg a = true) (hm : m ≠ 0) :
    isNonneg (mul a (Double.finite false m e)) = true := by
  cases a with
  | finite n1 m1 e1 =>
    cases n1
    · exact isNonneg_roundNearestEven _ _
    · simp [isNonneg] at ha
  | inf n1 =>
    cases n1
    · simp [mul, hm, isNonneg]
    · simp [isNonneg] at ha
  | nan => simp [isNonneg] at ha

/-- The sum of two non-negative `double`s is non-negative. -/
theorem isNonneg_add (a b : Double) (ha : isNonneg a = true) (hb : isNonneg b = true) :
    isNonneg (add a b) = true := by
  cases a with
  | finite n1 m1 e1 =>
    cases n1
    · cases b with
      | finite n2 m2 e2 =>
        cases n2
        · unfold add
          dsimp only
          have hc : 0 ≤ scaled false m1 e1 (min e1 e2) + scaled false m2 e2 (min e1 e2) := by
            unfold scaled
            simp only [Bool.false_eq_true, if_false, one_mul]
            positivity
          split
          · rfl
          · have hneg : decide (scaled false m1 e1 (min e1 e2)
                + scaled false m2 e2 (min e1 e2) < 0) = false := by
              rw [decide_eq_false_iff_not]
              exact not_lt.mpr hc
            rw [hneg]
            exact isNonneg_roundNearestEven _ _
        · simp [isNonneg] at hb
      | inf n2 =>
        cases n2
        · rfl
        · simp [isNonneg] at hb
      | nan => simp [isNonneg] at hb
    · simp [isNonneg] at ha
  | inf n1 =>
    cases n1
    · cases b with
      | finite n2 m2 e2 => rfl
      | inf n2 =>
        cases n2
        · rfl
        · simp [isNonneg] at hb
      | nan => simp [isNonneg] at hb
    · simp [isNonneg] at ha
  | nan => simp [isNonneg] at ha

end Binary64

namespace CapillaryBarrierRK.Doubles

/-- The constant `time_step_min = 1e-8` as a binary64 value. -/
theorem time_step_min_eq :
    time_step_min = Binary64.Double.finite false 6044629098073146 (-79) := by
  decide

/-- The constant `T_FINAL = 1000.0` as a binary64 value. -/
theorem T_FINAL_eq : T_FINAL = Binary64.Double.finite false 1000 0 := by
  decide

/-- The constant `time_tol_lower = 0.5` as a binary64 value. -/
theorem time_tol_lower_eq :
    time_tol_lower = Binary64.Double.finite false 4503599627370496 (-53) := by
  decide

/-- The constant `time_tol_upper = 1.0` as a binary64 value. -/
theorem time_tol_upper_eq : time_tol_upper = Binary64.Double.finite false 1 0 := by
  decide

/-- The constant `time_step_dec = 0.8` as a binary64 value. -/
theorem time_step_dec_eq :
    time_step_dec = Binary64.Double.finite false 7205759403792794 (-53) := by
  decide

/-- The constant `time_step_inc = 1.1` as a binary64 value. -/
theorem time_step_inc_eq :
    time_step_inc = Binary64.Double.finite false 4953959590107546 (-52) := by
  decide

/-- The initial `time_step = 0.3` as a binary64 value. -/
theorem time_step_init_eq :
    time_step_init = Binary64.Double.finite false 5404319552844595 (-54) := by
  decide

/-- The loop test does not change the variables. -/
theorem loopCondition_state_eq {σ : Type} (s : LoopState σ) : (loopCondition s).state = s := by
  unfold loopCondition
  split <;> rfl

/-- The loop test does not throw. -/
theorem loopCondition_what_eq {σ : Type} (s : LoopState σ) :
    (loopCondition s).what = none := by
  unfold loopCondition
  split <;> rfl

/-- When the loop test lets the loop go on, `current_time < T_FINAL` holds. -/
theorem loopCondition_next {σ : Type} (s s1 : LoopState σ)
    (h : loopCondition s = Outcome.nextIteration s1) :
    s1 = s ∧ Binary64.lt s.current_time T_FINAL = true := by
  unfold loopCondition at h
  split at h
  · rename_i hlt
    injection h with h
    exact ⟨h.symm, hlt⟩
  · cases h

/-- A relative error below `time_tol_lower` is not above `time_tol_upper`. -/
theorem not_above_upper_of_below_lower (r : Binary64.Double)
    (h : Binary64.lt r time_tol_lower = true) : Binary64.lt time_tol_upper r = false := by
  rw [time_tol_lower_eq] at h
  rw [time_tol_upper_eq]
  cases r with
  | finite n m e =>
    rw [Binary64.lt_finite_iff] at h
    rw [← Bool.not_eq_true, Binary64.lt_finite_iff]
    have h1 : Binary64.toRat (Binary64.Double.finite false 4503599627370496 (-53)) = 1 / 2 := by
      norm_num [Binary64.toRat]
    have h2 : Binary64.toRat (Binary64.Double.finite false 1 0) = 1 := by
      norm_num [Binary64.toRat]
    rw [h1] at h
    rw [h2]
    linarith
  | inf n => cases n <;> simp_all [Binary64.lt]
  | nan => simp [Binary64.lt] at h

/-- What a pass after which the loop goes on can do to `current_time` and `time_step`. -/
theorem iteration_next {σ : Type} (L : Library σ) (s s1 : LoopState σ)
    (h : iteration L s = Outcome.nextIteration s1) :
    Binary64.lt s1.current_time T_FINAL = true
      ∧ (s1.current_time = s.current_time
          ∨ s1.current_time = Binary64.add s.current_time s1.time_step)
      ∧ (s1.time_step = s.time_step
          ∨ s1.time_step = Binary64.mul s.time_step time_step_dec
          ∨ s1.time_step = Binary64.mul s.time_step time_step_inc) := by
  unfold iteration at h
  split at h
  · dsimp only at h
    split at h
    · cases h
    · obtain ⟨hs, hlt⟩ := loopCondition_next _ _ h
      subst hs
      exact ⟨hlt, Or.inl rfl, Or.inr (Or.inl rfl)⟩
  · dsimp only at h
    split at h
    · obtain ⟨hs, hlt⟩ := loopCondition_next _ _ h
      subst hs
      exact ⟨hlt, Or.inl rfl, Or.inr (Or.inl rfl)⟩
    · split at h
      · obtain ⟨hs, hlt⟩ := loopCondition_next _ _ h
        subst hs
        exact ⟨hlt, Or.inr rfl, Or.inr (Or.inr rfl)⟩
      · obtain ⟨hs, hlt⟩ := loopCondition_next _ _ h
        subst hs
        exact ⟨hlt, Or.inr rfl, Or.inl rfl⟩

/-- In every reachable state `current_time` is non-negative and below `T_FINAL`, and
`time_step` is non-negative. -/
theorem Reachable.bounds {σ : Type} {L : Library σ} {zero : σ} {s : LoopState σ}
    (h : Reachable L zero s) :
    Binary64.isNonneg s.current_time = true
      ∧ Binary64.lt s.current_time T_FINAL = true
      ∧ Binary64.isNonneg s.time_step = true := by
  induction h with
  | init =>
    refine ⟨?_, ?_, ?_⟩
    · show Binary64.isNonneg (Binary64.ofNat 0) = true
      decide
    · show Binary64.lt (Binary64.ofNat 0) T_FINAL = true
      decide
    · show Binary64.isNonneg time_step_init = true
      decide
  | step s s1 _ hit ih =>
    obtain ⟨hct, _, hts⟩ := ih
    obtain ⟨hlt, hc, ht⟩ := iteration_next L s s1 hit
    have hts1 : Binary64.isNonneg s1.time_step = true := by
      rcases ht with ht | ht | ht
      · rw [ht]; exact hts
      · rw [ht, time_step_dec_eq]
        exact Binary64.isNonneg_mul _ _ _ hts (by decide)
      · rw [ht, time_step_inc_eq]
        exact Binary64.isNonneg_mul _ _ _ hts (by decide)
    refine ⟨?_, hlt, hts1⟩
    rcases hc with hc | hc
    · rw [hc]; exact hct
    · rw [hc]
      exact Binary64.isNonneg_add _ _ hct hts1

/-- Adding a time step of at least `time_step_min` to a non-negative `current_time` below
`T_FINAL` gives a `double` that compares greater. -/
theorem current_time_increases (ct y : Binary64.Double)
    (h0 : Binary64.isNonneg ct = true) (hx : Binary64.lt ct T_FINAL = true)
    (hy : Binary64.le time_step_min y = true) :
    Binary64.lt ct (Binary64.add ct y) = true := by
  rw [T_FINAL_eq] at hx
  rw [time_step_min_eq] at hy
  have hmin : Binary64.toRat (Binary64.Double.finite false 6044629098073146 (-79))
      = 6044629098073146 * (2 : ℚ) ^ (-79 : Int) := by
    simp [Binary64.toRat]
  have hfin : Binary64.toRat (Binary64.Double.finite false 1000 0) = 1000 := by
    simp [Binary64.toRat]
  cases ct with
  | finite n1 m1 e1 =>
    cases n1
    · cases y with
      | finite n2 m2 e2 =>
        rw [Binary64.lt_finite_iff, hfin] at hx
        rw [Binary64.le_finite_iff, hmin] at hy
        have heps : (0 : ℚ) < (2 : ℚ) ^ (-52 : Int) := zpow_pos (by norm_num) _
        apply Binary64.add_finite_gt
        · have h1 : Binary64.toRat (Binary64.Double.finite false m1 e1) * (2 : ℚ) ^ (-52 : Int)
              < 1000 * (2 : ℚ) ^ (-52 : Int) := mul_lt_mul_of_pos_right hx heps
          have h2 : 1000 * (2 : ℚ) ^ (-52 : Int)
              ≤ 6044629098073146 * (2 : ℚ) ^ (-79 : Int) := by norm_num
          linarith
        · have h2 : (2 : ℚ) ^ (-1022 : Int) ≤ 6044629098073146 * (2 : ℚ) ^ (-79 : Int) := by
            have h3 : (2 : ℚ) ^ (-1022 : Int) ≤ (2 : ℚ) ^ (-79 : Int) :=
              zpow_le_zpow_right₀ (by norm_num) (by norm_num)
            have h4 : (0 : ℚ) < (2 : ℚ) ^ (-79 : Int) := zpow_pos (by norm_num) _
            nlinarith
          linarith
      | inf n2 =>
        cases n2
        · rfl
        · simp [Binary64.le] at hy
      | nan => simp [Binary64.le] at hy
    · simp [Binary64.isNonneg] at h0
  | inf n1 =>
    cases n1
    · simp [Binary64.lt] at hx
    · simp [Binary64.isNonneg] at h0
  | nan => simp [Binary64.lt] at hx

/-- C9 (counterexample): with the library `settlingLibrary` the loop reaches, after one
accepted pass and 169 rejected passes, a state with `current_time = 0.33` and
`time_step = 8974107526632183 * 2^(-109)`, about `1.38e-17`, far below `time_step_min`,
which the rejection branch does not test.  In the next pass the Runge-Kutta step succeeds
with `rel_err_time = 0 < time_tol_lower`; the pass is accepted, `time_step` is multiplied by
`time_step_inc` and `ts` goes from `2` to `3`, but `current_time + time_step` rounds back
to `current_time`: `current_time` does not increase. -/
theorem accepted_step_absorbed :
    run settlingLibrary 170 (initialState (Binary64.ofNat 0))
        = Outcome.nextIteration
            { time_step := Binary64.Double.finite false 8974107526632183 (-109),
              current_time := Binary64.Double.finite false 5944751508129055 (-54),
              ts := 2, h_time_prev := Binary64.ofNat 100 }
      ∧ settlingLibrary.rk_time_step_newton
          (Binary64.Double.finite false 5944751508129055 (-54))
          (Binary64.Double.finite false 8974107526632183 (-109)) (Binary64.ofNat 100)
        = some (Binary64.ofNat 100, Binary64.ofNat 0)
      ∧ Binary64.lt (rel_err_time settlingLibrary (Binary64.ofNat 100) (Binary64.ofNat 0))
          time_tol_lower = true
      ∧ iteration settlingLibrary
          { time_step := Binary64.Double.finite false 8974107526632183 (-109),
            current_time := Binary64.Double.finite false 5944751508129055 (-54),
            ts := 2, h_time_prev := Binary64.ofNat 100 }
        = Outcome.nextIteration
            { time_step := Binary64.Double.finite false 4935759139647701 (-108),
              current_time := Binary64.Double.finite false 5944751508129055 (-54),
              ts := 3, h_time_prev := Binary64.ofNat 100 }
      ∧ Binary64.lt (Binary64.Double.finite false 5944751508129055 (-54))
          (Binary64.add (Binary64.Double.finite false 5944751508129055 (-54))
            (Binary64.Double.finite false 4935759139647701 (-108))) = false := by
  set_option maxRecDepth 1000000 in
  decide

/-- C9 (as amended): in a state that the loop reaches, when the Runge-Kutta step succeeds
with new solution `h_time_new`: if `rel_err_time < time_tol_lower` the pass is accepted with
`time_step` multiplied by `time_step_inc` (nothing thrown, `ts` incremented by one,
`current_time` the binary64 sum of the old time and the new step, `h_time_prev` the new
solution); if `time_tol_lower <= rel_err_time <= time_tol_upper` the pass is accepted in the
same way with `time_step` unchanged; and in both cases `current_time` becomes strictly
larger when the time step that is added is at least `time_step_min`. -/
theorem accepted_step {σ : Type} (L : Library σ) (zero : σ) (s : LoopState σ)
    (h_time_new time_error_fn : σ) (hreach : Reachable L zero s)
    (hok : L.rk_time_step_newton s.current_time s.time_step s.h_time_prev
      = some (h_time_new, time_error_fn)) :
    (Binary64.lt (rel_err_time L h_time_new time_error_fn) time_tol_lower = true →
        (iteration L s).state
            = { time_step := Binary64.mul s.time_step time_step_inc,
                current_time :=
                  Binary64.add s.current_time (Binary64.mul s.time_step time_step_inc),
                ts := s.ts + 1, h_time_prev := h_time_new }
          ∧ (iteration L s).what = none
          ∧ (Binary64.le time_step_min (Binary64.mul s.time_step time_step_inc) = true →
              Binary64.lt s.current_time (iteration L s).state.current_time = true))
      ∧ (Binary64.le time_tol_lower (rel_err_time L h_time_new time_error_fn) = true →
          Binary64.le (rel_err_time L h_time_new time_error_fn) time_tol_upper = true →
        (iteration L s).state
            = { time_step := s.time_step,
                current_time := Binary64.add s.current_time s.time_step,
                ts := s.ts + 1, h_time_prev := h_time_new }
          ∧ (iteration L s).what = none
          ∧ (Binary64.le time_step_min s.time_step = true →
              Binary64.lt s.current_time (iteration L s).state.current_time = true)) := by
  obtain ⟨hct, hlt, _⟩ := hreach.bounds
  constructor
  · intro hlow
    have hnot : ¬ Binary64.lt time_tol_upper (rel_err_time L h_time_new time_error_fn)
        = true := by
      rw [not_above_upper_of_below_lower _ hlow]
      decide
    have hst : (iteration L s).state
        = { time_step := Binary64.mul s.time_step time_step_inc,
            current_time :=
              Binary64.add s.current_time (Binary64.mul s.time_step time_step_inc),
            ts := s.ts + 1, h_time_prev := h_time_new } := by
      unfold iteration
      rw [hok]
      dsimp only
      rw [if_neg hnot, if_pos hlow, loopCondition_state_eq]
    refine ⟨hst, ?_, ?_⟩
    · unfold iteration
      rw [hok]
      dsimp only
      rw [if_neg hnot, if_pos hlow, loopCondition_what_eq]
    · intro hmin
      rw [hst]
      exact current_time_increases _ _ hct hlt hmin
  · intro hlow hup
    have hnot : ¬ Binary64.lt time_tol_upper (rel_err_time L h_time_new time_error_fn)
        = true := by
      rw [Binary64.lt_eq_false_of_le _ _ hup]
      decide
    have hnlow : ¬ Binary64.lt (rel_err_time L h_time_new time_error_fn) time_tol_lower
        = true := by
      rw [Binary64.lt_eq_false_of_le _ _ hlow]
      decide
    have hst : (iteration L s).state
        = { time_step := s.time_step,
            current_time := Binary64.add s.current_time s.time_step,
            ts := s.ts + 1, h_time_prev := h_time_new } := by
      unfold iteration
      rw [hok]
      dsimp only
      rw [if_neg hnot, if_neg hnlow, loopCondition_state_eq]
    refine ⟨hst, ?_, ?_⟩
    · unfold iteration
      rw [hok]
      dsimp only
      rw [if_neg hnot, if_neg hnlow, loopCondition_what_eq]
    · intro hmin
      rw [hst]
      exact current_time_increases _ _ hct hlt hmin

/-- Witness of C9: the first pass of the run with `settlingLibrary`, in which
`rel_err_time = 0 < time_tol_lower`: `time_step` becomes `0.3 * 1.1`, which is at least
`time_step_min`, and `current_time` goes from `0` to that value. -/
theorem accepted_step_witness :
    Reachable settlingLibrary (Binary64.ofNat 0) (initialState (Binary64.ofNat 0))
      ∧ Binary64.lt (rel_err_time settlingLibrary (Binary64.ofNat 100) (Binary64.ofNat 0))
          time_tol_lower = true
      ∧ (iteration settlingLibrary (initialState (Binary64.ofNat 0))).state
          = { time_step := Binary64.Double.finite false 5944751508129055 (-54),
              current_time := Binary64.Double.finite false 5944751508129055 (-54),
              ts := 2, h_time_prev := Binary64.ofNat 100 }
      ∧ Binary64.lt (initialState (Binary64.ofNat 0)).current_time
          (iteration settlingLibrary (initialState (Binary64.ofNat 0))).state.current_time
        = true := by
  have hlow : Binary64.lt
      (rel_err_time settlingLibrary (Binary64.ofNat 100) (Binary64.ofNat 0))
      time_tol_lower = true := by
    decide
  have hmin : Binary64.le time_step_min
      (Binary64.mul (initialState (Binary64.ofNat 0)).time_step time_step_inc) = true := by
    set_option maxRecDepth 100000 in
    decide
  have h := (accepted_step settlingLibrary (Binary64.ofNat 0)
    (initialState (Binary64.ofNat 0)) (Binary64.ofNat 100) (Binary64.ofNat 0)
    Reachable.init (by decide)).1 hlow
  refine ⟨Reachable.init, hlow, ?_, h.2.2 hmin⟩
  rw [h.1]
  set_option maxRecDepth 100000 in
  decide

end CapillaryBarrierRK.Doubles

namespace ForwardStepAdapt

end ForwardStepAdapt

namespace Euler

/-- The fill loop of the inlet/outlet matrix form succeeds when `n ≤ 13`; afterwards entry
`j * 4 + i` of row `p < n` of `P_plus_cache` is component `i` of `P_plus` at the state
`w_temp` of the point (which depends on the prescribed state `w_B`) and the unit vector
`e_j`. -/
theorem fillSurf_entries {α : Type} [LinearOrderedField α] (F : StegerWarmingNumericalFlux α)
    (kappa : α) (w_B : Vec4 α) (e : Geom α) (ext : Fin 4 → Func α)
    (n : Nat) (hn : n ≤ 13) (c : FluxCache α) :
    ∃ c1, (List.range n).foldlM (fillPointSurf F kappa w_B e ext) c = some c1
      ∧ c1.cacheReady = c.cacheReady
      ∧ ∀ (p : Nat) (hp : p < 13), p < n → ∀ i j : Fin 4,
          c1.P_plus_cache ⟨p, hp⟩ (blockIndex i j)
            = F.P_plus kappa (boundaryStates F kappa w_B e ext p).2 (Pi.single j 1)
                (e.nx p) (e.ny p) i := by
  induction n with
  | zero =>
    refine ⟨c, rfl, rfl, ?_⟩
    intro p hp hlt
    omega
  | succ n ih =>
    obtain ⟨cm, hm, hready, hrows⟩ := ih (by omega)
    have hn13 : n < 13 := by omega
    refine ⟨{ cm with
        P_plus_cache := Function.update cm.P_plus_cache ⟨n, hn13⟩
          (writeAt (writeAt (writeAt (writeAt (cm.P_plus_cache ⟨n, hn13⟩)
            0 (F.P_plus kappa (boundaryStates F kappa w_B e ext n).2 e_1 (e.nx n) (e.ny n)))
            4 (F.P_plus kappa (boundaryStates F kappa w_B e ext n).2 e_2 (e.nx n) (e.ny n)))
            8 (F.P_plus kappa (boundaryStates F kappa w_B e ext n).2 e_3 (e.nx n) (e.ny n)))
            12 (F.P_plus kappa (boundaryStates F kappa w_B e ext n).2 e_4 (e.nx n) (e.ny n))) },
      ?_, hready, ?_⟩
    · rw [foldlM_range_succ, hm, Option.some_bind]
      simp only [fillPointSurf, dif_pos hn13]
    · intro p hp hlt i j
      by_cases hpn : p = n
      · subst hpn
        simp only [Function.update_same]
        exact writeAt_four_apply _
          (fun x => F.P_plus kappa (boundaryStates F kappa w_B e ext p).2 x (e.nx p) (e.ny p))
          i j
      · have hne : (⟨p, hp⟩ : Fin 13) ≠ ⟨n, hn13⟩ := by
          intro heq; exact hpn (Fin.mk.inj heq)
        simp only [Function.update_noteq hne]
        exact hrows p hp (by omega) i j

/-- The accumulation loop of the inlet/outlet matrix form returns the sum, for `n ≤ 13`. -/
theorem accumulateSurf_some {α : Type} [LinearOrderedField α] (n : Nat) (hn : n ≤ 13)
    (wt : Nat → α) (rows : Fin 13 → Fin 16 → α) (index : Fin 16) (u v : Func α) :
    accumulateSurf n wt rows index u v
      = some (∑ p in Finset.range n,
          wt p * (if hp : p < 13 then rows ⟨p, hp⟩ index else 0) * u.val p * v.val p) := by
  unfold accumulateSurf
  induction n with
  | zero => simp
  | succ n ih =>
    have hn13 : n < 13 := by omega
    rw [foldlM_range_succ, ih (by omega), Option.some_bind, Finset.sum_range_succ]
    simp only [dif_pos hn13]

/-- The value of the inlet/outlet matrix form in terms of the cache that its guarded block
returns. -/
theorem surf_value_of_cache {α : Type} [LinearOrderedField α]
    (F : StegerWarmingNumericalFlux α) (f : EulerEquationsMatrixFormSemiImplicitInletOutlet α)
    (st : WeakFormState α) (n : Nat) (hn : n ≤ 13) (wt : Nat → α) (u v : Func α)
    (e : Geom α) (ext : Fin 4 → Func α) (c : FluxCache α)
    (hc : ensureCacheSurf F f.kappa f.w_B n e ext (st.cache f.cache) = some c) :
    f.value F st n wt u v e ext
      = some ((∑ p in Finset.range n,
            wt p * (if hp : p < 13 then c.P_plus_cache ⟨p, hp⟩ (blockIndex f.i f.j) else 0)
              * u.val p * v.val p) * st.current_time_step,
          st.setCache f.cache c) := by
  simp only [EulerEquationsMatrixFormSemiImplicitInletOutlet.value, hc, Option.bind_eq_bind,
    Option.some_bind, accumulateSurf_some n hn, Option.pure_def]

/-- A call of the inlet/outlet matrix form that starts with the cache not ready and
`n ≤ 13` returns; it leaves a cache flagged ready whose entries of the rows `p < n` are the
components of `P_plus` at the states `w_temp` computed from the form's own prescribed state,
and it returns the sum with these entries. -/
theorem surf_value_fresh {α : Type} [LinearOrderedField α]
    (F : StegerWarmingNumericalFlux α) (f : EulerEquationsMatrixFormSemiImplicitInletOutlet α)
    (st : WeakFormState α) (n : Nat) (hn : n ≤ 13) (wt : Nat → α) (u v : Func α)
    (e : Geom α) (ext : Fin 4 → Func α)
    (hfresh : (st.cache f.cache).cacheReady = false) :
    ∃ (r : α) (st1 : WeakFormState α), f.value F st n wt u v e ext = some (r, st1)
      ∧ r = (∑ p in Finset.range n,
            wt p * F.P_plus f.kappa (boundaryStates F f.kappa f.w_B e ext p).2
              (Pi.single f.j 1) (e.nx p) (e.ny p) f.i * u.val p * v.val p)
          * st.current_time_step
      ∧ st1.current_time_step = st.current_time_step
      ∧ (st1.cache f.cache).cacheReady = true
      ∧ ∀ (p : Nat) (hp : p < 13), p < n → ∀ i j : Fin 4,
          (st1.cache f.cache).P_plus_cache ⟨p, hp⟩ (blockIndex i j)
            = F.P_plus f.kappa (boundaryStates F f.kappa f.w_B e ext p).2 (Pi.single j 1)
                (e.nx p) (e.ny p) i := by
  obtain ⟨c1, hfold, -, hrows⟩ :=
    fillSurf_entries F f.kappa f.w_B e ext n hn (st.cache f.cache)
  have hens : ensureCacheSurf F f.kappa f.w_B n e ext (st.cache f.cache)
      = some { c1 with cacheReady := true } := by
    simp only [ensureCacheSurf, hfresh, Bool.not_false, if_true, hfold, Option.map_some']
  refine ⟨_, _, surf_value_of_cache F f st n hn wt u v e ext _ hens, ?_,
    current_time_step_setCache _ _ _, ?_, ?_⟩
  · congr 1
    apply Finset.sum_congr rfl
    intro p hmem
    have hlt : p < n := Finset.mem_range.mp hmem
    have hp : p < 13 := by omega
    rw [dif_pos hp]
    dsimp only
    rw [hrows p hp hlt f.i f.j]
  · rw [cache_setCache]
  · intro p hp hlt i j
    rw [cache_setCache]
    exact hrows p hp hlt i j

/-- A call of the inlet/outlet matrix form `B` that finds the cache ready reads whatever
the cache holds: after a call of a form `A` with the same cache that started with the cache
not ready, `B` returns the sum with the `P_plus` components computed from the `kappa` and
the prescribed state of `A`. -/
theorem surf_value_after {α : Type} [LinearOrderedField α]
    (F : StegerWarmingNumericalFlux α)
    (A B : EulerEquationsMatrixFormSemiImplicitInletOutlet α) (hslot : A.cache = B.cache)
    (st0 st1 : WeakFormState α) (n : Nat) (hn : n ≤ 13) (wtA wt : Nat → α)
    (uA vA u v : Func α) (e : Geom α) (ext : Fin 4 → Func α) (rA : α)
    (h0 : (st0.cache A.cache).cacheReady = false)
    (hcall : A.value F st0 n wtA uA vA e ext = some (rA, st1)) :
    (B.value F st1 n wt u v e ext).map Prod.fst
      = some ((∑ p in Finset.range n,
            wt p * F.P_plus A.kappa (boundaryStates F A.kappa A.w_B e ext p).2
              (Pi.single B.j 1) (e.nx p) (e.ny p) B.i * u.val p * v.val p)
          * st0.current_time_step) := by
  obtain ⟨r, s1, hval, -, hts, hready, hrows⟩ :=
    surf_value_fresh F A st0 n hn wtA uA vA e ext h0
  rw [hcall, Option.some.injEq, Prod.mk.injEq] at hval
  obtain ⟨-, hs⟩ := hval
  subst hs
  have hens : ensureCacheSurf F B.kappa B.w_B n e ext (st1.cache B.cache)
      = some (st1.cache A.cache) := by
    rw [← hslot]
    simp only [ensureCacheSurf, hready, Bool.not_true, Bool.false_eq_true, if_false]
  rw [surf_value_of_cache F B st1 n hn wt u v e ext _ hens, Option.map_some', hts]
  dsimp only
  congr 2
  apply Finset.sum_congr rfl
  intro p hmem
  have hlt : p < n := Finset.mem_range.mp hmem
  have hp : p < 13 := by omega
  rw [dif_pos hp, hrows p hp hlt B.i B.j]

/-- With `upwindFlux` all characteristics enter the domain: the boundary state is the
prescribed state, and `w_temp` is the mean of the prescribed and the inner state. -/
theorem boundaryStates_upwindFlux (kappa : ℚ) (w_B : Vec4 ℚ) (p : Nat) :
    (boundaryStates upwindFlux kappa w_B sampleGeom (fun _ => sampleFunc) p).2
      = fun k => (w_B k + 1) / 2 := by
  funext k
  simp only [boundaryStates, upwindFlux, finRange_four, sampleFunc, List.foldl_cons,
    List.foldl_nil]
  fin_cases k <;> simp

/-- C14 (counterexample): in `overlapWeakForm` marker `"1"` is an inlet and an outlet
marker, so on an edge with this marker the inlet form and the outlet form of block `(0, 0)`
are both evaluated.  With one quadrature point, weight `1`, `u = v = 1` and inner state
`(1, 1, 1, 1)`, the outlet form returns `1` when it reads the cache left ready by the inlet
form and `1 / 2` when it is called with the cache not ready. -/
theorem surf_cache_overlap :
    MatrixFormSurf.inletOutlet overlapInletForm ∈ overlapWeakForm.mfsurf
      ∧ MatrixFormSurf.inletOutlet overlapOutletForm ∈ overlapWeakForm.mfsurf
      ∧ "1" ∈ overlapInletForm.areas ∧ "1" ∈ overlapOutletForm.areas
      ∧ ∃ (rA : ℚ) (st1 : WeakFormState ℚ),
          overlapInletForm.value upwindFlux freshState 1 (fun _ => 1) sampleFunc sampleFunc
              sampleGeom (fun _ => sampleFunc) = some (rA, st1)
            ∧ (overlapOutletForm.value upwindFlux st1 1 (fun _ => 1) sampleFunc sampleFunc
                sampleGeom (fun _ => sampleFunc)).map Prod.fst = some 1
            ∧ (overlapOutletForm.value upwindFlux freshState 1 (fun _ => 1) sampleFunc
                sampleFunc sampleGeom (fun _ => sampleFunc)).map Prod.fst = some (1 / 2) := by
  refine ⟨?_, ?_, by simp [overlapInletForm], by simp [overlapOutletForm], ?_⟩
  · unfold overlapWeakForm
    rw [oneInflowCtor_mfsurf, finRange_four]
    simp [overlapInletForm]
  · unfold overlapWeakForm
    rw [oneInflowCtor_mfsurf, finRange_four]
    simp [overlapOutletForm]
  · obtain ⟨rA, st1, hcall, -, -, -, -⟩ :=
      surf_value_fresh upwindFlux overlapInletForm freshState 1 (by decide) (fun _ => 1)
        sampleFunc sampleFunc sampleGeom (fun _ => sampleFunc) rfl
    refine ⟨rA, st1, hcall, ?_, ?_⟩
    · rw [surf_value_after upwindFlux overlapInletForm overlapOutletForm rfl freshState st1 1
        (by decide) (fun _ => 1) (fun _ => 1) sampleFunc sampleFunc sampleFunc sampleFunc
        sampleGeom (fun _ => sampleFunc) rA rfl hcall]
      rw [Finset.sum_range_one, boundaryStates_upwindFlux]
      norm_num [upwindFlux, overlapInletForm, overlapOutletForm, sampleFunc, freshState,
        EulerEquationsMatrixFormSemiImplicitInletOutlet.w_B, prescribedState]
    · obtain ⟨r, s1, hval, hr, -, -, -⟩ :=
        surf_value_fresh upwindFlux overlapOutletForm freshState 1 (by decide) (fun _ => 1)
          sampleFunc sampleFunc sampleGeom (fun _ => sampleFunc) rfl
      rw [hval, Option.map_some', hr, Finset.sum_range_one, boundaryStates_upwindFlux]
      norm_num [upwindFlux, overlapOutletForm, sampleFunc, freshState,
        EulerEquationsMatrixFormSemiImplicitInletOutlet.w_B, prescribedState]

/-- C14 (amended): for a weak form built by the one-inflow constructor in which no marker is
both an inlet and an outlet marker, any two inlet/outlet matrix forms `A` and `B` that are
active on the same edge (its marker `m` belongs to the areas of both) and every `n ≤ 13`:
a call of `A.value` that starts with `cacheReadySurf == false` returns and leaves
`cacheReadySurf == true`, and `B.value` evaluated on the same `n`, `ext` and geometry with
the cache left by that call returns the same number as `B.value` evaluated with
`cacheReadySurf == false`. -/
theorem surf_cache_transparent {α σ : Type} [LinearOrderedField α]
    (F : StegerWarmingNumericalFlux α) (calc_energy : α → α → α → α → α → α)
    (kappa rho_ext v1_ext v2_ext pressure_ext : α)
    (solid_wall_markers inlet_markers outlet_markers : List String)
    (pd pdx pdy pe : σ) (fvm_only : Bool) (num_of_equations : Int)
    (A B : EulerEquationsMatrixFormSemiImplicitInletOutlet α)
    (hA : MatrixFormSurf.inletOutlet A ∈
      (EulerEquationsWeakFormSemiImplicit.oneInflowCtor calc_energy kappa rho_ext v1_ext
        v2_ext pressure_ext solid_wall_markers inlet_markers outlet_markers pd pdx pdy pe
        fvm_only num_of_equations).mfsurf)
    (hB : MatrixFormSurf.inletOutlet B ∈
      (EulerEquationsWeakFormSemiImplicit.oneInflowCtor calc_energy kappa rho_ext v1_ext
        v2_ext pressure_ext solid_wall_markers inlet_markers outlet_markers pd pdx pdy pe
        fvm_only num_of_equations).mfsurf)
    (hdisj : ∀ marker, marker ∈ inlet_markers → marker ∉ outlet_markers)
    (m : String) (hmA : m ∈ A.areas) (hmB : m ∈ B.areas)
    (st0 st0' : WeakFormState α)
    (h0 : st0.cacheSurf.cacheReady = false) (h0' : st0'.cacheSurf.cacheReady = false)
    (hts : st0'.current_time_step = st0.current_time_step)
    (n : Nat) (hn : n ≤ 13) (wtA wt : Nat → α) (uA vA u v : Func α) (e : Geom α)
    (ext : Fin 4 → Func α) :
    ∃ (rA : α) (st1 : WeakFormState α) (r : α),
      A.value F st0 n wtA uA vA e ext = some (rA, st1)
        ∧ st1.cacheSurf.cacheReady = true
        ∧ (B.value F st1 n wt u v e ext).map Prod.fst = some r
        ∧ (B.value F st0' n wt u v e ext).map Prod.fst = some r := by
  have hAeq := mem_oneInflowCtor_mfsurf calc_energy kappa rho_ext v1_ext v2_ext pressure_ext
    solid_wall_markers inlet_markers outlet_markers pd pdx pdy pe fvm_only num_of_equations
    A hA
  have hBeq := mem_oneInflowCtor_mfsurf calc_energy kappa rho_ext v1_ext v2_ext pressure_ext
    solid_wall_markers inlet_markers outlet_markers pd pdx pdy pe fvm_only num_of_equations
    B hB
  have hAk : A.kappa = kappa := by
    rcases hAeq with h | ⟨-, h⟩ <;> rw [h]
  have hBk : B.kappa = kappa := by
    rcases hBeq with h | ⟨-, h⟩ <;> rw [h]
  have hAc : A.cache = CacheSlot.Surf := by
    rcases hAeq with h | ⟨-, h⟩ <;> rw [h]
  have hBc : B.cache = CacheSlot.Surf := by
    rcases hBeq with h | ⟨-, h⟩ <;> rw [h]
  have hw : A.w_B = B.w_B := by
    rcases hAeq with hAi | ⟨-, hAo⟩ <;> rcases hBeq with hBi | ⟨-, hBo⟩
    · rw [hAi, hBi]; rfl
    · exfalso
      have h1 : m ∈ inlet_markers := by rw [hAi] at hmA; exact hmA
      have h2 : m ∈ outlet_markers := by rw [hBo] at hmB; exact hmB
      exact hdisj m h1 h2
    · exfalso
      have h1 : m ∈ inlet_markers := by rw [hBi] at hmB; exact hmB
      have h2 : m ∈ outlet_markers := by rw [hAo] at hmA; exact hmA
      exact hdisj m h1 h2
    · rw [hAo, hBo]; rfl
  obtain ⟨rA, st1, hcall, -, -, hready, -⟩ :=
    surf_value_fresh F A st0 n hn wtA uA vA e ext (by rw [hAc]; exact h0)
  obtain ⟨r, s1, hval, hr, -, -, -⟩ :=
    surf_value_fresh F B st0' n hn wt u v e ext (by rw [hBc]; exact h0')
  refine ⟨rA, st1, r, hcall, ?_, ?_, ?_⟩
  · rw [hAc] at hready
    exact hready
  · rw [surf_value_after F A B (by rw [hAc, hBc]) st0 st1 n hn wtA wt uA vA u v e ext rA
      (by rw [hAc]; exact h0) hcall, hr, hAk, hBk, hw, hts]
  · rw [hval]
    rfl

/-- Witness of C14 (amended): the inlet forms of blocks `(0, 0)` and `(1, 0)` of
`sampleWeakForm` (inlet marker `"in"`, outlet marker `"out"`), one quadrature point. -/
theorem surf_cache_transparent_witness :
    (∀ marker, marker ∈ ["in"] → marker ∉ ["out"])
      ∧ ∃ (rA : ℚ) (st1 : WeakFormState ℚ) (r : ℚ),
        EulerEquationsMatrixFormSemiImplicitInletOutlet.value upwindFlux
            ⟨0, 0, 1, 1, 0, 1, ["in"], 14 / 10, CacheSlot.Surf⟩ freshState 1 (fun _ => 1)
            sampleFunc sampleFunc sampleGeom (fun _ => sampleFunc) = some (rA, st1)
          ∧ st1.cacheSurf.cacheReady = true
          ∧ (EulerEquationsMatrixFormSemiImplicitInletOutlet.value upwindFlux
              ⟨1, 0, 1, 1, 0, 1, ["in"], 14 / 10, CacheSlot.Surf⟩ st1 1 (fun _ => 1)
              sampleFunc sampleFunc sampleGeom (fun _ => sampleFunc)).map Prod.fst = some r
          ∧ (EulerEquationsMatrixFormSemiImplicitInletOutlet.value upwindFlux
              ⟨1, 0, 1, 1, 0, 1, ["in"], 14 / 10, CacheSlot.Surf⟩ freshState 1 (fun _ => 1)
              sampleFunc sampleFunc sampleGeom (fun _ => sampleFunc)).map Prod.fst
            = some r := by
  have hdisj : ∀ marker, marker ∈ ["in"] → marker ∉ ["out"] := by
    intro marker h
    rw [List.mem_singleton] at h
    rw [h]
    decide
  have hA : MatrixFormSurf.inletOutlet
      (⟨0, 0, 1, 1, 0, 1, ["in"], 14 / 10, CacheSlot.Surf⟩ :
        EulerEquationsMatrixFormSemiImplicitInletOutlet ℚ) ∈ sampleWeakForm.mfsurf := by
    unfold sampleWeakForm
    rw [oneInflowCtor_mfsurf, finRange_four]
    simp
  have hB : MatrixFormSurf.inletOutlet
      (⟨1, 0, 1, 1, 0, 1, ["in"], 14 / 10, CacheSlot.Surf⟩ :
        EulerEquationsMatrixFormSemiImplicitInletOutlet ℚ) ∈ sampleWeakForm.mfsurf := by
    unfold sampleWeakForm
    rw [oneInflowCtor_mfsurf, finRange_four]
    simp
  exact ⟨hdisj,
    surf_cache_transparent upwindFlux (fun _ _ _ p _ => p) (14 / 10) 1 1 0 1
      ["wall"] ["in"] ["out"] () () () () false 4 _ _ hA hB hdisj "in"
      (List.mem_singleton.mpr rfl) (List.mem_singleton.mpr rfl) freshState freshState rfl rfl
      rfl 1 (by decide) (fun _ => 1) (fun _ => 1) sampleFunc sampleFunc sampleFunc sampleFunc
      sampleGeom (fun _ => sampleFunc)⟩

end Euler

namespace ForwardStepAdapt

/-- C12: in a pass of the adaptivity loop whose error estimate is `≥ ERR_STOP` and whose
coarse-space ndof is `≥ NDOF_STOP`, `done` is set to `true` and `adapt` is not called (the
number of `adapt` events is unchanged); in a pass whose error estimate is `< ERR_STOP`,
`done` is set to `true`; in both cases the adaptivity loop ends with that pass: the run goes
on with `iteration++`, `t += time_step` and, if `t < 14.5`, the first pass of the next time
step. -/
theorem adaptivity_stops (s : LoopState) (o : PassInput) (os : List PassInput) :
    (o.err_est_rel_total ≥ s.ERR_STOP → o.ndof_coarse ≥ NDOF_STOP →
        (adaptivityPass s o).done = true
          ∧ (adaptivityPass s o).events.count Event.adapt = s.events.count Event.adapt
          ∧ run s (o :: os)
            = if (endTimeStep (adaptivityPass s o)).t < 29 / 2 then
                run (beginTimeStep (endTimeStep (adaptivityPass s o))) os
              else endTimeStep (adaptivityPass s o))
      ∧ (o.err_est_rel_total < s.ERR_STOP →
        (adaptivityPass s o).done = true
          ∧ (adaptivityPass s o).events.count Event.adapt = s.events.count Event.adapt
          ∧ run s (o :: os)
            = if (endTimeStep (adaptivityPass s o)).t < 29 / 2 then
                run (beginTimeStep (endTimeStep (adaptivityPass s o))) os
              else endTimeStep (adaptivityPass s o)) := by
  have hrun : (adaptivityPass s o).done = true →
      run s (o :: os)
        = if (endTimeStep (adaptivityPass s o)).t < 29 / 2 then
            run (beginTimeStep (endTimeStep (adaptivityPass s o))) os
          else endTimeStep (adaptivityPass s o) := by
    intro hd
    rw [run]
    simp only [hd, if_true]
  constructor
  · intro herr hndof
    have hnot : ¬ o.err_est_rel_total < s.ERR_STOP := not_lt.mpr herr
    have h : (adaptivityPass s o).done = true
        ∧ (adaptivityPass s o).events.count Event.adapt = s.events.count Event.adapt := by
      unfold adaptivityPass
      split <;> simp [hnot, hndof, List.count_append]
    exact ⟨h.1, h.2, hrun h.1⟩
  · intro herr
    have h : (adaptivityPass s o).done = true
        ∧ (adaptivityPass s o).events.count Event.adapt = s.events.count Event.adapt := by
      unfold adaptivityPass
      split <;> simp [herr, List.count_append]
    exact ⟨h.1, h.2, hrun h.1⟩

/-- Witness of C12: the first pass of the run, with error estimate `10% ≥ ERR_STOP` on
`17000 ≥ NDOF_STOP` coarse dofs. -/
theorem adaptivity_stops_witness :
    passNdofStop.err_est_rel_total ≥ initialState.ERR_STOP
      ∧ passNdofStop.ndof_coarse ≥ NDOF_STOP
      ∧ (adaptivityPass initialState passNdofStop).done = true :=
  ⟨by norm_num [passNdofStop, initialState, beginTimeStep, ERR_STOP_init],
    by norm_num [passNdofStop, NDOF_STOP],
    ((adaptivity_stops initialState passNdofStop []).1
      (by norm_num [passNdofStop, initialState, beginTimeStep, ERR_STOP_init])
      (by norm_num [passNdofStop, NDOF_STOP])).1⟩

end ForwardStepAdapt

namespace MaxwellDebyeRK

/-- Counting the adaptations since the last derefinement, one event at a time. -/
theorem adaptsSinceLastDerefinement_append (events : List Event) (ev : Event) :
    adaptsSinceLastDerefinement (events ++ [ev])
      = match ev with
        | Event.adapt => adaptsSinceLastDerefinement events + 1
        | Event.derefinement => 0 := by
  unfold adaptsSinceLastDerefinement
  rw [List.foldl_append]
  cases ev <;> rfl

/-- The derefinement block keeps `REFINEMENT_COUNT` equal to the number of adaptations since
the last derefinement. -/
theorem beginTimeStep_count (s : LoopState)
    (h : s.REFINEMENT_COUNT = adaptsSinceLastDerefinement s.events) :
    (beginTimeStep s).REFINEMENT_COUNT
      = adaptsSinceLastDerefinement (beginTimeStep s).events := by
  unfold beginTimeStep
  dsimp only
  split
  · simp only [adaptsSinceLastDerefinement_append]
  · exact h

/-- A pass of the adaptivity loop keeps `REFINEMENT_COUNT` equal to the number of
adaptations since the last derefinement. -/
theorem adaptivityPass_count (s s1 : LoopState) (o : PassInput)
    (h : s.REFINEMENT_COUNT = adaptsSinceLastDerefinement s.events)
    (hp : adaptivityPass s o = some s1) :
    s1.REFINEMENT_COUNT = adaptsSinceLastDerefinement s1.events := by
  unfold adaptivityPass at hp
  split at hp
  · cases hp
  · split at hp
    · simp only [Option.some.injEq] at hp
      rw [← hp]
      exact h
    · simp only [Option.some.injEq] at hp
      rw [← hp]
      split <;> simp only [adaptsSinceLastDerefinement_append, h]

/-- Along every run, `REFINEMENT_COUNT` is the number of adaptations since the last
derefinement. -/
theorem run_count (inputs : List PassInput) (s : LoopState)
    (h : s.REFINEMENT_COUNT = adaptsSinceLastDerefinement s.events) :
    (run s inputs).REFINEMENT_COUNT = adaptsSinceLastDerefinement (run s inputs).events := by
  induction inputs generalizing s with
  | nil => exact h
  | cons o os ih =>
    rw [run]
    cases hp : adaptivityPass s o with
    | none => exact h
    | some s1 =>
      have h1 := adaptivityPass_count s s1 o h hp
      dsimp only
      split
      · split
        · apply ih
          apply beginTimeStep_count
          exact h1
        · exact h1
      · exact ih s1 h1

/-- In every state in which a pass starts, `REFINEMENT_COUNT` is the number of adaptations
since the last derefinement. -/
theorem Reachable.count {s : LoopState} (h : Reachable s) :
    s.REFINEMENT_COUNT = adaptsSinceLastDerefinement s.events := by
  induction h with
  | init =>
    unfold initialState
    apply beginTimeStep_count
    rfl
  | nextPass s s1 o _ hp _ ih => exact adaptivityPass_count s s1 o ih hp
  | nextTimeStep s s1 o _ hp _ _ ih =>
    apply beginTimeStep_count
    exact adaptivityPass_count s s1 o ih hp

/-- Unfolding the time loop at a pass after which the adaptivity loop goes on. -/
theorem run_next_pass (s s1 : LoopState) (o : PassInput) (os : List PassInput)
    (hp : adaptivityPass s o = some s1) (hd : s1.done = false) :
    run s (o :: os) = run s1 os := by
  rw [run, hp]
  simp [hd]

/-- Unfolding the time loop at a pass that ends a time step before `T_FINAL`. -/
theorem run_next_time_step (s s1 : LoopState) (o : PassInput) (os : List PassInput)
    (hp : adaptivityPass s o = some s1) (hd : s1.done = true)
    (ht : (endTimeStep s1).current_time < T_FINAL) :
    run s (o :: os) = run (beginTimeStep (endTimeStep s1)) os := by
  rw [run, hp]
  simp only [hd, ht, if_true]

/-- Unfolding the time loop at the pass that ends the last time step. -/
theorem run_last_time_step (s s1 : LoopState) (o : PassInput) (os : List PassInput)
    (hp : adaptivityPass s o = some s1) (hd : s1.done = true)
    (ht : ¬ (endTimeStep s1).current_time < T_FINAL) :
    run s (o :: os) = endTimeStep s1 := by
  rw [run, hp]
  simp only [hd, ht, if_true, if_false]

/-- Every state in which a pass starts is reached by the time loop from the start of the
program: some list of pass results takes `run` from `initialState` to that state. -/
theorem Reachable.run_prefix {s : LoopState} (h : Reachable s) :
    ∃ pre : List PassInput, ∀ rest : List PassInput,
      run initialState (pre ++ rest) = run s rest := by
  induction h with
  | init => exact ⟨[], fun _ => rfl⟩
  | nextPass s s1 o _ hp hd ih =>
    obtain ⟨pre, hpre⟩ := ih
    refine ⟨pre ++ [o], fun rest => ?_⟩
    rw [List.append_assoc, hpre, List.singleton_append, run_next_pass s s1 o rest hp hd]
  | nextTimeStep s s1 o _ hp hd ht ih =>
    obtain ⟨pre, hpre⟩ := ih
    refine ⟨pre ++ [o], fun rest => ?_⟩
    rw [List.append_assoc, hpre, List.singleton_append,
      run_next_time_step s s1 o rest hp hd ht]

/-- A pass of the adaptivity loop does not derefine and leaves `ts` and `current_time`. -/
theorem adaptivityPass_frame (s s1 : LoopState) (o : PassInput)
    (hp : adaptivityPass s o = some s1) :
    s1.events.count Event.derefinement = s.events.count Event.derefinement
      ∧ s1.ts = s.ts ∧ s1.current_time = s.current_time := by
  unfold adaptivityPass at hp
  split at hp
  · cases hp
  · split at hp
    · simp only [Option.some.injEq] at hp
      rw [← hp]
      exact ⟨rfl, rfl, rfl⟩
    · simp only [Option.some.injEq] at hp
      rw [← hp]
      split <;> simp [List.count_append]

/-- The state in which the next time step starts, written out. -/
theorem beginTimeStep_endTimeStep (s1 : LoopState) :
    beginTimeStep (endTimeStep s1)
      = { current_time := s1.current_time + time_step, ts := s1.ts + 1,
          REFINEMENT_COUNT :=
            if s1.ts + 1 > 1 ∧ (s1.ts + 1) % UNREF_FREQ = 0 ∧ s1.REFINEMENT_COUNT > 0 then 0
            else s1.REFINEMENT_COUNT,
          as := 1, done := false,
          events :=
            if s1.ts + 1 > 1 ∧ (s1.ts + 1) % UNREF_FREQ = 0 ∧ s1.REFINEMENT_COUNT > 0 then
              s1.events ++ [Event.derefinement]
            else s1.events } := by
  have hdec : ((decide (s1.ts + 1 > 1) && (s1.ts + 1) % UNREF_FREQ == 0
      && decide (s1.REFINEMENT_COUNT > 0)) = true)
      ↔ (s1.ts + 1 > 1 ∧ (s1.ts + 1) % UNREF_FREQ = 0 ∧ s1.REFINEMENT_COUNT > 0) := by
    simp only [Bool.and_eq_true, decide_eq_true_eq, beq_iff_eq, and_assoc]
  unfold beginTimeStep endTimeStep
  dsimp only
  by_cases h : s1.ts + 1 > 1 ∧ (s1.ts + 1) % UNREF_FREQ = 0 ∧ s1.REFINEMENT_COUNT > 0
  · rw [if_pos h, if_pos h, if_pos (hdec.mpr h)]
  · rw [if_neg h, if_neg h, if_neg (mt hdec.mp h)]

/-- The state in which the pass of time step `4` starts after one adaptation in time step
`1` is reached by the program. -/
theorem reachable_time_step_4 : Reachable ⟨3 / 100000, 4, 1, 1, false, [Event.adapt]⟩ := by
  have h1 : Reachable ⟨1 / 100000, 2, 1, 1, false, [Event.adapt]⟩ := by
    have h := Reachable.nextTimeStep initialState ⟨0, 1, 1, 1, true, [Event.adapt]⟩
      passAdaptDone Reachable.init
      (by norm_num [adaptivityPass, initialState, beginTimeStep, passAdaptDone, ERR_STOP,
        ADAPTIVITY_STEPS, UNREF_FREQ])
      rfl (by norm_num [endTimeStep, time_step, T_FINAL])
    norm_num [beginTimeStep, endTimeStep, time_step, UNREF_FREQ] at h
    exact h
  have h2 : Reachable ⟨1 / 50000, 3, 1, 1, false, [Event.adapt]⟩ := by
    have h := Reachable.nextTimeStep _ ⟨1 / 100000, 2, 1, 1, true, [Event.adapt]⟩
      passConverged h1
      (by norm_num [adaptivityPass, passConverged, ERR_STOP, ADAPTIVITY_STEPS])
      rfl (by norm_num [endTimeStep, time_step, T_FINAL])
    norm_num [beginTimeStep, endTimeStep, time_step, UNREF_FREQ] at h
    exact h
  have h := Reachable.nextTimeStep _ ⟨1 / 50000, 3, 1, 1, true, [Event.adapt]⟩
    passConverged h2
    (by norm_num [adaptivityPass, passConverged, ERR_STOP, ADAPTIVITY_STEPS])
    rfl (by norm_num [endTimeStep, time_step, T_FINAL])
  norm_num [beginTimeStep, endTimeStep, time_step, UNREF_FREQ] at h
  exact h

/-- C11: in every run of the time loop, for a pass of the adaptivity loop that starts in a
state `s` the program reaches and ends in `s1`: the run from program start does arrive at
`s`; `REFINEMENT_COUNT` equals the number of calls of `adapt` since the last derefinement
(since program start if there was none), before and after the pass; the pass does not
derefine; the first time step starts with `ts = 1` and no derefinement; if the pass leaves
`done == false` the adaptivity loop goes on in `s1`; if it sets `done` and the loop
condition holds, the next time step `ts + 1` starts with a derefinement that resets
`REFINEMENT_COUNT` to `0` exactly when `ts + 1 > 1`, `(ts + 1) % UNREF_FREQ == 0` and
`REFINEMENT_COUNT > 0`, and without one otherwise; if the loop condition fails the run ends
with no derefinement. -/
theorem derefinement_rule (s : LoopState) (hs : Reachable s) (o : PassInput)
    (os : List PassInput) (s1 : LoopState) (hp : adaptivityPass s o = some s1) :
    (∃ pre : List PassInput, ∀ rest : List PassInput,
        run initialState (pre ++ rest) = run s rest)
      ∧ s.REFINEMENT_COUNT = adaptsSinceLastDerefinement s.events
      ∧ s1.REFINEMENT_COUNT = adaptsSinceLastDerefinement s1.events
      ∧ s1.events.count Event.derefinement = s.events.count Event.derefinement
      ∧ s1.ts = s.ts
      ∧ (initialState.ts = 1 ∧ initialState.events = [])
      ∧ (s1.done = false → run s (o :: os) = run s1 os)
      ∧ (s1.done = true → s1.current_time + time_step < T_FINAL →
          run s (o :: os)
            = run
                { current_time := s1.current_time + time_step, ts := s1.ts + 1,
                  REFINEMENT_COUNT :=
                    if s1.ts + 1 > 1 ∧ (s1.ts + 1) % UNREF_FREQ = 0
                        ∧ s1.REFINEMENT_COUNT > 0 then 0
                    else s1.REFINEMENT_COUNT,
                  as := 1, done := false,
                  events :=
                    if s1.ts + 1 > 1 ∧ (s1.ts + 1) % UNREF_FREQ = 0
                        ∧ s1.REFINEMENT_COUNT > 0 then
                      s1.events ++ [Event.derefinement]
                    else s1.events }
                os)
      ∧ (s1.done = true → ¬ s1.current_time + time_step < T_FINAL →
          run s (o :: os)
            = { current_time := s1.current_time + time_step, ts := s1.ts + 1,
                REFINEMENT_COUNT := s1.REFINEMENT_COUNT, as := s1.as, done := true,
                events := s1.events }) := by
  have hf := adaptivityPass_frame s s1 o hp
  refine ⟨hs.run_prefix, hs.count, adaptivityPass_count s s1 o hs.count hp, hf.1, hf.2.1,
    ⟨rfl, rfl⟩, ?_, ?_, ?_⟩
  · intro hd
    exact run_next_pass s s1 o os hp hd
  · intro hd ht
    rw [run_next_time_step s s1 o os hp hd ht, beginTimeStep_endTimeStep]
  · intro hd ht
    rw [run_last_time_step s s1 o os hp hd ht]
    simp [endTimeStep, hd]

/-- Witness of C11: the pass of time step `4`, after one adaptation in time step `1`, ends
the time step, and time step `5` starts with a derefinement. -/
theorem derefinement_rule_witness :
    Reachable ⟨3 / 100000, 4, 1, 1, false, [Event.adapt]⟩
      ∧ adaptivityPass ⟨3 / 100000, 4, 1, 1, false, [Event.adapt]⟩ passConverged
        = some ⟨3 / 100000, 4, 1, 1, true, [Event.adapt]⟩
      ∧ run ⟨3 / 100000, 4, 1, 1, false, [Event.adapt]⟩ [passConverged]
        = ⟨4 / 100000, 5, 0, 1, false, [Event.adapt, Event.derefinement]⟩ := by
  have hp : adaptivityPass ⟨3 / 100000, 4, 1, 1, false, [Event.adapt]⟩ passConverged
      = some ⟨3 / 100000, 4, 1, 1, true, [Event.adapt]⟩ := by
    norm_num [adaptivityPass, passConverged, ERR_STOP, ADAPTIVITY_STEPS]
  have h := (derefinement_rule _ reachable_time_step_4 passConverged [] _ hp).2.2.2.2.2.2.2.1
    rfl (by norm_num [time_step, T_FINAL])
  refine ⟨reachable_time_step_4, hp, ?_⟩
  rw [h]
  norm_num [run, time_step, UNREF_FREQ]

/-- C13 (evaluation at the failing input): in the first adaptivity pass of the run, with
`ndof = 7000 > NDOF_STOP` and error estimate `10% ≥ ERR_STOP`, `adapt` is called and, as it
returns `false`, the adaptivity loop goes on with `as = 2`; and no pass depends on
`ndof`. -/
theorem ndof_stop_not_checked :
    passOverNdofStop.ndof > NDOF_STOP
      ∧ adaptivityPass initialState passOverNdofStop
        = some { current_time := 0, ts := 1, REFINEMENT_COUNT := 1, as := 2, done := false,
                 events := [Event.adapt] }
      ∧ ∀ (s : LoopState) (o : PassInput) (ndof : Int),
          adaptivityPass s { o with ndof := ndof } = adaptivityPass s o := by
  refine ⟨by decide, ?_, ?_⟩
  · norm_num [adaptivityPass, initialState, beginTimeStep, passOverNdofStop, ERR_STOP,
      ADAPTIVITY_STEPS, UNREF_FREQ]
  · intro s o ndof
    rfl

end MaxwellDebyeRK

namespace GammChannel

/-- The initialisation loop, run over the first `m` entries, keeps the length of the array
and leaves `false` in the entries below `m`. -/
theorem clear_prefix (l : List Bool) (m : Nat) :
    ((List.range m).foldl (fun arr i => arr.set i false) l).length = l.length
      ∧ ∀ k : Nat, k < m → k < l.length →
        ((List.range m).foldl (fun arr i => arr.set i false) l)[k]? = some false := by
  induction m with
  | zero =>
    refine ⟨rfl, ?_⟩
    intro k hk
    omega
  | succ m ih =>
    rw [List.range_succ, List.foldl_append]
    simp only [List.foldl_cons, List.foldl_nil, List.length_set]
    refine ⟨ih.1, ?_⟩
    intro k hk hlen
    by_cases hkm : k = m
    · subst hkm
      rw [List.getElem?_set_self]
      rw [ih.1]
      exact hlen
    · rw [List.getElem?_set_ne (Ne.symm hkm)]
      exact ih.2 k (by omega) hlen

/-- After the initialisation loop the array has `max_element_id + 1` entries, all
`false`. -/
theorem clearIndicator_spec (inp : IndicatorInput) :
    (clearIndicator inp).length = inp.max_element_id + 1
      ∧ ∀ k : Nat, (clearIndicator inp)[k]? ≠ some true := by
  have halloc : (allocate inp).length = inp.max_element_id + 1 := by
    rw [allocate, List.length_map, List.length_range]
  have h := clear_prefix (allocate inp) (inp.max_element_id + 1)
  refine ⟨by rw [clearIndicator, h.1, halloc], ?_⟩
  intro k hk
  by_cases hlt : k < inp.max_element_id + 1
  · have := h.2 k hlt (by omega)
    unfold clearIndicator at hk
    rw [this] at hk
    cases hk
  · have hlen : (clearIndicator inp).length ≤ k := by
      rw [clearIndicator, h.1, halloc]
      omega
    rw [List.getElem?_eq_none hlen] at hk
    cases hk

/-- The loop over the active elements, when all their ids are inside the array: it returns,
keeps the length, and an entry is `true` afterwards exactly if it was `true` before or is
the id of a visited element whose right-hand-side entry is `≥ 1`. -/
theorem mark_spec (inp : IndicatorInput) (els : List Element) (arr : List Bool)
    (hids : ∀ e ∈ els, e.id < arr.length) :
    ∃ d, els.foldlM (markElement inp) arr = some d ∧ d.length = arr.length
      ∧ ∀ k : Nat, d[k]? = some true
          ↔ (arr[k]? = some true
              ∨ ∃ e ∈ els, e.id = k ∧ inp.rhs_get (inp.first_dof e) ≥ 1) := by
  induction els generalizing arr with
  | nil =>
    refine ⟨arr, rfl, rfl, ?_⟩
    intro k
    simp
  | cons e es ih =>
    have he : e.id < arr.length := hids e (List.mem_cons_self e es)
    by_cases hr : inp.rhs_get (inp.first_dof e) ≥ 1
    · have hstep : markElement inp arr e = some (arr.set e.id true) := by
        simp only [markElement, hr, he, if_true]
      obtain ⟨d, hd, hlen, hspec⟩ := ih (arr.set e.id true) (by
        intro x hx
        rw [List.length_set]
        exact hids x (List.mem_cons_of_mem e hx))
      refine ⟨d, ?_, by rw [hlen, List.length_set], ?_⟩
      · rw [List.foldlM_cons, hstep]
        exact hd
      · intro k
        rw [hspec k]
        by_cases hk : e.id = k
        · subst hk
          rw [List.getElem?_set_self he]
          constructor
          · intro _
            exact Or.inr ⟨e, List.mem_cons_self e es, rfl, hr⟩
          · intro _
            exact Or.inl rfl
        · rw [List.getElem?_set_ne hk]
          constructor
          · rintro (h | ⟨x, hx, hxk, hxr⟩)
            · exact Or.inl h
            · exact Or.inr ⟨x, List.mem_cons_of_mem e hx, hxk, hxr⟩
          · rintro (h | ⟨x, hx, hxk, hxr⟩)
            · exact Or.inl h
            · rcases List.mem_cons.mp hx with hxe | hxes
              · exfalso
                apply hk
                rw [← hxe]
                exact hxk
              · exact Or.inr ⟨x, hxes, hxk, hxr⟩
    · have hstep : markElement inp arr e = some arr := by
        simp only [markElement, hr, if_false]
      obtain ⟨d, hd, hlen, hspec⟩ := ih arr (by
        intro x hx
        exact hids x (List.mem_cons_of_mem e hx))
      refine ⟨d, ?_, hlen, ?_⟩
      · rw [List.foldlM_cons, hstep]
        exact hd
      · intro k
        rw [hspec k]
        constructor
        · rintro (h | ⟨x, hx, hxk, hxr⟩)
          · exact Or.inl h
          · exact Or.inr ⟨x, List.mem_cons_of_mem e hx, hxk, hxr⟩
        · rintro (h | ⟨x, hx, hxk, hxr⟩)
          · exact Or.inl h
          · rcases List.mem_cons.mp hx with hxe | hxes
            · exfalso
              apply hr
              rw [← hxe]
              exact hxr
            · exact Or.inr ⟨x, hxes, hxk, hxr⟩

/-- C15: when every active element id is `≤ max_element_id`, the indicator block writes
only inside the array (it returns an array), the array has `max_element_id + 1` entries, and
for every index
`k < max_element_id + 1` the entry `discreteIndicator[k]` is `true` if and only if `k` is
the id of an active element whose entry of the stabilization right-hand side at the
element's first dof is `≥ 1`. -/
theorem discreteIndicator_spec (inp : IndicatorInput)
    (hids : ∀ e ∈ inp.active_elements, e.id ≤ inp.max_element_id) :
    ∃ discreteIndicator, indicatorBlock inp = some discreteIndicator
      ∧ discreteIndicator.length = inp.max_element_id + 1
      ∧ (∀ k : Nat, k < inp.max_element_id + 1 →
          (discreteIndicator[k]? = some true
            ↔ ∃ e ∈ inp.active_elements,
                e.id = k ∧ inp.rhs_get (inp.first_dof e) ≥ 1))
      ∧ (∀ k : Nat, k < inp.max_element_id + 1 →
          (discreteIndicator[k]? = some false
            ↔ ¬ ∃ e ∈ inp.active_elements,
                e.id = k ∧ inp.rhs_get (inp.first_dof e) ≥ 1)) := by
  obtain ⟨hclen, hcfalse⟩ := clearIndicator_spec inp
  obtain ⟨d, hd, hlen, hspec⟩ := mark_spec inp inp.active_elements (clearIndicator inp) (by
    intro e he
    rw [hclen]
    exact Nat.lt_succ_of_le (hids e he))
  have htrue : ∀ k : Nat, d[k]? = some true
      ↔ ∃ e ∈ inp.active_elements, e.id = k ∧ inp.rhs_get (inp.first_dof e) ≥ 1 := by
    intro k
    rw [hspec k]
    constructor
    · rintro (h | h)
      · exact absurd h (hcfalse k)
      · exact h
    · intro h
      exact Or.inr h
  refine ⟨d, hd, by rw [hlen, hclen], fun k _ => htrue k, ?_⟩
  intro k hk
  rw [← htrue k]
  have hkd : k < d.length := by rw [hlen, hclen]; exact hk
  rw [List.getElem?_eq_getElem hkd]
  cases d[k] <;> simp

/-- Witness of C15: on `sampleIndicatorInput` the block returns
`[false, true, false, false]`. -/
theorem discreteIndicator_spec_witness :
    (∀ e ∈ sampleIndicatorInput.active_elements,
          e.id ≤ sampleIndicatorInput.max_element_id)
      ∧ indicatorBlock sampleIndicatorInput = some [false, true, false, false]
      ∧ ∃ discreteIndicator, indicatorBlock sampleIndicatorInput = some discreteIndicator
          ∧ discreteIndicator.length = sampleIndicatorInput.max_element_id + 1 := by
  have hids : ∀ e ∈ sampleIndicatorInput.active_elements,
      e.id ≤ sampleIndicatorInput.max_element_id := by
    intro e he
    simp only [sampleIndicatorInput, List.mem_cons, List.mem_singleton, List.not_mem_nil,
      or_false] at he
    rcases he with h | h <;> rw [h] <;> decide
  obtain ⟨d, hd, hlen, -⟩ := discreteIndicator_spec sampleIndicatorInput hids
  refine ⟨hids, ?_, d, hd, hlen⟩
  norm_num [indicatorBlock, clearIndicator, allocate, markElement, sampleIndicatorInput,
    List.range_succ]

end GammChannel
